import Mathlib

/-!
# BraneScript compiler front end: a shallow embedding

The definitions below follow `src/scripting/compiler.cpp` function by function.
C++ strings are `String`, vectors are `List` (the back of a vector is the last
element of the list), maps are association lists with unique keys, pointers
that may be null are `Option` (for `AotNode*` the constructor `AotNode.null`).
A run that ends in an uncaught exception, a failed assertion or a null
dereference is `Outcome.abort`.
-/

namespace BraneScript

/-! ## Parse tree tokens and types -/

/-- Token of the parse tree: the fields of `antlr4::Token` the compiler reads. -/
structure Token where
  text : String
  line : Nat
  charPositionInLine : Nat
  channel : Nat

/-- Enumerated categories of a `TypeDef` (`ValueType`). -/
inductive ValueType where
  | Void | Bool | Char | Int32 | Int64 | Float32 | Float64 | Struct | ObjectRef
  deriving DecidableEq

/-- Member record of a struct definition: name, committed offset and type. -/
structure StructMemberOf (T : Type) where
  name : String
  offset : Nat
  type : T

/-- Type descriptor `TypeDef`; `struct` is the subclass `StructDef`, the one a
`dynamic_cast<StructDef*>` accepts. The bodies of `name()`, `type()` and
`size()` are not in the sources, so the three answers are stored fields. -/
inductive TypeDef where
  | native (name : String) (type : ValueType) (size : Nat)
  | struct (name : String) (type : ValueType) (size : Nat)
      (members : List (StructMemberOf TypeDef))

/-- Member of a `StructDef`. -/
abbrev StructMember := StructMemberOf TypeDef

/-- Answer of `TypeDef::name()`. -/
def TypeDef.name : TypeDef → String
  | .native n _ _ => n
  | .struct n _ _ _ => n

/-- Answer of `TypeDef::type()`. -/
def TypeDef.type : TypeDef → ValueType
  | .native _ t _ => t
  | .struct _ t _ _ => t

/-- Answer of `TypeDef::size()`. -/
def TypeDef.size : TypeDef → Nat
  | .native _ _ s => s
  | .struct _ _ s _ => s

/-- Members of a `StructDef`, none for a type that is not a struct. -/
def TypeDef.members : TypeDef → List StructMember
  | .native _ _ _ => []
  | .struct _ _ _ ms => ms

/-- Result of `dynamic_cast<StructDef*>`: the type itself when it is a
`StructDef`, null otherwise (and for a null pointer). -/
def dynamicCastStructDef : Option TypeDef → Option TypeDef
  | some (.struct n t s ms) => some (.struct n t s ms)
  | _ => none

/-- Lookup `StructDef::getMember(name)`: the first member with that name. -/
def getMember (structDef : TypeDef) (name : String) : Option StructMember :=
  structDef.members.find? (fun m => m.name == name)

/-! ## AOT nodes -/

/-- Payload of an `AotConst` (the `std::any` it holds). A float literal keeps
the text handed to `std::stof`. -/
inductive ConstValue where
  | bool (b : Bool)
  | int32 (v : Int)
  | float (text : String)

/-- The four arithmetic node classes `AotAddNode`, `AotSubNode`, `AotMulNode`
and `AotDivNode`. -/
inductive ArithOp where
  | Add | Sub | Mul | Div
  deriving DecidableEq

/-- Modes of `AotCompareNode::Mode` the compiler uses. -/
inductive CompareMode where
  | Equal | NotEqual | Greater | GreaterEqual
  deriving DecidableEq

/-- Class `AotValueNode`: local index, type, const and ref flags. The scope
maps hold these by value. -/
structure AotValueNode where
  lValueID : Nat
  type : Option TypeDef
  constant : Bool
  ref : Bool

/-- Pointer `AotNode*`: `null` is the null pointer, every other constructor is
a node class with the arguments `compiler.cpp` passes to its constructor. -/
inductive AotNode where
  | null
  | AotConst (value : ConstValue) (resType : Option TypeDef)
  | AotValueNode (v : AotValueNode)
  | AotDerefNode (value : AotNode) (type : Option TypeDef) (offset : Nat)
  | AotAssignNode (lValue rValue : AotNode)
  | AotScope (operations : List AotNode)
  | AotArith (op : ArithOp) (left right : AotNode)
  | AotCastNode (arg : AotNode) (type : Option TypeDef)
  | AotReturnNode
  | AotReturnValueNode (retVal : AotNode)
  | AotIf (condition operation : AotNode)
  | AotWhile (condition operation : AotNode)
  | AotCompareNode (mode : CompareMode) (a b : AotNode)
  | AotFunctionCall (fIndex : Nat) (retType : Option TypeDef) (arguments : List AotNode)
  | AotExternalFunctionCall (libIndex : Nat) (functionName : String)
      (retType : Option TypeDef) (arguments : List AotNode)
  | AotNewNode (structType : Option TypeDef)
  | AotDeleteNode (ptr : AotNode)

/-- Null test on an `AotNode*` (`!node`). -/
def AotNode.isNull : AotNode → Bool
  | .null => true
  | _ => false

/-! ## Outcome of a run -/

/-- Outcome of running a piece of the compiler: a result, or an abort (uncaught
exception, failed assertion, null dereference). -/
inductive Outcome (α : Type) where
  | ok (a : α)
  | abort

/-! ## Collaborators -/

/-- Collaborator `Library`. -/
structure Library where
  getFunctionReturnT : String → String

/-- Collaborator `Linker`. -/
structure Linker where
  getType : String → Option TypeDef
  getLibrary : String → Option Library

/-! ## Compiler state -/

/-- One lexical scope: the map `localValues`. -/
structure Scope where
  localValues : List (String × AotValueNode)

/-- Lookup `localValues.find(name)`. -/
def Scope.find (s : Scope) (name : String) : Option AotValueNode :=
  s.localValues.lookup name

/-- Count `localValues.count(name)`. -/
def Scope.count (s : Scope) (name : String) : Nat :=
  match s.find name with
  | some _ => 1
  | none => 0

/-- Insertion `localValues.emplace(name, v)`: an existing key keeps its value. -/
def Scope.emplace (s : Scope) (name : String) (v : AotValueNode) : Scope :=
  match s.find name with
  | some _ => s
  | none => { localValues := s.localValues ++ [(name, v)] }

/-- Storage kinds `ValueStorageType_*`. -/
inductive ValueStorageType where
  | Null | Reg | Ptr | StackPtr | DerefPtr | Const
  deriving DecidableEq

/-- Triple `valueIndex` of an `AotValue`. -/
structure ValueIndex where
  index : Nat
  valueType : ValueType
  storageType : ValueStorageType

/-- Comparison kinds `AotValue::compareType`. -/
inductive CompareType where
  | NoRes | EqualRes | NotEqualRes | AboveRes | GreaterRes | AboveEqualRes | GreaterEqualRes
  deriving DecidableEq

/-- Value descriptor `AotValue`. A default-constructed one has a null `def`,
no flags, `Null` storage and no comparison. -/
structure AotValue where
  typeDef : Option TypeDef
  flags : Nat
  valueIndex : ValueIndex
  compareType : CompareType

/-- Opcodes the compiler context appends. -/
inductive Opcode where
  | MOV | SETE | SETNE | SETA | SETG | SETAE | SETGE
  deriving DecidableEq

/-- One appended instruction: `appendCode(op, operands…)`. -/
structure Instruction where
  op : Opcode
  operands : List ValueIndex

/-- Function under construction `ScriptFunction`. -/
structure ScriptFunction where
  name : String
  returnType : String
  arguments : List String
  code : List Instruction

/-- Wire form of a struct member in `IRStructDef`. -/
structure IRStructMember where
  name : String
  offset : Nat
  type : String

/-- Wire form `IRScript::IRStructDef`. -/
structure IRStructDef where
  name : String
  packed : Bool
  members : List IRStructMember

/-- Emitted artifact `IRScript`. -/
structure IRScript where
  localFunctions : List ScriptFunction
  localStructs : List IRStructDef
  linkedLibraries : List String

/-- Compiler context `CompilerCtx`. `function` points into
`script.localFunctions`; it is kept as the position of the pointee. The keys of
`localStructIndices` are pointers to the elements of `localStructDefs`; they are
kept as the positions of the pointees. -/
structure CompilerCtx where
  script : IRScript
  function : Option Nat
  regIndex : Nat
  memIndex : Nat
  markIndex : Nat
  lValues : List (Nat × AotValue)
  returnCalled : Bool
  libraryAliases : List (String × Nat)
  localStructDefs : List TypeDef
  localStructIndices : List (Nat × Nat)

/-- The part of the context a node's `generateBytecode` works on: the code
buffer of the current function, the three counters and the local table. -/
structure EmitState where
  code : List Instruction
  regIndex : Nat
  memIndex : Nat
  markIndex : Nat
  lValues : List (Nat × AotValue)

/-- Everything the compiler is given besides the parse tree: the linker (which
may be null), whether assertions are compiled out (`NDEBUG`), the table
`getNativeTypeDef`, the emitters of the node classes, the native arithmetic on
constants that involve a float, the conversion of a constant to another
type, the library call `std::stof` (which throws, that is aborts, on a text that
is no number or whose value is out of the range of `float`; the value it
returns is kept as a text), and the two flag masks `AotValue::Temp` and
`AotValue::Constexpr` (enumerators of the `uint8_t` flag set). None of these
has its body or value in the sources. -/
structure Env where
  linker : Option Linker
  ndebug : Bool
  getNativeTypeDef : ValueType → Option TypeDef
  generateBytecode : AotNode → EmitState → Outcome EmitState
  floatArith : ArithOp → ConstValue → ConstValue → ConstValue
  castConst : ConstValue → Option TypeDef → ConstValue
  stof : String → Outcome String
  flagTemp : Nat
  flagConstexpr : Nat

/-- The mutable members of `Compiler`. -/
structure Compiler where
  _errors : List String
  _scopes : List Scope
  _lValueIDCount : Nat
  _privateTypes : List (String × TypeDef)
  _ctx : CompilerCtx

/-! ## Diagnostics -/

/-- Overload `throwError(const std::string& message)`. -/
def throwErrorMessage (message : String) (c : Compiler) : Compiler :=
  { c with _errors := c._errors ++ [message] }

/-- The string `throwError(line, position, context, message)` builds. -/
def errorText (line position : Nat) (context message : String) : String :=
  let error := "Compile Error at [" ++ toString line ++ ":" ++ toString position ++ "] " ++ message
  if context.isEmpty then error else error ++ ": " ++ context

/-- Overload `throwError(size_t line, size_t position, context, message)`. -/
def throwErrorPos (line position : Nat) (context message : String) (c : Compiler) : Compiler :=
  { c with _errors := c._errors ++ [errorText line position context message] }

/-- Overload `throwError(antlr4::Token* token, message)` for a token that is
present. -/
def throwErrorToken (token : Token) (message : String) (c : Compiler) : Compiler :=
  throwErrorPos token.line token.charPositionInLine token.text message c

/-- Method `Compiler::contextValid`. -/
def contextValid (c : Compiler) : Bool :=
  c._errors.isEmpty

/-! ## Types and scopes -/

/-- Method `Compiler::getType`: the private types first, then the linker; a
null linker is dereferenced, which aborts. -/
def getType (env : Env) (c : Compiler) (typeName : String) : Outcome (Option TypeDef) :=
  match c._privateTypes.lookup typeName with
  | some t => .ok (some t)
  | none =>
    match env.linker with
    | none => .abort
    | some l => .ok (l.getType typeName)

/-- Loop of `Compiler::localValueExists` over the scopes, front to back. -/
def localValueExistsLoop : List Scope → String → Bool
  | [], _ => false
  | s :: rest, name => if s.count name ≠ 0 then true else localValueExistsLoop rest name

/-- Method `Compiler::localValueExists`. -/
def localValueExists (c : Compiler) (name : String) : Bool :=
  localValueExistsLoop c._scopes name

/-- Loop of `Compiler::getValueNode` over the scopes in the order given (the
caller hands them over back to front). -/
def getValueNodeLoop : List Scope → String → AotNode
  | [], _ => .null
  | i :: rest, name =>
    match i.find name with
    | some v => .AotValueNode v
    | none => getValueNodeLoop rest name

/-- Method `Compiler::getValueNode`: walks `_scopes` from `rbegin` to `rend`. -/
def getValueNode (c : Compiler) (name : String) : AotNode :=
  getValueNodeLoop c._scopes.reverse name

/-- Method `Compiler::pushScope`. -/
def pushScope (c : Compiler) : Compiler :=
  { c with _scopes := c._scopes ++ [{ localValues := [] }] }

/-- Method `Compiler::popScope`. -/
def popScope (c : Compiler) : Compiler :=
  { c with _scopes := c._scopes.dropLast }

/-- Method `Compiler::registerLocalValue`. The counter and the index are
`uint16_t`; `_scopes.back()` on an empty stack aborts. -/
def registerLocalValue (env : Env) (c : Compiler) (name type : String) (constant ref : Bool) :
    Outcome (Nat × Compiler) :=
  match getType env c type with
  | .abort => .abort
  | .ok typeDef =>
    if typeDef.isNone && !env.ndebug then .abort
    else
      let index := c._lValueIDCount % 65536
      match c._scopes.getLast? with
      | none => .abort
      | some back =>
        .ok (index, { c with
          _lValueIDCount := (c._lValueIDCount + 1) % 65536
          _scopes := c._scopes.dropLast ++ [back.emplace name ⟨index, typeDef, constant, ref⟩] })

/-- Parse node `declaration`: `isConst` and `isRef` are the optional qualifier
tokens. -/
structure DeclarationContext where
  id : Token
  type : Token
  isConst : Option Token
  isRef : Option Token

/-- Method `Compiler::visitDeclaration`. -/
def visitDeclaration (env : Env) (context : DeclarationContext) (c : Compiler) :
    Outcome (AotNode × Compiler) :=
  let name := context.id.text
  match getType env c context.type.text with
  | .abort => .abort
  | .ok none => .ok (.null, throwErrorToken context.type "Undefined type" c)
  | .ok (some type) =>
    if localValueExists c name then
      .ok (.null, throwErrorToken context.id "Identifier is already in use" c)
    else
      match context.isRef, decide (type.type ≠ ValueType.ObjectRef) with
      | some isRef, true =>
        .ok (.null, throwErrorToken isRef "Only types of struct can be marked as references" c)
      | _, _ =>
        match registerLocalValue env c name context.type.text context.isConst.isSome
            context.isRef.isSome with
        | .abort => .abort
        | .ok (_, c1) => .ok (getValueNode c1 name, c1)

/-! ## Parse tree -/

/-- Parse node `expression`, one constructor per labelled alternative, with the
tokens and children the visitors read. A leaf keeps its token; `start` is the
first token of a context where the compiler asks for it. -/
inductive Expr where
  | constBool (tok : Token)
  | constInt (tok : Token)
  | constFloat (tok : Token)
  | constString (tok : Token)
  | id (tok : Token)
  | decl (d : DeclarationContext)
  | memberAccess (base member : Token)
  | assignment (dest expr : Expr)
  | addsub (left : Expr) (op : Token) (right : Expr)
  | muldiv (left : Expr) (op : Token) (right : Expr)
  | comparison (left : Expr) (op : Token) (right : Expr)
  | cast (start : Token) (expression : Expr) (ID : Token)
  | functionCall (start : Token) (namespace_ : Option Token) (name : Token)
      (argumentPack : List Expr)
  | new (start : Token) (type : Token)
  | delete (start : Token) (ptr : Expr)
  | inlineScope (start : Token) (expression : Expr)

/-- First token of an expression context (`context->start`). -/
def Expr.start : Expr → Token
  | .constBool t => t
  | .constInt t => t
  | .constFloat t => t
  | .constString t => t
  | .id t => t
  | .decl d =>
    match d.isConst, d.isRef with
    | some t, _ => t
    | none, some t => t
    | none, none => d.type
  | .memberAccess base _ => base
  | .assignment dest _ => dest.start
  | .addsub left _ _ => left.start
  | .muldiv left _ _ => left.start
  | .comparison left _ _ => left.start
  | .cast start _ _ => start
  | .functionCall start _ _ _ => start
  | .new start _ => start
  | .delete start _ => start
  | .inlineScope start _ => start

/-- Parse node `statement`. The grammar file is not part of the sources and
`DeclContext` only forwards to its declaration, so a declaration is accepted
both as a statement and as an expression (the destination of an initialising
assignment). -/
inductive Stmt where
  | exprStatement (expression : Expr)
  | decl (d : DeclarationContext)
  | scope (statements : List Stmt)
  | returnVal (expression : Expr)
  | returnVoid
  | ifStmt (cond : Expr) (operation : Stmt)
  | whileStmt (cond : Expr) (operation : Stmt)

/-- Parse node `function`: `text` is the source text between its first and
last token, which the missing-return diagnostic quotes. -/
structure FunctionContext where
  start : Token
  type : Token
  id : Token
  arguments : List DeclarationContext
  statements : List Stmt
  text : String

/-! ## Result types of nodes -/

/-- Whether a value type is a floating-point one. -/
def isFloatType : ValueType → Bool
  | .Float32 => true
  | .Float64 => true
  | _ => false

/-- Modelled from the spec: the unified numeric type of an arithmetic node
(constructor of `AotAddNode` and its siblings, not in the sources). Operands
of the same value type keep it; mixed operands are widened to `Float64` if
either is float, else to the larger integer width. -/
def unifiedType (env : Env) (a b : Option TypeDef) : Option TypeDef :=
  match a, b with
  | some ta, some tb =>
    if ta.type = tb.type then some ta
    else if isFloatType ta.type || isFloatType tb.type then env.getNativeTypeDef .Float64
    else if tb.size ≤ ta.size then some ta
    else some tb
  | _, _ => none

/-- Modelled from the spec: `AotNode::resType()`, the type each node class
stores at construction (the constructors are not in the sources). Nodes built
with an explicit type answer it; statements answer void (null); a comparison
answers `Bool`; arithmetic answers the unified numeric type. -/
def AotNode.resType (env : Env) : AotNode → Option TypeDef
  | .null => none
  | .AotConst _ t => t
  | .AotValueNode v => v.type
  | .AotDerefNode _ t _ => t
  | .AotAssignNode _ _ => none
  | .AotScope _ => none
  | .AotArith _ l r => unifiedType env (l.resType env) (r.resType env)
  | .AotCastNode _ t => t
  | .AotReturnNode => none
  | .AotReturnValueNode _ => none
  | .AotIf _ _ => none
  | .AotWhile _ _ => none
  | .AotCompareNode _ _ _ => env.getNativeTypeDef .Bool
  | .AotFunctionCall _ t _ => t
  | .AotExternalFunctionCall _ _ t _ => t
  | .AotNewNode t => t
  | .AotDeleteNode _ => none

/-! ## Expression visitors -/

/-- Last character of a string (`*--s.end()`), none for the empty string. -/
def lastChar (s : String) : Option Char :=
  s.toList.getLast?

/-- Value of the decimal digits at the front of a character list. -/
def leadingDigits : List Char → Nat → Nat
  | [], acc => acc
  | ch :: rest, acc => if ch.isDigit then leadingDigits rest (acc * 10 + (ch.toNat - 48)) else acc

/-- Call `std::stoi` on the text of an `INT` token (decimal digits): throws
`invalid_argument` when the text does not start with a digit and `out_of_range`
when the value does not fit an `int`. -/
def stoi (text : String) : Outcome Int :=
  match text.toList with
  | [] => .abort
  | ch :: rest =>
    if ch.isDigit then
      if leadingDigits (ch :: rest) 0 ≤ 2147483647 then .ok (leadingDigits (ch :: rest) 0)
      else .abort
    else .abort

/-- The argument loop of `visitFunctionCall` that builds the signature: the
result is none when the loop returned null. -/
def buildSignature (env : Env) (start : Token) :
    List AotNode → String → Compiler → Option String × Compiler
  | [], functionName, c => (some functionName, c)
  | arg :: rest, functionName, c =>
    if arg.isNull then (none, c)
    else
      match arg.resType env with
      | none =>
        (none, throwErrorPos start.line start.channel ""
          "Tried to pass void argument into function" c)
      | some argType =>
        if lastChar functionName ≠ some '(' then
          buildSignature env start rest (functionName ++ "," ++ argType.name) c
        else
          buildSignature env start rest (functionName ++ argType.name) c

/-- The loop of `visitFunctionCall` over `localFunctions`; `fIndex` is a
`uint32_t`. -/
def findLocalFunction (functionName : String) :
    List ScriptFunction → Nat → Option (Nat × ScriptFunction)
  | [], _ => none
  | func :: rest, fIndex =>
    if functionName = func.name then some (fIndex, func)
    else findLocalFunction functionName rest ((fIndex + 1) % 4294967296)

/-- Method `Compiler::visitFunctionCall`, from the point where
`visit(context->argumentPack())` has produced `arguments`. -/
def visitFunctionCall (env : Env) (start : Token) (namespace_ : Option Token) (name : Token)
    (arguments : List AotNode) (c : Compiler) : Outcome (AotNode × Compiler) :=
  match buildSignature env start arguments (name.text ++ "(") c with
  | (none, c1) => .ok (.null, c1)
  | (some built, c1) =>
    let functionName := built ++ ")"
    match namespace_ with
    | some ns =>
      match c1._ctx.libraryAliases.lookup ns.text with
      | none => .ok (.null, throwErrorToken ns "Library not found!" c1)
      | some libIndex =>
        match env.linker with
        | none => .abort
        | some linker =>
          match c1._ctx.script.linkedLibraries[libIndex]? with
          | none => .abort
          | some libraryName =>
            match linker.getLibrary libraryName with
            | none => .abort
            | some library =>
              match getType env c1 (library.getFunctionReturnT functionName) with
              | .abort => .abort
              | .ok retType =>
                .ok (.AotExternalFunctionCall libIndex functionName retType arguments, c1)
    | none =>
      match findLocalFunction functionName c1._ctx.script.localFunctions 0 with
      | some (fIndex, func) =>
        match getType env c1 func.returnType with
        | .abort => .abort
        | .ok retType => .ok (.AotFunctionCall fIndex retType arguments, c1)
      | none =>
        .ok (.null, throwErrorToken start
          ("Could not find function with signature " ++ functionName) c1)

/-- Method `Compiler::visitMemberAccess`. -/
def visitMemberAccess (env : Env) (base member : Token) (c : Compiler) :
    Outcome (AotNode × Compiler) :=
  let baseStructValue := getValueNode c base.text
  if baseStructValue.isNull then .ok (.null, throwErrorToken base "Identifier not found" c)
  else
    match dynamicCastStructDef (baseStructValue.resType env) with
    | none => .ok (.null, throwErrorToken base "Cant get member of void type" c)
    | some structDef =>
      match getMember structDef member.text with
      | none =>
        .ok (.null, throwErrorToken member
          ("Member for struct " ++ base.text ++ " not found") c)
      | some structMemberDef =>
        .ok (.AotDerefNode baseStructValue (some structMemberDef.type) structMemberDef.offset, c)

/-- Method `Compiler::visitNew`. A type that is not an `ObjectRef` records an
error and the node is built all the same. -/
def visitNew (env : Env) (type : Token) (c : Compiler) : Outcome (AotNode × Compiler) :=
  match getType env c type.text with
  | .abort => .abort
  | .ok none => .ok (.null, throwErrorToken type "Unknown type" c)
  | .ok (some t) =>
    if t.type ≠ ValueType.ObjectRef then
      .ok (.AotNewNode (dynamicCastStructDef (some t)),
        throwErrorToken type "Type is not an object" c)
    else .ok (.AotNewNode (dynamicCastStructDef (some t)), c)

mutual
/-- The visitors of the expression alternatives, dispatched by `visit`. -/
def visitExpr (env : Env) : Expr → Compiler → Outcome (AotNode × Compiler)
  | .constBool tok, c =>
    match getType env c "bool" with
    | .abort => .abort
    | .ok t =>
      if tok.text = "true" then .ok (.AotConst (.bool true) t, c)
      else .ok (.AotConst (.bool false) t, c)
  | .constInt tok, c =>
    match stoi tok.text with
    | .abort => .abort
    | .ok v =>
      match getType env c "int" with
      | .abort => .abort
      | .ok t => .ok (.AotConst (.int32 v) t, c)
  | .constFloat tok, c =>
    match env.stof tok.text with
    | .abort => .abort
    | .ok v =>
      match getType env c "float" with
      | .abort => .abort
      | .ok t => .ok (.AotConst (.float v) t, c)
  | .constString _, _ => .abort
  | .id tok, c =>
    if (getValueNode c tok.text).isNull then
      .ok (.null, throwErrorToken tok "Undefined identifier" c)
    else .ok (getValueNode c tok.text, c)
  | .decl d, c => visitDeclaration env d c
  | .memberAccess base member, c => visitMemberAccess env base member c
  | .assignment dest expr, c =>
    match visitExpr env expr c with
    | .abort => .abort
    | .ok (rValue, c1) =>
      if rValue.isNull then .ok (.null, c1)
      else
        match visitExpr env dest c1 with
        | .abort => .abort
        | .ok (lValue, c2) =>
          if lValue.isNull then .ok (.null, c2)
          else .ok (.AotAssignNode lValue rValue, c2)
  | .addsub left op right, c =>
    match visitExpr env left c with
    | .abort => .abort
    | .ok (l, c1) =>
      if l.isNull then .ok (.null, c1)
      else
        match visitExpr env right c1 with
        | .abort => .abort
        | .ok (r, c2) =>
          if r.isNull then .ok (.null, c2)
          else if op.text = "+" then .ok (.AotArith .Add l r, c2)
          else .ok (.AotArith .Sub l r, c2)
  | .muldiv left op right, c =>
    match visitExpr env left c with
    | .abort => .abort
    | .ok (l, c1) =>
      if l.isNull then .ok (.null, c1)
      else
        match visitExpr env right c1 with
        | .abort => .abort
        | .ok (r, c2) =>
          if r.isNull then .ok (.null, c2)
          else if op.text = "*" then .ok (.AotArith .Mul l r, c2)
          else .ok (.AotArith .Div l r, c2)
  | .comparison left op right, c =>
    match visitExpr env left c with
    | .abort => .abort
    | .ok (a, c1) =>
      match visitExpr env right c1 with
      | .abort => .abort
      | .ok (b, c2) =>
        if op.text = "==" then .ok (.AotCompareNode .Equal a b, c2)
        else if op.text = "!=" then .ok (.AotCompareNode .NotEqual a b, c2)
        else if op.text = ">" then .ok (.AotCompareNode .Greater a b, c2)
        else if op.text = ">=" then .ok (.AotCompareNode .GreaterEqual a b, c2)
        else if op.text = "<" then .ok (.AotCompareNode .Greater b a, c2)
        else if op.text = "<=" then .ok (.AotCompareNode .GreaterEqual b a, c2)
        else .ok (.AotCompareNode .Equal a b, c2)
  | .cast _ expression ID, c =>
    match visitExpr env expression c with
    | .abort => .abort
    | .ok (node, c1) =>
      match getType env c1 ID.text with
      | .abort => .abort
      | .ok t => .ok (.AotCastNode node t, c1)
  | .functionCall start namespace_ name argumentPack, c =>
    match visitArgumentPack env argumentPack c with
    | .abort => .abort
    | .ok (arguments, c1) => visitFunctionCall env start namespace_ name arguments c1
  | .new _ type, c => visitNew env type c
  | .delete start ptr, c =>
    match visitExpr env ptr c with
    | .abort => .abort
    | .ok (node, c1) =>
      if node.isNull then .abort
      else
        match node.resType env with
        | none => .abort
        | some t =>
          if t.type ≠ ValueType.ObjectRef then
            .ok (.null, throwErrorToken start "Can only delete objects" c1)
          else .ok (.AotDeleteNode node, c1)
  | .inlineScope _ expression, c => visitExpr env expression c
/-- Method `Compiler::visitArgumentPack`: every argument is visited, null
results included. -/
def visitArgumentPack (env : Env) : List Expr → Compiler → Outcome (List AotNode × Compiler)
  | [], c => .ok ([], c)
  | arg :: rest, c =>
    match visitExpr env arg c with
    | .abort => .abort
    | .ok (node, c1) =>
      match visitArgumentPack env rest c1 with
      | .abort => .abort
      | .ok (nodes, c2) => .ok (node :: nodes, c2)
end

/-! ## Statement visitors -/

/-- The function `_ctx->function` points to, none when the pointer is null. -/
def currentFunction (c : Compiler) : Option ScriptFunction :=
  match c._ctx.function with
  | none => none
  | some i => c._ctx.script.localFunctions[i]?

/-- An assignment through `_ctx->function->…`. -/
def modifyCurrent (c : Compiler) (f : ScriptFunction → ScriptFunction) : Compiler :=
  match c._ctx.function with
  | none => c
  | some i =>
    match c._ctx.script.localFunctions[i]? with
    | none => c
    | some fn =>
      let script : IRScript :=
        { c._ctx.script with localFunctions := c._ctx.script.localFunctions.set i (f fn) }
      { c with _ctx := { c._ctx with script := script } }

/-- The assignment `_ctx->returnCalled = b`. -/
def setReturnCalled (c : Compiler) (b : Bool) : Compiler :=
  { c with _ctx := { c._ctx with returnCalled := b } }

/-- Method `Compiler::visitReturnVal`, from the point where
`visit(ctx->expression())` has produced `retVal`; `expressionStart` is
`ctx->expression()->start`. -/
def visitReturnVal (env : Env) (expressionStart : Token) (retVal : AotNode) (c : Compiler) :
    Outcome (AotNode × Compiler) :=
  if retVal.isNull then .ok (.null, c)
  else
    match currentFunction c with
    | none => .abort
    | some function =>
      match retVal.resType env with
      | none =>
        .ok (.null, throwErrorToken expressionStart
          ("can\x27t cast from void to " ++ function.returnType) c)
      | some t =>
        if t.name ≠ function.returnType then
          match getType env c function.returnType with
          | .abort => .abort
          | .ok returnType =>
            .ok (.AotReturnValueNode (.AotCastNode retVal returnType), setReturnCalled c true)
        else .ok (.AotReturnValueNode retVal, setReturnCalled c true)

/-- Method `Compiler::visitReturnVoid`: `assert(false)` first; with assertions
compiled out the error is recorded and a node is returned. -/
def visitReturnVoid (env : Env) (c : Compiler) : Outcome (AotNode × Compiler) :=
  if env.ndebug then
    .ok (.AotReturnNode,
      setReturnCalled (throwErrorMessage "Void return statements not implemented" c) true)
  else .abort

mutual
/-- The visitors of the statement alternatives, dispatched by `visit`. -/
def visitStmt (env : Env) : Stmt → Compiler → Outcome (AotNode × Compiler)
  | .exprStatement expression, c => visitExpr env expression c
  | .decl d, c => visitDeclaration env d c
  | .scope statements, c =>
    match visitScopeLoop env statements (pushScope c) with
    | .abort => .abort
    | .ok (none, c1) => .ok (.null, c1)
    | .ok (some operations, c1) => .ok (.AotScope operations, popScope c1)
  | .returnVal expression, c =>
    match visitExpr env expression c with
    | .abort => .abort
    | .ok (retVal, c1) => visitReturnVal env expression.start retVal c1
  | .returnVoid, c => visitReturnVoid env c
  | .ifStmt cond operation, c =>
    match visitExpr env cond c with
    | .abort => .abort
    | .ok (condition, c1) =>
      match visitStmt env operation c1 with
      | .abort => .abort
      | .ok (op, c2) => .ok (.AotIf condition op, c2)
  | .whileStmt cond operation, c =>
    match visitExpr env cond c with
    | .abort => .abort
    | .ok (condition, c1) =>
      match visitStmt env operation c1 with
      | .abort => .abort
      | .ok (op, c2) => .ok (.AotWhile condition op, c2)
/-- The statement loop of `Compiler::visitScope`, between `pushScope()` and
`popScope()`: none when `PROPAGATE_NULL` returned out of the loop. -/
def visitScopeLoop (env : Env) :
    List Stmt → Compiler → Outcome (Option (List AotNode) × Compiler)
  | [], c => .ok (some [], c)
  | stmt :: rest, c =>
    match visitStmt env stmt c with
    | .abort => .abort
    | .ok (operation, c1) =>
      if operation.isNull then .ok (none, c1)
      else
        match visitScopeLoop env rest c1 with
        | .abort => .abort
        | .ok (none, c2) => .ok (none, c2)
        | .ok (some operations, c2) => .ok (some (operation :: operations), c2)
end

/-- Method `Compiler::visitScope`. -/
def visitScope (env : Env) (statements : List Stmt) (c : Compiler) :
    Outcome (AotNode × Compiler) :=
  visitStmt env (.scope statements) c

/-! ## Optimize pass -/

/-- Two's-complement wrap of an integer to 32 bits. -/
def wrap32 (v : Int) : Int :=
  (v + 2147483648) % 4294967296 - 2147483648

/-- Modelled from the spec: the value of `Const op Const` on two 32-bit
integer constants (operators of `AotConst`, declared in `aotValueNodes.h`,
bodies not in the sources): the exact arithmetic of the operands wrapped to 32
bits, division truncating as the native one does; the native division by zero
traps. -/
def foldInt32 (op : ArithOp) (a b : Int) : Outcome Int :=
  match op with
  | .Add => .ok (wrap32 (a + b))
  | .Sub => .ok (wrap32 (a - b))
  | .Mul => .ok (wrap32 (a * b))
  | .Div => if b = 0 then .abort else .ok (wrap32 (Int.tdiv a b))

/-- Modelled from the spec: folding of an arithmetic node whose two operands
are constants. Two 32-bit integers fold by `foldInt32`; a pair that involves a
float folds by the native float arithmetic on the unified type; a `bool`
operand is not a number and the node stays. -/
def foldConst (env : Env) (op : ArithOp) (a : ConstValue) (ta : Option TypeDef)
    (b : ConstValue) (tb : Option TypeDef) : Outcome AotNode :=
  match a, b with
  | .int32 x, .int32 y =>
    match foldInt32 op x y with
    | .abort => .abort
    | .ok v => .ok (.AotConst (.int32 v) (unifiedType env ta tb))
  | .bool _, _ => .ok (.AotArith op (.AotConst a ta) (.AotConst b tb))
  | _, .bool _ => .ok (.AotArith op (.AotConst a ta) (.AotConst b tb))
  | _, _ => .ok (.AotConst (env.floatArith op a b) (unifiedType env ta tb))

mutual
/-- Modelled from the spec: `AotNode::optimize()` (bodies not in the sources),
a single bottom-up rewrite. `Const op Const` folds to a new `Const`,
`Cast(Const)` folds to a retyped `Const`, every other node optimizes its
children and returns itself. Calling it through a null pointer aborts. -/
def optimize (env : Env) : AotNode → Outcome AotNode
  | .null => .abort
  | .AotConst v t => .ok (.AotConst v t)
  | .AotValueNode v => .ok (.AotValueNode v)
  | .AotDerefNode value t offset =>
    match optimize env value with
    | .abort => .abort
    | .ok value1 => .ok (.AotDerefNode value1 t offset)
  | .AotAssignNode l r =>
    match optimize env l with
    | .abort => .abort
    | .ok l1 =>
      match optimize env r with
      | .abort => .abort
      | .ok r1 => .ok (.AotAssignNode l1 r1)
  | .AotScope operations =>
    match optimizeAll env operations with
    | .abort => .abort
    | .ok operations1 => .ok (.AotScope operations1)
  | .AotArith op l r =>
    match optimize env l with
    | .abort => .abort
    | .ok l1 =>
      match optimize env r with
      | .abort => .abort
      | .ok r1 =>
        match l1, r1 with
        | .AotConst a ta, .AotConst b tb => foldConst env op a ta b tb
        | _, _ => .ok (.AotArith op l1 r1)
  | .AotCastNode arg t =>
    match optimize env arg with
    | .abort => .abort
    | .ok arg1 =>
      match arg1 with
      | .AotConst v _ => .ok (.AotConst (env.castConst v t) t)
      | _ => .ok (.AotCastNode arg1 t)
  | .AotReturnNode => .ok .AotReturnNode
  | .AotReturnValueNode retVal =>
    match optimize env retVal with
    | .abort => .abort
    | .ok retVal1 => .ok (.AotReturnValueNode retVal1)
  | .AotIf condition operation =>
    match optimize env condition with
    | .abort => .abort
    | .ok condition1 =>
      match optimize env operation with
      | .abort => .abort
      | .ok operation1 => .ok (.AotIf condition1 operation1)
  | .AotWhile condition operation =>
    match optimize env condition with
    | .abort => .abort
    | .ok condition1 =>
      match optimize env operation with
      | .abort => .abort
      | .ok operation1 => .ok (.AotWhile condition1 operation1)
  | .AotCompareNode mode a b =>
    match optimize env a with
    | .abort => .abort
    | .ok a1 =>
      match optimize env b with
      | .abort => .abort
      | .ok b1 => .ok (.AotCompareNode mode a1 b1)
  | .AotFunctionCall fIndex retType arguments =>
    match optimizeAll env arguments with
    | .abort => .abort
    | .ok arguments1 => .ok (.AotFunctionCall fIndex retType arguments1)
  | .AotExternalFunctionCall libIndex functionName retType arguments =>
    match optimizeAll env arguments with
    | .abort => .abort
    | .ok arguments1 => .ok (.AotExternalFunctionCall libIndex functionName retType arguments1)
  | .AotNewNode t => .ok (.AotNewNode t)
  | .AotDeleteNode ptr =>
    match optimize env ptr with
    | .abort => .abort
    | .ok ptr1 => .ok (.AotDeleteNode ptr1)
/-- Modelled from the spec: `optimize()` on each child of a node, in order. -/
def optimizeAll (env : Env) : List AotNode → Outcome (List AotNode)
  | [] => .ok []
  | node :: rest =>
    match optimize env node with
    | .abort => .abort
    | .ok node1 =>
      match optimizeAll env rest with
      | .abort => .abort
      | .ok rest1 => .ok (node1 :: rest1)
end

/-! ## Function compilation -/

/-- Modelled from the spec: `AotValue::isVoid()` (body not in the sources): a
value whose type is null or the `Void` category. -/
def AotValue.isVoid (v : AotValue) : Bool :=
  match v.typeDef with
  | none => true
  | some t => decide (t.type = ValueType.Void)

/-- Method `CompilerCtx::newReg(TypeDef* type, uint8_t flags)`. -/
def newReg (ctx : CompilerCtx) (type : Option TypeDef) (flags : Nat) : AotValue × CompilerCtx :=
  let value : AotValue := ⟨type, flags, ⟨0, .Void, .Null⟩, .NoRes⟩
  match type with
  | none => (value, ctx)
  | some t =>
    if value.isVoid then (value, ctx)
    else
      let storageType : ValueStorageType :=
        if t.type ≠ ValueType.ObjectRef then .Reg else .Ptr
      let valueIndex : ValueIndex :=
        { index := ctx.regIndex, valueType := t.type, storageType := storageType }
      ({ value with valueIndex := valueIndex }, { ctx with regIndex := ctx.regIndex + 1 })

/-- Method `CompilerCtx::setFunction`. -/
def setFunction (ctx : CompilerCtx) (f : Option Nat) : CompilerCtx :=
  { ctx with function := f, regIndex := 0, memIndex := 0, markIndex := 0, lValues := [] }

/-- Insertion `lValues.insert({key, value})`: an existing key keeps its value. -/
def insertLValue (lValues : List (Nat × AotValue)) (key : Nat) (value : AotValue) :
    List (Nat × AotValue) :=
  match lValues.lookup key with
  | some _ => lValues
  | none => lValues ++ [(key, value)]

/-- One round of the argument loop of `Compiler::visitFunction`: false when it
returned out of the function on an unknown argument type. -/
def visitFunctionArgument (env : Env) (argument : DeclarationContext) (c : Compiler) :
    Outcome (Bool × Compiler) :=
  match currentFunction c with
  | none => .abort
  | some function =>
    let c1 :=
      if lastChar function.name ≠ some '(' then
        modifyCurrent c (fun f => { f with name := f.name ++ "," })
      else c
    let type := argument.type.text
    match getType env c1 type with
    | .abort => .abort
    | .ok none => .ok (false, throwErrorToken argument.type "Unknown argument type" c1)
    | .ok (some _) =>
      let c2 := modifyCurrent c1
        (fun f => { f with name := f.name ++ type, arguments := f.arguments ++ [type] })
      match getType env c2 type with
      | .abort => .abort
      | .ok t =>
        let lValues := insertLValue (newReg c2._ctx t 0).2.lValues c2._lValueIDCount
          (newReg c2._ctx t 0).1
        let c3 : Compiler := { c2 with _ctx := { (newReg c2._ctx t 0).2 with lValues := lValues } }
        match registerLocalValue env c3 argument.id.text type false false with
        | .abort => .abort
        | .ok (_, c4) => .ok (true, c4)

/-- The argument loop of `Compiler::visitFunction`: false when the loop
returned out of the function on an unknown argument type. -/
def visitFunctionArguments (env : Env) :
    List DeclarationContext → Compiler → Outcome (Bool × Compiler)
  | [], c => .ok (true, c)
  | argument :: rest, c =>
    match visitFunctionArgument env argument c with
    | .abort => .abort
    | .ok (false, c1) => .ok (false, c1)
    | .ok (true, c1) => visitFunctionArguments env rest c1

/-- The call `expr->generateBytecode(*_ctx)`: the emitter of the node works on
the code buffer of the current function, the counters and the local table. -/
def generateBytecode (env : Env) (node : AotNode) (c : Compiler) : Outcome Compiler :=
  match currentFunction c with
  | none => .abort
  | some function =>
    match env.generateBytecode node
        ⟨function.code, c._ctx.regIndex, c._ctx.memIndex, c._ctx.markIndex, c._ctx.lValues⟩ with
    | .abort => .abort
    | .ok es =>
      let c1 := modifyCurrent c (fun f => { f with code := es.code })
      let ctx1 : CompilerCtx :=
        { c1._ctx with
          regIndex := es.regIndex
          memIndex := es.memIndex
          markIndex := es.markIndex
          lValues := es.lValues }
      .ok { c1 with _ctx := ctx1 }

/-- The statement loop of `Compiler::visitFunction`: visit, skip a null node,
`optimize`, `generateBytecode`. -/
def visitFunctionStatements (env : Env) : List Stmt → Compiler → Outcome Compiler
  | [], c => .ok c
  | stmtCtx :: rest, c =>
    match visitStmt env stmtCtx c with
    | .abort => .abort
    | .ok (stmt, c1) =>
      if stmt.isNull then visitFunctionStatements env rest c1
      else
        match optimize env stmt with
        | .abort => .abort
        | .ok optimizedTree =>
          match generateBytecode env optimizedTree c1 with
          | .abort => .abort
          | .ok c2 => visitFunctionStatements env rest c2

/-- A default-constructed `ScriptFunction`. -/
def emptyFunction : ScriptFunction :=
  { name := "", returnType := "", arguments := [], code := [] }

/-- The two statements `localFunctions.push_back({})` and
`setFunction(&*--localFunctions.end())`. -/
def pushFunction (c : Compiler) : Compiler :=
  let script : IRScript :=
    { c._ctx.script with localFunctions := c._ctx.script.localFunctions ++ [emptyFunction] }
  let ctx : CompilerCtx := { c._ctx with script := script }
  { c with _ctx := setFunction ctx (some c._ctx.script.localFunctions.length) }

/-- Lines 290 to 320 of `Compiler::visitFunction`: the statement loop, the
missing-return check and the restoring of the previous context. -/
def visitFunctionBody (env : Env) (ctx : FunctionContext) (previousFunction : Option Nat)
    (c : Compiler) : Outcome Compiler :=
  let previousReturnVal := c._ctx.returnCalled
  match visitFunctionStatements env ctx.statements (setReturnCalled c false) with
  | .abort => .abort
  | .ok c1 =>
    match currentFunction c1 with
    | none => .abort
    | some function =>
      if !c1._ctx.returnCalled && function.returnType ≠ "void" then
        .ok (throwErrorPos ctx.start.line ctx.start.charPositionInLine
          ("\n" ++ ctx.text) "Function missing call to return" c1)
      else
        let c2 := popScope (setReturnCalled c1 previousReturnVal)
        .ok { c2 with _ctx := { c2._ctx with function := previousFunction } }

/-- Lines 255 to 270 of `Compiler::visitFunction` on the path where the return
type is accepted: the new function is pushed and made current, its return type
and the start of its name are set, and the argument scope is pushed. -/
def visitFunctionBegin (ctx : FunctionContext) (c : Compiler) : Compiler :=
  let c1 := modifyCurrent (pushFunction c) (fun f => { f with returnType := ctx.type.text })
  pushScope (modifyCurrent c1 (fun f => { f with name := ctx.id.text ++ "(" }))

/-- Method `Compiler::visitFunction`. -/
def visitFunction (env : Env) (ctx : FunctionContext) (c : Compiler) : Outcome Compiler :=
  let previousFunction := c._ctx.function
  let c1 := modifyCurrent (pushFunction c) (fun f => { f with returnType := ctx.type.text })
  match getType env c1 ctx.type.text with
  | .abort => .abort
  | .ok returnType =>
    if returnType.isNone && ctx.type.text ≠ "void" then
      .ok (throwErrorToken ctx.type "Unknown return type" c1)
    else
      match visitFunctionArguments env ctx.arguments (visitFunctionBegin ctx c) with
      | .abort => .abort
      | .ok (false, c3) => .ok c3
      | .ok (true, c3) =>
        visitFunctionBody env ctx previousFunction
          (modifyCurrent c3 (fun f => { f with name := f.name ++ ")" }))

/-! ## Lexer rule `ID` -/

/-- First character of an `ID` token: the set `{65..90, 95, 97..122}` of the
serialized ATN. -/
def isIDStart (ch : Char) : Bool :=
  (65 ≤ ch.toNat && ch.toNat ≤ 90) || ch.toNat = 95 || (97 ≤ ch.toNat && ch.toNat ≤ 122)

/-- Later character of an `ID` token: the set `{48..57, 65..90, 95, 97..122}`
of the serialized ATN. -/
def isIDPart (ch : Char) : Bool :=
  (48 ≤ ch.toNat && ch.toNat ≤ 57) || (65 ≤ ch.toNat && ch.toNat ≤ 90) || ch.toNat = 95 ||
    (97 ≤ ch.toNat && ch.toNat ≤ 122)

/-- Whether a text is matched by the lexer rule `ID` (rule 37 of
`braneLexer.cpp`): one start character, then any number of later ones. -/
def isID (text : String) : Bool :=
  match text.toList with
  | [] => false
  | ch :: rest => isIDStart ch && rest.all isIDPart

/-! ## Relations between states used in the statements below -/

/-- What the expression visitors leave as it was: the whole context and the
private types (they touch the errors, the scopes and the local counter only). -/
def ExprFrame (c c1 : Compiler) : Prop :=
  c1._ctx = c._ctx ∧ c1._privateTypes = c._privateTypes

/-- What the statement visitors leave as it was: the private types and the
context up to its `returnCalled` flag. -/
def StmtFrame (c c1 : Compiler) : Prop :=
  c1._privateTypes = c._privateTypes ∧
    ({ c1._ctx with returnCalled := false } : CompilerCtx) = { c._ctx with returnCalled := false }

mutual
/-- Whether a statement is or contains, at any depth, a return statement. -/
def Stmt.hasReturn : Stmt → Bool
  | .exprStatement _ => false
  | .decl _ => false
  | .scope statements => hasReturnAny statements
  | .returnVal _ => true
  | .returnVoid => true
  | .ifStmt _ operation => operation.hasReturn
  | .whileStmt _ operation => operation.hasReturn
/-- Whether some statement of a list is or contains a return statement. -/
def hasReturnAny : List Stmt → Bool
  | [] => false
  | stmt :: rest => stmt.hasReturn || hasReturnAny rest
end

/-- The part of a `ScriptFunction` that identifies it: mangled name, return
type name and argument type names. -/
def signatureOf (f : ScriptFunction) : String × String × List String :=
  (f.name, f.returnType, f.arguments)

/-- What the statement loop of a function leaves as it was: the private types,
the current-function pointer and the signature of every local function. -/
def FnFrame (c c1 : Compiler) : Prop :=
  c1._privateTypes = c._privateTypes ∧ c1._ctx.function = c._ctx.function ∧
    c1._ctx.script.localFunctions.map signatureOf = c._ctx.script.localFunctions.map signatureOf

/-- State of the name mangling after the arguments `done`: the current function
`f` is named `name0(` followed by their type names joined by commas, lists
them as its arguments, and its name ends in `(` exactly when there is none. -/
def Mangled (name0 : String) (done : List String) (f : ScriptFunction) : Prop :=
  f.name = name0 ++ "(" ++ ",".intercalate done ∧ f.arguments = done ∧
    (lastChar f.name = some '(' ↔ done = [])

/-! ## Sample collaborators and states used to run the definitions -/

/-- Native type `bool`. -/
def boolType : TypeDef := .native "bool" .Bool 1

/-- Native type `char`. -/
def charType : TypeDef := .native "char" .Char 1

/-- Native type `int` (32-bit). -/
def intType : TypeDef := .native "int" .Int32 4

/-- Native type `float`. -/
def floatType : TypeDef := .native "float" .Float32 4

/-- A linker that knows the native types `bool`, `char`, `int` and `float` and
no library. -/
def nativeLinker : Linker where
  getType := fun n =>
    if n == "bool" then some boolType
    else if n == "char" then some charType
    else if n == "int" then some intType
    else if n == "float" then some floatType
    else none
  getLibrary := fun _ => none

/-- A `std::stof` for the texts of `FLOAT` tokens (digits, an optional `.` with
digits, then `f`): `invalid_argument` when the text does not start with a
digit, `out_of_range` when the value rounds to infinity, that is when its
integer part is at least 2^128 - 2^103; the value is kept as the text. -/
def decimalStof (text : String) : Outcome String :=
  match text.toList with
  | [] => .abort
  | ch :: rest =>
    if ch.isDigit then
      if leadingDigits (ch :: rest) 0 < 340282356779733661637539395458142568448 then .ok text
      else .abort
    else .abort

/-- An environment with the native linker, assertions on, emitters that leave
the emission state as it is, the decimal `std::stof`, and the flag masks 2 and
4. -/
def nativeEnv : Env where
  linker := some nativeLinker
  ndebug := false
  getNativeTypeDef := fun t =>
    match t with
    | .Bool => some boolType
    | .Char => some charType
    | .Int32 => some intType
    | .Float32 => some floatType
    | _ => none
  generateBytecode := fun _ es => .ok es
  floatArith := fun _ a _ => a
  castConst := fun v _ => v
  stof := decimalStof
  flagTemp := 2
  flagConstexpr := 4

/-- The context right after `CompilerCtx(compiler, new IRScript())`. -/
def freshCtx : CompilerCtx where
  script := { localFunctions := [], localStructs := [], linkedLibraries := [] }
  function := none
  regIndex := 0
  memIndex := 0
  markIndex := 0
  lValues := []
  returnCalled := false
  libraryAliases := []
  localStructDefs := []
  localStructIndices := []

/-- A compiler with no error, the given scope stack and the next local index. -/
def compilerWith (scopes : List Scope) (next : Nat) : Compiler where
  _errors := []
  _scopes := scopes
  _lValueIDCount := next
  _privateTypes := []
  _ctx := freshCtx

/-- A token with the given text at line 1, column 0. -/
def tok (text : String) : Token := { text := text, line := 1, charPositionInLine := 0, channel := 0 }

/-- The function `int f(int a, float b) { return a; }`. -/
def sampleTwoArgs : FunctionContext where
  start := tok "int"
  type := tok "int"
  id := tok "f"
  arguments := [⟨tok "a", tok "int", none, none⟩, ⟨tok "b", tok "float", none, none⟩]
  statements := [.returnVal (.id (tok "a"))]
  text := "int f(int a, float b) \x7b return a; \x7d"

/-- Name of the result type of an argument node, as `visitFunctionCall` reads
it (`arg->resType()->name()`); the empty text for a void node. -/
def argTypeName (env : Env) (arg : AotNode) : String :=
  match arg.resType env with
  | some t => t.name
  | none => ""

/-- A compiler state whose script holds the given local functions. -/
def compilerWithFunctions (fs : List ScriptFunction) : Compiler where
  _errors := []
  _scopes := []
  _lValueIDCount := 0
  _privateTypes := []
  _ctx := { freshCtx with script := { freshCtx.script with localFunctions := fs } }

/-- Three local functions, two of them with the same mangled name. -/
def sampleFunctions : List ScriptFunction :=
  [⟨"g(int)", "int", ["int"], []⟩, ⟨"f(int,float)", "float", ["int", "float"], []⟩,
    ⟨"f(int,float)", "int", ["int", "float"], []⟩]

/-- Argument nodes of a call `f(1, 2.0f)`. -/
def sampleCallArguments : List AotNode :=
  [.AotConst (.int32 1) (some intType), .AotConst (.float "2.0f") (some floatType)]

/-- The scope statement `{ int x; y; }`, where `y` is declared nowhere. -/
def sampleFailingScope : List Stmt :=
  [.decl ⟨tok "x", tok "int", none, none⟩, .exprStatement (.id (tok "y"))]

/-- The scope statement `{ int x; if (true) { int z; y; } }`, where `y` is
declared nowhere. -/
def sampleFailingInnerScope : List Stmt :=
  [.decl ⟨tok "x", tok "int", none, none⟩,
    .ifStmt (.constBool (tok "true"))
      (.scope [.decl ⟨tok "z", tok "int", none, none⟩, .exprStatement (.id (tok "y"))])]

/-- The function `int f(bool c) { if (c) { return 1; } }`. -/
def sampleReturnInsideIf : FunctionContext where
  start := tok "int"
  type := tok "int"
  id := tok "f"
  arguments := [⟨tok "c", tok "bool", none, none⟩]
  statements := [.ifStmt (.id (tok "c")) (.scope [.returnVal (.constInt (tok "1"))])]
  text := "int f(bool c) \x7b if (c) \x7b return 1; \x7d \x7d"

/-- The function `int f(bool c) { while (c) { return 1; } }`. -/
def sampleReturnInsideWhile : FunctionContext where
  start := tok "int"
  type := tok "int"
  id := tok "f"
  arguments := [⟨tok "c", tok "bool", none, none⟩]
  statements := [.whileStmt (.id (tok "c")) (.scope [.returnVal (.constInt (tok "1"))])]
  text := "int f(bool c) \x7b while (c) \x7b return 1; \x7d \x7d"

/-- The function `int f(bool c) { { int x; } }`, which has no return statement. -/
def sampleNoReturn : FunctionContext where
  start := tok "int"
  type := tok "int"
  id := tok "f"
  arguments := [⟨tok "c", tok "bool", none, none⟩]
  statements := [.scope [.decl ⟨tok "x", tok "int", none, none⟩]]
  text := "int f(bool c) \x7b \x7b int x; \x7d \x7d"

/-! ## Struct layout -/

/-- Class `StructDef` while `visitStructDef` builds it: name, members in
declaration order and size. -/
structure StructDef where
  name : String
  members : List StructMember
  size : Nat

/-- Modelled from the spec: rounding an offset up to an alignment, the step of
`StructDef::padMembers` (body not in the sources). -/
def alignUp (offset alignment : Nat) : Nat :=
  if offset % alignment = 0 then offset else offset + (alignment - offset % alignment)

/-- Modelled from the spec: the member loop of `StructDef::padMembers`: the
running offset is rounded up to the member's alignment, which is its size,
assigned, and advanced by the size. The result is the members with their
offsets and the running offset after the last one. -/
def padLoop : List StructMember → Nat → List StructMember × Nat
  | [], offset => ([], offset)
  | m :: rest, offset =>
    ({ m with offset := alignUp offset m.type.size } ::
        (padLoop rest (alignUp offset m.type.size + m.type.size)).1,
      (padLoop rest (alignUp offset m.type.size + m.type.size)).2)

/-- The largest member size of a member list, 0 for none. -/
def maxMemberSize : List StructMember → Nat
  | [] => 0
  | m :: rest => max m.type.size (maxMemberSize rest)

/-- Modelled from the spec: `StructDef::padMembers` (body not in the sources):
the running offset starts at 0, every member is aligned to its size, and the
struct size is the final offset rounded up to the largest member alignment. -/
def padMembers (d : StructDef) : StructDef :=
  { d with
    members := (padLoop d.members 0).1
    size := alignUp (padLoop d.members 0).2 (maxMemberSize d.members) }

/-- Modelled from the spec: the member loop of `StructDef::packMembers`: the
offsets are the running sum of the sizes, with no rounding. -/
def packLoop : List StructMember → Nat → List StructMember × Nat
  | [], offset => ([], offset)
  | m :: rest, offset =>
    ({ m with offset := offset } :: (packLoop rest (offset + m.type.size)).1,
      (packLoop rest (offset + m.type.size)).2)

/-- Modelled from the spec: `StructDef::packMembers` (body not in the sources):
offsets are the running sum of sizes and the struct size is the sum of sizes. -/
def packMembers (d : StructDef) : StructDef :=
  { d with
    members := (packLoop d.members 0).1
    size := (packLoop d.members 0).2 }

/-- The two layout calls of `Compiler::visitStructDef`:
`if(context->packed) newDef->packMembers(); else newDef->padMembers();`. -/
def commitLayout (packed : Bool) (d : StructDef) : StructDef :=
  if packed then packMembers d else padMembers d

/-- End of the member before position `i` of a laid-out member list: its
offset plus its size, and 0 before the first member. -/
def previousEnd (members : List StructMember) (i : Nat) : Nat :=
  match i with
  | 0 => 0
  | j + 1 =>
    match members[j]? with
    | some p => p.offset + p.type.size
    | none => 0

/-- End of the last member of a laid-out member list, 0 for none. -/
def lastEnd (members : List StructMember) : Nat :=
  previousEnd members members.length

/-- The struct `S { char a; int b; float c; }` before its layout. -/
def sampleStruct : StructDef where
  name := "S"
  members := [⟨"a", 0, charType⟩, ⟨"b", 0, intType⟩, ⟨"c", 0, floatType⟩]
  size := 0

/-- The struct `packed struct P { char a; int b; float c; }` before its layout. -/
def samplePackedStruct : StructDef where
  name := "P"
  members := [⟨"a", 0, charType⟩, ⟨"b", 0, intType⟩, ⟨"c", 0, floatType⟩]
  size := 0

/-! ## Constant folding -/

/-- The exact (unbounded) result of an arithmetic operator on two integers;
the division truncates toward zero as the native one does. -/
def exactArith : ArithOp → Int → Int → Int
  | .Add, a, b => a + b
  | .Sub, a, b => a - b
  | .Mul, a, b => a * b
  | .Div, a, b => Int.tdiv a b

/-- An arithmetic tree over 32-bit integer constants of the one type `t`,
related to the value its native evaluation gives: each operator is applied to
the values of its operands and wrapped to 32 bits. -/
inductive FoldsTo (t : TypeDef) : AotNode → Int → Prop where
  | const (v : Int) : FoldsTo t (.AotConst (.int32 v) (some t)) v
  | arith (op : ArithOp) (l r : AotNode) (a b : Int) :
      FoldsTo t l a → FoldsTo t r b → (op = .Div → b ≠ 0) →
      FoldsTo t (.AotArith op l r) (wrap32 (exactArith op a b))

/-- A compiler state inside a function `f()` with the given return type name,
its argument scope pushed. -/
def compilerInFunction (returnType : String) : Compiler where
  _errors := []
  _scopes := [⟨[]⟩]
  _lValueIDCount := 0
  _privateTypes := []
  _ctx :=
    { freshCtx with
      script := { freshCtx.script with localFunctions := [⟨"f()", returnType, [], []⟩] }
      function := some 0 }

/-- The statement `return 1 + 2 * 3;`. -/
def sampleFoldStatement : Stmt :=
  .returnVal (.addsub (.constInt (tok "1")) (tok "+")
    (.muldiv (.constInt (tok "2")) (tok "*") (.constInt (tok "3"))))

/-! ## Value helpers of the compiler context -/

/-- Modelled from the spec: `AotValue::isCompare()` (body not in the sources):
the value is a deferred comparison flag, that is its `compareType` is not
`None`. -/
def AotValue.isCompare (v : AotValue) : Bool :=
  decide (v.compareType ≠ CompareType.NoRes)

/-- Test `value.flags & mask` of a flag set against a mask. -/
def AotValue.hasFlag (v : AotValue) (mask : Nat) : Bool :=
  decide (v.flags &&& mask ≠ 0)

/-- Call `function->appendCode(op, operands…)`: the instruction goes to the end
of the code of the function the context points to; a null pointer aborts. -/
def appendCode (ctx : CompilerCtx) (op : Opcode) (operands : List ValueIndex) :
    Outcome CompilerCtx :=
  match ctx.function with
  | none => .abort
  | some i =>
    match ctx.script.localFunctions[i]? with
    | none => .abort
    | some f =>
      let f1 : ScriptFunction := { f with code := f.code ++ [⟨op, operands⟩] }
      let script : IRScript :=
        { ctx.script with localFunctions := ctx.script.localFunctions.set i f1 }
      .ok { ctx with script := script }

/-- The `switch` of `CompilerCtx::castReg` over the comparison kind: the `SET*`
opcode of each kind, none for the `default` branch. -/
def setOpcode : CompareType → Option Opcode
  | .EqualRes => some .SETE
  | .NotEqualRes => some .SETNE
  | .AboveRes => some .SETA
  | .GreaterRes => some .SETG
  | .AboveEqualRes => some .SETAE
  | .GreaterEqualRes => some .SETGE
  | .NoRes => none

/-- Method `CompilerCtx::castReg`. The `default` branch of its `switch` asserts
false and then leaves the function without a value, which aborts. -/
def castReg (env : Env) (ctx : CompilerCtx) (value : AotValue) :
    Outcome (AotValue × CompilerCtx) :=
  if value.valueIndex.storageType = ValueStorageType.Reg ∨
      value.valueIndex.storageType = ValueStorageType.Ptr ∨
      value.valueIndex.storageType = ValueStorageType.StackPtr then
    .ok (value, ctx)
  else
    let r := newReg ctx value.typeDef (env.flagTemp ||| (env.flagConstexpr &&& value.flags))
    if !value.isCompare then
      match appendCode r.2 .MOV [r.1.valueIndex, value.valueIndex] with
      | .abort => .abort
      | .ok ctx1 => .ok (r.1, ctx1)
    else
      match setOpcode value.compareType with
      | none => .abort
      | some op =>
        match appendCode r.2 op [r.1.valueIndex] with
        | .abort => .abort
        | .ok ctx1 => .ok (r.1, ctx1)

/-- Method `CompilerCtx::castTemp`; `assert(function)` comes first. -/
def castTemp (env : Env) (ctx : CompilerCtx) (value : AotValue) :
    Outcome (AotValue × CompilerCtx) :=
  if ctx.function.isNone && !env.ndebug then .abort
  else if value.hasFlag env.flagTemp then .ok (value, ctx)
  else
    let r := newReg ctx value.typeDef (env.flagTemp ||| (env.flagConstexpr &&& value.flags))
    match appendCode r.2 .MOV [r.1.valueIndex, value.valueIndex] with
    | .abort => .abort
    | .ok ctx1 => .ok (r.1, ctx1)

/-- Method `CompilerCtx::castValue`. -/
def castValue (env : Env) (ctx : CompilerCtx) (value : AotValue) :
    Outcome (AotValue × CompilerCtx) :=
  if value.isCompare then castReg env ctx value
  else
    match value.valueIndex.storageType with
    | .Null => if env.ndebug then .ok (value, ctx) else .abort
    | _ => .ok (value, ctx)

/-- Method `CompilerCtx::newConst`; `assert(value.def)` guards the type. -/
def newConst (env : Env) (ctx : CompilerCtx) (type : ValueType) (flags : Nat) :
    Outcome (AotValue × CompilerCtx) :=
  if (env.getNativeTypeDef type).isNone && !env.ndebug then .abort
  else
    .ok (⟨env.getNativeTypeDef type, flags, ⟨ctx.memIndex, type, .Const⟩, .NoRes⟩,
      { ctx with memIndex := ctx.memIndex + 1 })

/-- Method `CompilerCtx::newMark`. -/
def newMark (ctx : CompilerCtx) : Nat × CompilerCtx :=
  (ctx.markIndex, { ctx with markIndex := ctx.markIndex + 1 })

/-- A run of `newReg` calls, one per requested type and flag set, in order. -/
def newRegs : CompilerCtx → List (Option TypeDef × Nat) → List AotValue × CompilerCtx
  | ctx, [] => ([], ctx)
  | ctx, (type, flags) :: rest =>
    ((newReg ctx type flags).1 :: (newRegs (newReg ctx type flags).2 rest).1,
      (newRegs (newReg ctx type flags).2 rest).2)

/-- A context whose script holds one function `f()` with the given code, made
current, with the given register counter. -/
def ctxInFunction (code : List Instruction) (regIndex : Nat) : CompilerCtx :=
  { freshCtx with
    script := { freshCtx.script with localFunctions := [⟨"f()", "int", [], code⟩] }
    function := some 0
    regIndex := regIndex }

/-- A struct type `S` of the `ObjectRef` category with no member. -/
def objectType : TypeDef := .struct "S" .ObjectRef 0 []

/-- Whether a requested register type is void for `newReg`: null or of the
`Void` category. -/
def isVoidType : Option TypeDef → Bool
  | none => true
  | some t => decide (t.type = ValueType.Void)

/-- The register value `newReg` hands out for a non-void type `t` when the
register counter stands at `index`. -/
def regValue (t : TypeDef) (flags index : Nat) : AotValue :=
  ⟨some t, flags, ⟨index, t.type, if t.type ≠ ValueType.ObjectRef then .Reg else .Ptr⟩, .NoRes⟩

/-- The context after one instruction has been appended to the code of the
function at position `i`, which was `f`. -/
def withInstruction (ctx : CompilerCtx) (i : Nat) (f : ScriptFunction) (ins : Instruction) :
    CompilerCtx :=
  { ctx with script := { ctx.script with
      localFunctions := ctx.script.localFunctions.set i { f with code := f.code ++ [ins] } } }

/-! ## Meaning of comparisons -/

/-- Modelled from the spec: the signed-integer meaning of the four comparison
modes, on the values of the first and the second operand of the node. -/
def CompareMode.holds : CompareMode → Int → Int → Bool
  | .Equal, x, y => decide (x = y)
  | .NotEqual, x, y => decide (x ≠ y)
  | .Greater, x, y => decide (x > y)
  | .GreaterEqual, x, y => decide (x ≥ y)

/-- Modelled from the spec: truth of a comparison node when `val` gives the
signed-integer values of its operand nodes. -/
def compareHolds (val : AotNode → Int) : AotNode → Bool
  | .AotCompareNode mode a b => mode.holds (val a) (val b)
  | _ => false

/-- Modelled from the spec: truth of `x op y` for the six comparison operators
of the language, `x` the left and `y` the right operand. -/
def opHolds (symbol : String) (x y : Int) : Bool :=
  if symbol = "==" then decide (x = y)
  else if symbol = "!=" then decide (x ≠ y)
  else if symbol = ">" then decide (x > y)
  else if symbol = ">=" then decide (x ≥ y)
  else if symbol = "<" then decide (x < y)
  else if symbol = "<=" then decide (x ≤ y)
  else false

/-- The six comparison operators. -/
def comparisonOperators : List String := ["==", "!=", ">", ">=", "<", "<="]

/-- Values of the `int` constants, 0 for every other node. -/
def constValue : AotNode → Int
  | .AotConst (.int32 v) _ => v
  | _ => 0

/-! ## Program segments and the driver -/

/-- Parse-tree node `LinkContext` (`IncludeContext` has the same shape): the
string literal `library` and the optional string literal `alias`, quotes
included. -/
structure LinkContext where
  library : Token
  alias_ : Option Token

/-- Parse-tree node `StructDefContext`. -/
structure StructDefContext where
  id : Token
  packed : Option Token
  members : List DeclarationContext

/-- The children of a `ProgramContext`. -/
inductive ProgSegment where
  | structDef (context : StructDefContext)
  | function (context : FunctionContext)
  | includeFile (context : LinkContext)
  | link (context : LinkContext)

/-- Method `Compiler::removePars`: `assert(str.size() >= 2)`, then
`str.substr(1, str.size() - 2)`. With assertions compiled out a text of one
character gives the empty text and the empty text makes `substr` throw.
Positions count characters (the literals are ASCII). -/
def removePars (env : Env) (str : String) : Outcome String :=
  if 2 ≤ str.length then .ok (String.mk ((str.toList.drop 1).take (str.length - 2)))
  else if env.ndebug then (if str.length = 1 then .ok "" else .abort)
  else .abort

/-- Insertion `libraryAliases.insert({name, index})`: an existing key
keeps its value. -/
def insertAlias (aliases : List (String × Nat)) (name : String) (index : Nat) :
    List (String × Nat) :=
  match aliases.lookup name with
  | some _ => aliases
  | none => aliases ++ [(name, index)]

/-- The tail of `Compiler::visitLink`: `linkedLibraries.push_back(libraryName)`
and the insertion of `name` at `(uint32_t)libraryAliases.size()`. -/
def registerLibrary (libraryName name : String) (c : Compiler) : Compiler :=
  let script : IRScript :=
    { c._ctx.script with linkedLibraries := c._ctx.script.linkedLibraries ++ [libraryName] }
  let aliases := insertAlias c._ctx.libraryAliases name (c._ctx.libraryAliases.length % 4294967296)
  { c with _ctx := { c._ctx with script := script, libraryAliases := aliases } }

/-- Method `Compiler::visitLink`. -/
def visitLink (env : Env) (context : LinkContext) (c : Compiler) : Outcome Compiler :=
  match removePars env context.library.text with
  | .abort => .abort
  | .ok libraryName =>
    match env.linker with
    | none => .ok (throwErrorMessage "You must set a linker to be able to link libraries" c)
    | some linker =>
      match linker.getLibrary libraryName with
      | none => .ok (throwErrorMessage ("Library \"" ++ libraryName ++ "\" not found") c)
      | some _ =>
        match context.alias_ with
        | some aliasToken =>
          match removePars env aliasToken.text with
          | .abort => .abort
          | .ok name => .ok (registerLibrary libraryName name c)
        | none => .ok (registerLibrary libraryName libraryName c)

/-- Method `Compiler::visitStructMembers`; a member leaves with the offset 0
until the layout is committed. -/
def visitStructMembers (env : Env) :
    List DeclarationContext → Compiler → Outcome (List StructMember × Compiler)
  | [], c => .ok ([], c)
  | decl :: rest, c =>
    match getType env c decl.type.text with
    | .abort => .abort
    | .ok none =>
      visitStructMembers env rest
        (throwErrorToken decl.type "Could not create struct member with undefined type" c)
    | .ok (some type) =>
      match visitStructMembers env rest c with
      | .abort => .abort
      | .ok (members, c1) => .ok (⟨decl.id.text, 0, type⟩ :: members, c1)

/-- Modelled from the spec: `StructDef::addMember` (body not in the sources): the
member is appended, and a name the definition already has is rejected. -/
def addMember (d : StructDef) (name : String) (type : TypeDef) : StructDef :=
  if d.members.any (fun m => m.name == name) then d
  else { d with members := d.members ++ [⟨name, 0, type⟩] }

/-- The descriptor a committed `StructDef` is as a `TypeDef`: its values are
`ObjectRef`s (`visitNew`, `visitDelete` and `visitDeclaration` test for it). -/
def StructDef.toTypeDef (d : StructDef) : TypeDef :=
  .struct d.name .ObjectRef d.size d.members

/-- Insertion `_privateTypes.insert({name, def})`: an existing key keeps
its value. -/
def insertPrivateType (types : List (String × TypeDef)) (name : String) (t : TypeDef) :
    List (String × TypeDef) :=
  match types.lookup name with
  | some _ => types
  | none => types ++ [(name, t)]

/-- Method `Compiler::visitStructDef`. -/
def visitStructDef (env : Env) (context : StructDefContext) (c : Compiler) : Outcome Compiler :=
  match visitStructMembers env context.members c with
  | .abort => .abort
  | .ok (members, c1) =>
    if !contextValid c1 then .ok c1
    else
      let newDef := commitLayout context.packed.isSome
        (members.foldl (fun d m => addMember d m.name m.type) ⟨context.id.text, [], 0⟩)
      let position := c1._ctx.localStructDefs.length
      let irDef : IRStructDef :=
        ⟨newDef.name, context.packed.isSome,
          newDef.members.map (fun m => ⟨m.name, m.offset, m.type.name⟩)⟩
      let script : IRScript :=
        { c1._ctx.script with localStructs := c1._ctx.script.localStructs ++ [irDef] }
      let ctx : CompilerCtx :=
        { c1._ctx with
          localStructIndices := c1._ctx.localStructIndices ++ [(position, position % 65536)]
          localStructDefs := c1._ctx.localStructDefs ++ [newDef.toTypeDef]
          script := script }
      .ok
        { c1 with
          _privateTypes := insertPrivateType c1._privateTypes newDef.name newDef.toTypeDef
          _ctx := ctx }

/-- Method `Compiler::visitInclude`: the base visitor walks the children, which
are tokens. -/
def visitInclude (_context : LinkContext) (c : Compiler) : Outcome Compiler :=
  .ok c

/-- Method `Compiler::visitProgram`: the base visitor visits the children in
order. -/
def visitProgram (env : Env) : List ProgSegment → Compiler → Outcome Compiler
  | [], c => .ok c
  | .structDef context :: rest, c =>
    match visitStructDef env context c with
    | .abort => .abort
    | .ok c1 => visitProgram env rest c1
  | .function context :: rest, c =>
    match visitFunction env context c with
    | .abort => .abort
    | .ok c1 => visitProgram env rest c1
  | .includeFile context :: rest, c =>
    match visitInclude context c with
    | .abort => .abort
    | .ok c1 => visitProgram env rest c1
  | .link context :: rest, c =>
    match visitLink env context c with
    | .abort => .abort
    | .ok c1 => visitProgram env rest c1

/-- One call of `syntaxError` on an error listener: which listener, the
offending token (null for the lexer), the position and the message. -/
structure SyntaxError where
  fromLexer : Bool
  offendingSymbol : Option Token
  line : Nat
  charPositionInLine : Nat
  msg : String

/-- What `parser.program()` does with a text: the calls it makes on the two
error listeners, in order, and the tree it returns. The lexer and the parser are
collaborators. -/
structure ParseResult where
  syntaxErrors : List SyntaxError
  program : List ProgSegment

/-- The bytes of one character in a `std::string` (UTF-8). -/
def utf8Bytes (ch : Char) : List Nat :=
  if ch.toNat < 128 then [ch.toNat]
  else if ch.toNat < 2048 then [192 + ch.toNat / 64, 128 + ch.toNat % 64]
  else if ch.toNat < 65536 then
    [224 + ch.toNat / 4096, 128 + ch.toNat / 64 % 64, 128 + ch.toNat % 64]
  else
    [240 + ch.toNat / 262144, 128 + ch.toNat / 4096 % 64, 128 + ch.toNat / 64 % 64,
      128 + ch.toNat % 64]

/-- The bytes of a text as `operator[]` of `std::string` reads them. -/
def fileBytes (text : String) : List Nat :=
  text.toList.flatMap utf8Bytes

/-- The `while` loop of `LexerErrorListener::syntaxError` over the bytes of the
text: the position after `lines` line feeds (byte 10), none when the loop runs
off the text. -/
def lineStart : List Nat → Nat → Nat → Option Nat
  | _, 0, charIndex => some charIndex
  | [], _ + 1, _ => none
  | byte :: rest, lines + 1, charIndex =>
    lineStart rest (if byte = 10 then lines else lines + 1) (charIndex + 1)

/-- Methods `LexerErrorListener::syntaxError` and
`ParserErrorListener::syntaxError`; `line - 1` is a `size_t`, the text is
indexed by byte, a read at the size of the text gives the terminator and a read
past it aborts. The byte read is appended to the message as the character of
that code. -/
def syntaxError (currentFile : String) (e : SyntaxError) (c : Compiler) : Outcome Compiler :=
  match e.offendingSymbol with
  | some token => .ok (throwErrorToken token e.msg c)
  | none =>
    if e.fromLexer then
      match lineStart (fileBytes currentFile)
          ((e.line + 18446744073709551615) % 18446744073709551616) 0 with
      | none => .abort
      | some charIndex =>
        if (fileBytes currentFile).length < charIndex + e.charPositionInLine then .abort
        else
          let byte := (fileBytes currentFile).getD (charIndex + e.charPositionInLine) 0
          .ok (throwErrorMessage
            ("Unknown Token \"" ++ String.mk [Char.ofNat byte] ++ "\" on line " ++
              toString e.line ++ ":" ++ toString e.charPositionInLine) c)
    else .ok c

/-- The listener calls of one parse, in order. -/
def reportSyntaxErrors (currentFile : String) : List SyntaxError → Compiler → Outcome Compiler
  | [], c => .ok c
  | e :: rest, c =>
    match syntaxError currentFile e c with
    | .abort => .abort
    | .ok c1 => reportSyntaxErrors currentFile rest c1

/-- The body of `Compiler::compile` up to the end of `visit(parser.program())`:
the context is replaced by a fresh one (the error list, the scopes and the
private types are left as they are), the text is parsed, which reports the
syntax errors, and the tree is walked. -/
def walkProgram (env : Env) (parse : String → ParseResult) (script : String) (c : Compiler) :
    Outcome Compiler :=
  let c0 : Compiler := { c with _ctx := freshCtx }
  match reportSyntaxErrors script (parse script).syntaxErrors c0 with
  | .abort => .abort
  | .ok c1 => visitProgram env (parse script).program c1

/-- Method `Compiler::compile`: the result is `_ctx->script` when
`contextValid()` and null otherwise. -/
def compile (env : Env) (parse : String → ParseResult) (script : String) (c : Compiler) :
    Outcome (Option IRScript × Compiler) :=
  match walkProgram env parse script c with
  | .abort => .abort
  | .ok c1 => if contextValid c1 then .ok (some c1._ctx.script, c1) else .ok (none, c1)

/-- A linker that knows the native types and the libraries `A`, `B` and `C`,
whose functions return `int`, `float` and `bool`. -/
def libraryLinker : Linker where
  getType := nativeLinker.getType
  getLibrary := fun n =>
    if n == "A" then some ⟨fun _ => "int"⟩
    else if n == "B" then some ⟨fun _ => "float"⟩
    else if n == "C" then some ⟨fun _ => "bool"⟩
    else none

/-- The native environment with the linker of the three libraries. -/
def libraryEnv : Env := { nativeEnv with linker := some libraryLinker }

/-- The directives `link "A" as "x"; link "B" as "x"; link "C" as "y";`. -/
def sampleLinks : List ProgSegment :=
  [.link ⟨tok "\"A\"", some (tok "\"x\"")⟩, .link ⟨tok "\"B\"", some (tok "\"x\"")⟩,
    .link ⟨tok "\"C\"", some (tok "\"y\"")⟩]

/-- The directives `link "A"; link "A"; link "B";`. -/
def sampleRepeatedLinks : List ProgSegment :=
  [.link ⟨tok "\"A\"", none⟩, .link ⟨tok "\"A\"", none⟩, .link ⟨tok "\"B\"", none⟩]

/-- A stand-in for the lexer and parser on the two texts used below:
`int f(int a, float b) { return a; }` parses without error into its one
function; in `?` no lexer rule matches the character, so the lexer listener is
called without a token at line 1, column 0, and the program is empty. Any other
text is answered as the empty text is, with no error and an empty program. -/
def sampleParse (script : String) : ParseResult :=
  if script = sampleTwoArgs.text then ⟨[], [.function sampleTwoArgs]⟩
  else if script = "?" then ⟨[⟨true, none, 1, 0, "token recognition error at: \x27?\x27"⟩], []⟩
  else ⟨[], []⟩

/-! ## Further sample inputs -/

/-- The function `foo f() { }`, whose return type `foo` is declared nowhere. -/
def sampleUnknownReturn : FunctionContext where
  start := tok "foo"
  type := tok "foo"
  id := tok "f"
  arguments := []
  statements := []
  text := "foo f() \x7b \x7d"

/-- The function `int f(int a, float a) { return a; }`, which declares the
argument name `a` twice. -/
def sampleDuplicateArguments : FunctionContext where
  start := tok "int"
  type := tok "int"
  id := tok "f"
  arguments := [⟨tok "a", tok "int", none, none⟩, ⟨tok "a", tok "float", none, none⟩]
  statements := [.returnVal (.id (tok "a"))]
  text := "int f(int a, float a) \x7b return a; \x7d"

/-- The native environment with assertions compiled out (`NDEBUG`). -/
def releaseEnv : Env := { nativeEnv with ndebug := true }

/-- The definition `struct S { char a; int b; float c; }`. -/
def sampleStructContext : StructDefContext where
  id := tok "S"
  packed := none
  members := [⟨tok "a", tok "char", none, none⟩, ⟨tok "b", tok "int", none, none⟩,
    ⟨tok "c", tok "float", none, none⟩]

/-- The definition `packed struct S { int z; }`, a second struct named `S`. -/
def sampleSecondStructContext : StructDefContext where
  id := tok "S"
  packed := some (tok "packed")
  members := [⟨tok "z", tok "int", none, none⟩]

/-- State of the argument loop of `Compiler::visitFunction` after the arguments
`done` (names and types, in order), when the loop started with the local-index
counter `k0` above the scopes `base`: the scope on top binds the `j`-th name to
a value node with the local index `k0 + j` (a `uint16_t`) and its type and binds
nothing else, the table `lValues` holds under that index the register value
number `j` of that type and holds nothing else, the register counter is the
number of arguments and the local-index counter has advanced by it. -/
def ArgumentsBound (k0 : Nat) (base : List Scope) (done : List (String × TypeDef))
    (c : Compiler) : Prop :=
  ∃ top : Scope, c._scopes = base ++ [top] ∧
    (∀ j n t, done[j]? = some (n, t) →
      top.find n = some ⟨(k0 + j) % 65536, some t, false, false⟩ ∧
      c._ctx.lValues.lookup ((k0 + j) % 65536) = some (regValue t 0 j)) ∧
    (∀ n, n ∉ done.map Prod.fst → top.find n = none) ∧
    (∀ k, (∀ j, j < done.length → k ≠ (k0 + j) % 65536) → c._ctx.lValues.lookup k = none) ∧
    c._ctx.regIndex = done.length ∧
    c._lValueIDCount = (k0 + done.length) % 65536

/-! ## Lexer rule `COMMENT` -/

/-- Set 1 of the serialized ATN of `braneLexer.cpp`, the label of the `SET`
transition 208 -> 209 that ends rule `COMMENT` (rule 29): the intervals
`10..10`, `13..13`, `40..41`, `69..70` and `79..79`, that is line feed,
carriage return, `(`, `)`, `E`, `F` and `O`. -/
def isCommentEnd (ch : Char) : Bool :=
  ch.toNat = 10 || ch.toNat = 13 || (40 ≤ ch.toNat && ch.toNat ≤ 41) ||
    (69 ≤ ch.toNat && ch.toNat ≤ 70) || ch.toNat = 79

/-- The loop of rule `COMMENT` (states 202 to 207, a `WILDCARD` transition
under the star-loop entry 205, which the ATN lists as non-greedy) followed by
the `SET` transition 208 -> 209: the number of characters up to and including
the first one of the set, none when the text has no such character. -/
def commentTail : List Char → Option Nat
  | [] => none
  | ch :: rest =>
    if isCommentEnd ch then some 1
    else
      match commentTail rest with
      | some n => some (n + 1)
      | none => none

/-- Rule `COMMENT` of the lexer (rule 29, start state 59): the two `ATOM`
transitions 199 -> 200 -> 201 on `/` (47), the non-greedy loop and the closing
set; the lexer action of the rule is `skip`. The result is the length of the
match at the front of the text, none when the rule does not match there. -/
def matchComment : List Char → Option Nat
  | '/' :: '/' :: rest =>
    match commentTail rest with
    | some n => some (n + 2)
    | none => none
  | _ => none

/-- The text the rule `COMMENT` skips at the front of a text, and what it
leaves to the next token. -/
def skipComment (text : String) : Option (String × String) :=
  match matchComment text.toList with
  | some n => some (String.mk (text.toList.take n), String.mk (text.toList.drop n))
  | none => none

/-! ## Well-formed names -/

/-- A name the mangling can be read back from: it is not empty and has none of
the characters `(`, `,` and `)`. Every `ID` token of the lexer is one. -/
def wellFormedName (s : String) : Bool :=
  !s.toList.isEmpty && s.toList.all (fun ch => ch != '(' && ch != ',' && ch != ')')

/-- A function definition `visitFunction` names in full: its return type is
`void` or resolves, its argument types resolve, and its name and its argument
type names are well-formed. -/
def Declarable (env : Env) (ctx : FunctionContext) (c : Compiler) : Prop :=
  (∃ r, getType env c ctx.type.text = .ok r ∧ (r.isNone = true → ctx.type.text = "void")) ∧
    (∀ a ∈ ctx.arguments, ∃ t, getType env c a.type.text = .ok (some t)) ∧
    wellFormedName ctx.id.text = true ∧
    ∀ a ∈ ctx.arguments, wellFormedName a.type.text = true

/-! ## Theorems -/

theorem getValueNodeLoop_eq_null (l : List Scope) (name : String) :
    getValueNodeLoop l name = .null ↔ ∀ s ∈ l, s.find name = none := by
  induction l with
  | nil => simp [getValueNodeLoop]
  | cons i rest ih =>
    simp only [getValueNodeLoop, List.mem_cons, forall_eq_or_imp]
    cases h : i.find name with
    | none => simp [ih]
    | some v => simp

theorem getValueNodeLoop_skip (pre : List Scope) (rest : List Scope) (name : String)
    (h : ∀ t ∈ pre, t.find name = none) :
    getValueNodeLoop (pre ++ rest) name = getValueNodeLoop rest name := by
  induction pre with
  | nil => rfl
  | cons t pre ih =>
    have ht : t.find name = none := h t (List.mem_cons_self _ _)
    have hpre : ∀ u ∈ pre, u.find name = none := fun u hu => h u (List.mem_cons_of_mem _ hu)
    simp only [List.cons_append, getValueNodeLoop, ht]
    exact ih hpre

theorem localValueExistsLoop_eq_false (l : List Scope) (name : String) :
    localValueExistsLoop l name = false ↔ ∀ s ∈ l, s.find name = none := by
  induction l with
  | nil => simp [localValueExistsLoop]
  | cons i rest ih =>
    simp only [localValueExistsLoop, List.mem_cons, forall_eq_or_imp]
    cases h : i.find name with
    | none =>
      have hc : i.count name = 0 := by simp [Scope.count, h]
      simp [hc, ih]
    | some v =>
      have hc : i.count name = 1 := by simp [Scope.count, h]
      simp [hc]

theorem localValueExists_eq_true (c : Compiler) (name : String) :
    localValueExists c name = true ↔ ∃ s ∈ c._scopes, (s.find name).isSome = true := by
  constructor
  · intro h
    by_contra hne
    have : localValueExists c name = false := by
      rw [localValueExists, localValueExistsLoop_eq_false]
      intro s hs
      cases hf : s.find name with
      | none => rfl
      | some v => exact absurd ⟨s, hs, by simp [hf]⟩ hne
    rw [this] at h
    cases h
  · rintro ⟨s, hs, hsome⟩
    cases hl : localValueExists c name with
    | true => rfl
    | false =>
      rw [localValueExists, localValueExistsLoop_eq_false] at hl
      rw [hl s hs] at hsome
      cases hsome

/-- C3: `getValueNode` returns a copy of the binding held by the innermost
scope containing the name (every scope pushed after it lacks the name), and it
returns null exactly when no scope of the stack contains the name, which is
exactly when `localValueExists` answers false. -/
theorem getValueNode_innermost (c : Compiler) (name : String) :
    (∀ (outer inner : List Scope) (s : Scope) (v : AotValueNode),
        c._scopes = outer ++ s :: inner → s.find name = some v →
        (∀ t ∈ inner, t.find name = none) →
        getValueNode c name = .AotValueNode v) ∧
    (getValueNode c name = .null ↔ ∀ s ∈ c._scopes, s.find name = none) ∧
    (getValueNode c name = .null ↔ localValueExists c name = false) := by
  refine ⟨?_, ?_, ?_⟩
  · intro outer inner s v hsc hs hinner
    have hrev : ∀ t ∈ inner.reverse, t.find name = none :=
      fun t ht => hinner t (List.mem_reverse.mp ht)
    rw [getValueNode, hsc, List.reverse_append, List.reverse_cons, List.append_assoc,
      getValueNodeLoop_skip _ _ _ hrev]
    simp [getValueNodeLoop, hs]
  · rw [getValueNode, getValueNodeLoop_eq_null]
    simp
  · rw [getValueNode, getValueNodeLoop_eq_null, localValueExists, localValueExistsLoop_eq_false]
    simp

/-- Witness of C3 on a stack where an inner scope shadows an outer binding of
`x`: the inner binding (local 1) is the one returned. -/
theorem getValueNode_innermost_witness :
    getValueNode (compilerWith [⟨[("x", ⟨0, some intType, false, false⟩)]⟩,
        ⟨[("x", ⟨1, some floatType, false, false⟩)]⟩, ⟨[]⟩] 2) "x"
      = .AotValueNode ⟨1, some floatType, false, false⟩ :=
  (getValueNode_innermost (compilerWith [⟨[("x", ⟨0, some intType, false, false⟩)]⟩,
        ⟨[("x", ⟨1, some floatType, false, false⟩)]⟩, ⟨[]⟩] 2) "x").1
    [⟨[("x", ⟨0, some intType, false, false⟩)]⟩] [⟨[]⟩]
    ⟨[("x", ⟨1, some floatType, false, false⟩)]⟩ ⟨1, some floatType, false, false⟩
    rfl rfl (by intro t ht; rw [List.mem_singleton] at ht; subst ht; rfl)

/-- C4: a declaration whose type resolves and whose name is bound in some scope
of the stack (any of them) makes `visitDeclaration` return null, append the one
error "Identifier is already in use" and leave the scope stack and the
local-index counter as they were. -/
theorem visitDeclaration_name_in_use (env : Env) (context : DeclarationContext) (c : Compiler)
    (type : TypeDef) (htype : getType env c context.type.text = .ok (some type))
    (hbound : ∃ s ∈ c._scopes, (s.find context.id.text).isSome = true) :
    ∃ c1, visitDeclaration env context c = .ok (.null, c1) ∧
      c1._errors = c._errors ++ [errorText context.id.line context.id.charPositionInLine
        context.id.text "Identifier is already in use"] ∧
      c1._scopes = c._scopes ∧ c1._lValueIDCount = c._lValueIDCount := by
  have hex : localValueExists c context.id.text = true :=
    (localValueExists_eq_true c context.id.text).mpr hbound
  refine ⟨throwErrorToken context.id "Identifier is already in use" c, ?_, rfl, rfl, rfl⟩
  simp only [visitDeclaration, htype, hex, if_true]

/-- Witness of C4: `int x;` while `x` is bound in the outer of two scopes. -/
theorem visitDeclaration_name_in_use_witness :
    ∃ c1, visitDeclaration nativeEnv ⟨tok "x", tok "int", none, none⟩
        (compilerWith [⟨[("x", ⟨0, some intType, false, false⟩)]⟩, ⟨[]⟩] 1) = .ok (.null, c1) ∧
      c1._errors = [] ++ [errorText 1 0 "x" "Identifier is already in use"] ∧
      c1._scopes = [⟨[("x", ⟨0, some intType, false, false⟩)]⟩, ⟨[]⟩] ∧
      c1._lValueIDCount = 1 :=
  visitDeclaration_name_in_use nativeEnv ⟨tok "x", tok "int", none, none⟩
    (compilerWith [⟨[("x", ⟨0, some intType, false, false⟩)]⟩, ⟨[]⟩] 1) intType rfl
    ⟨⟨[("x", ⟨0, some intType, false, false⟩)]⟩, List.mem_cons_self _ _, rfl⟩

/-! ### Frame of the visitors -/

theorem ExprFrame.reflE (c : Compiler) : ExprFrame c c := ⟨rfl, rfl⟩

theorem ExprFrame.transE {a b c : Compiler} (h1 : ExprFrame a b) (h2 : ExprFrame b c) :
    ExprFrame a c :=
  ⟨h2.1.trans h1.1, h2.2.trans h1.2⟩

theorem ExprFrame.toStmt {a b : Compiler} (h : ExprFrame a b) : StmtFrame a b :=
  ⟨h.2, by rw [h.1]⟩

theorem StmtFrame.reflS (c : Compiler) : StmtFrame c c := ⟨rfl, rfl⟩

theorem StmtFrame.transS {a b c : Compiler} (h1 : StmtFrame a b) (h2 : StmtFrame b c) :
    StmtFrame a c :=
  ⟨h2.1.trans h1.1, h2.2.trans h1.2⟩

theorem throwErrorToken_frame (t : Token) (m : String) (c : Compiler) :
    ExprFrame c (throwErrorToken t m c) := ⟨rfl, rfl⟩

theorem throwErrorPos_frame (l p : Nat) (x m : String) (c : Compiler) :
    ExprFrame c (throwErrorPos l p x m c) := ⟨rfl, rfl⟩

theorem getType_congr (env : Env) (c c1 : Compiler) (h : c1._privateTypes = c._privateTypes)
    (n : String) : getType env c1 n = getType env c n := by
  simp only [getType, h]

theorem registerLocalValue_frame (env : Env) (c : Compiler) (name type : String)
    (constant ref : Bool) (i : Nat) (c1 : Compiler)
    (h : registerLocalValue env c name type constant ref = .ok (i, c1)) : ExprFrame c c1 := by
  simp only [registerLocalValue] at h
  split at h
  · cases h
  · split at h
    · cases h
    · split at h
      · cases h
      · cases h
        exact ⟨rfl, rfl⟩

theorem visitDeclaration_frame (env : Env) (d : DeclarationContext) (c : Compiler)
    (n : AotNode) (c1 : Compiler) (h : visitDeclaration env d c = .ok (n, c1)) :
    ExprFrame c c1 := by
  simp only [visitDeclaration] at h
  split at h
  · cases h
  · cases h; exact throwErrorToken_frame _ _ _
  · split at h
    · cases h; exact throwErrorToken_frame _ _ _
    · split at h
      · cases h; exact throwErrorToken_frame _ _ _
      · split at h
        · cases h
        · rename_i hr
          cases h
          exact registerLocalValue_frame _ _ _ _ _ _ _ _ hr

theorem buildSignature_frame (env : Env) (start : Token) (args : List AotNode) :
    ∀ (fn : String) (c : Compiler), ExprFrame c (buildSignature env start args fn c).2 := by
  induction args with
  | nil => intro fn c; exact ExprFrame.reflE c
  | cons a rest ih =>
    intro fn c
    simp only [buildSignature]
    split
    · exact ExprFrame.reflE c
    · split
      · exact throwErrorPos_frame _ _ _ _ _
      · split
        · exact ih _ _
        · exact ih _ _

theorem visitFunctionCall_frame (env : Env) (start : Token) (ns : Option Token) (name : Token)
    (args : List AotNode) (c : Compiler) (n : AotNode) (c1 : Compiler)
    (h : visitFunctionCall env start ns name args c = .ok (n, c1)) : ExprFrame c c1 := by
  have hb := buildSignature_frame env start args (name.text ++ "(") c
  simp only [visitFunctionCall] at h
  split at h
  · rename_i c2 heq
    cases h
    rw [heq] at hb
    exact hb
  · rename_i built c2 heq
    rw [heq] at hb
    simp only at hb
    split at h
    · split at h
      · cases h; exact hb.transE (throwErrorToken_frame _ _ _)
      · split at h
        · cases h
        · split at h
          · cases h
          · split at h
            · cases h
            · split at h
              · cases h
              · cases h; exact hb
    · split at h
      · split at h
        · cases h
        · cases h; exact hb
      · cases h; exact hb.transE (throwErrorToken_frame _ _ _)

theorem visitMemberAccess_frame (env : Env) (base member : Token) (c : Compiler)
    (n : AotNode) (c1 : Compiler) (h : visitMemberAccess env base member c = .ok (n, c1)) :
    ExprFrame c c1 := by
  simp only [visitMemberAccess] at h
  split at h
  · cases h; exact throwErrorToken_frame _ _ _
  · split at h
    · cases h; exact throwErrorToken_frame _ _ _
    · split at h
      · cases h; exact throwErrorToken_frame _ _ _
      · cases h; exact ExprFrame.reflE c

theorem visitNew_frame (env : Env) (type : Token) (c : Compiler)
    (n : AotNode) (c1 : Compiler) (h : visitNew env type c = .ok (n, c1)) :
    ExprFrame c c1 := by
  simp only [visitNew] at h
  split at h
  · cases h
  · cases h; exact throwErrorToken_frame _ _ _
  · split at h
    · cases h; exact throwErrorToken_frame _ _ _
    · cases h; exact ExprFrame.reflE c

mutual
theorem visitExpr_frame (env : Env) :
    ∀ (e : Expr) (c : Compiler) (n : AotNode) (c1 : Compiler),
      visitExpr env e c = .ok (n, c1) → ExprFrame c c1
  | .constBool tok, c, n, c1, h => by
    simp only [visitExpr] at h
    split at h
    · cases h
    · split at h <;> (cases h; exact ExprFrame.reflE c)
  | .constInt tok, c, n, c1, h => by
    simp only [visitExpr] at h
    split at h
    · cases h
    · split at h
      · cases h
      · cases h; exact ExprFrame.reflE c
  | .constFloat tok, c, n, c1, h => by
    simp only [visitExpr] at h
    split at h
    · cases h
    · split at h
      · cases h
      · cases h; exact ExprFrame.reflE c
  | .constString _, c, n, c1, h => by
    simp only [visitExpr] at h
    cases h
  | .id tok, c, n, c1, h => by
    simp only [visitExpr] at h
    split at h
    · cases h; exact throwErrorToken_frame _ _ _
    · cases h; exact ExprFrame.reflE c
  | .decl d, c, n, c1, h => by
    simp only [visitExpr] at h
    exact visitDeclaration_frame _ _ _ _ _ h
  | .memberAccess base member, c, n, c1, h => by
    simp only [visitExpr] at h
    exact visitMemberAccess_frame _ _ _ _ _ _ h
  | .assignment dest expr, c, n, c1, h => by
    simp only [visitExpr] at h
    split at h
    · cases h
    · rename_i r c2 h1
      have f1 := visitExpr_frame env expr c r c2 h1
      split at h
      · cases h; exact f1
      · split at h
        · cases h
        · rename_i l c3 h2
          have f2 := visitExpr_frame env dest c2 l c3 h2
          split at h <;> (cases h; exact f1.transE f2)
  | .addsub left op right, c, n, c1, h => by
    simp only [visitExpr] at h
    split at h
    · cases h
    · rename_i l c2 h1
      have f1 := visitExpr_frame env left c l c2 h1
      split at h
      · cases h; exact f1
      · split at h
        · cases h
        · rename_i r c3 h2
          have f2 := visitExpr_frame env right c2 r c3 h2
          split at h
          · cases h; exact f1.transE f2
          · split at h <;> (cases h; exact f1.transE f2)
  | .muldiv left op right, c, n, c1, h => by
    simp only [visitExpr] at h
    split at h
    · cases h
    · rename_i l c2 h1
      have f1 := visitExpr_frame env left c l c2 h1
      split at h
      · cases h; exact f1
      · split at h
        · cases h
        · rename_i r c3 h2
          have f2 := visitExpr_frame env right c2 r c3 h2
          split at h
          · cases h; exact f1.transE f2
          · split at h <;> (cases h; exact f1.transE f2)
  | .comparison left op right, c, n, c1, h => by
    simp only [visitExpr] at h
    split at h
    · cases h
    · rename_i l c2 h1
      have f1 := visitExpr_frame env left c l c2 h1
      split at h
      · cases h
      · rename_i r c3 h2
        have f2 := visitExpr_frame env right c2 r c3 h2
        repeat (first | (cases h; exact f1.transE f2) | split at h)
  | .cast _ expression ID, c, n, c1, h => by
    simp only [visitExpr] at h
    split at h
    · cases h
    · rename_i r c2 h1
      have f1 := visitExpr_frame env expression c r c2 h1
      split at h
      · cases h
      · cases h; exact f1
  | .functionCall start ns name args, c, n, c1, h => by
    simp only [visitExpr] at h
    split at h
    · cases h
    · rename_i nodes c2 h1
      have f1 := visitArgumentPack_frame env args c nodes c2 h1
      exact f1.transE (visitFunctionCall_frame _ _ _ _ _ _ _ _ h)
  | .new _ type, c, n, c1, h => by
    simp only [visitExpr] at h
    exact visitNew_frame _ _ _ _ _ h
  | .delete start ptr, c, n, c1, h => by
    simp only [visitExpr] at h
    split at h
    · cases h
    · rename_i r c2 h1
      have f1 := visitExpr_frame env ptr c r c2 h1
      split at h
      · cases h
      · split at h
        · cases h
        · split at h
          · cases h; exact f1.transE (throwErrorToken_frame _ _ _)
          · cases h; exact f1
  | .inlineScope _ expression, c, n, c1, h => by
    simp only [visitExpr] at h
    exact visitExpr_frame env expression c n c1 h
theorem visitArgumentPack_frame (env : Env) :
    ∀ (es : List Expr) (c : Compiler) (ns : List AotNode) (c1 : Compiler),
      visitArgumentPack env es c = .ok (ns, c1) → ExprFrame c c1
  | [], c, ns, c1, h => by
    simp only [visitArgumentPack] at h
    cases h; exact ExprFrame.reflE c
  | e :: rest, c, ns, c1, h => by
    simp only [visitArgumentPack] at h
    split at h
    · cases h
    · rename_i r c2 h1
      have f1 := visitExpr_frame env e c r c2 h1
      split at h
      · cases h
      · rename_i rs c3 h2
        have f2 := visitArgumentPack_frame env rest c2 rs c3 h2
        cases h; exact f1.transE f2
end

theorem pushScope_frame (c : Compiler) : ExprFrame c (pushScope c) := ⟨rfl, rfl⟩

theorem popScope_frame (c : Compiler) : ExprFrame c (popScope c) := ⟨rfl, rfl⟩

theorem setReturnCalled_frame (c : Compiler) (b : Bool) : StmtFrame c (setReturnCalled c b) :=
  ⟨rfl, rfl⟩

theorem visitReturnVal_frame (env : Env) (start : Token) (retVal : AotNode) (c : Compiler)
    (n : AotNode) (c1 : Compiler) (h : visitReturnVal env start retVal c = .ok (n, c1)) :
    StmtFrame c c1 := by
  simp only [visitReturnVal] at h
  split at h
  · cases h; exact StmtFrame.reflS c
  · split at h
    · cases h
    · split at h
      · cases h; exact (throwErrorToken_frame _ _ _).toStmt
      · split at h
        · split at h
          · cases h
          · cases h; exact setReturnCalled_frame _ _
        · cases h; exact setReturnCalled_frame _ _

theorem visitReturnVoid_frame (env : Env) (c : Compiler)
    (n : AotNode) (c1 : Compiler) (h : visitReturnVoid env c = .ok (n, c1)) :
    StmtFrame c c1 := by
  simp only [visitReturnVoid] at h
  split at h
  · cases h; exact ⟨rfl, rfl⟩
  · cases h

mutual
theorem visitStmt_frame (env : Env) :
    ∀ (s : Stmt) (c : Compiler) (n : AotNode) (c1 : Compiler),
      visitStmt env s c = .ok (n, c1) →
        StmtFrame c c1 ∧ (s.hasReturn = false → ExprFrame c c1)
  | .exprStatement e, c, n, c1, h => by
    simp only [visitStmt] at h
    have f := visitExpr_frame env e c n c1 h
    exact ⟨f.toStmt, fun _ => f⟩
  | .decl d, c, n, c1, h => by
    simp only [visitStmt] at h
    have f := visitDeclaration_frame env d c n c1 h
    exact ⟨f.toStmt, fun _ => f⟩
  | .scope ss, c, n, c1, h => by
    simp only [visitStmt] at h
    split at h
    · cases h
    · rename_i c2 h1
      have f := visitScopeLoop_frame env ss (pushScope c) none c2 h1
      cases h
      exact ⟨(pushScope_frame c).toStmt.transS f.1,
        fun hr => (pushScope_frame c).transE (f.2 (by simpa [Stmt.hasReturn] using hr))⟩
    · rename_i ops c2 h1
      have f := visitScopeLoop_frame env ss (pushScope c) (some ops) c2 h1
      cases h
      exact ⟨((pushScope_frame c).toStmt.transS f.1).transS (popScope_frame c2).toStmt,
        fun hr => ((pushScope_frame c).transE (f.2 (by simpa [Stmt.hasReturn] using hr))).transE
          (popScope_frame c2)⟩
  | .returnVal e, c, n, c1, h => by
    simp only [visitStmt] at h
    split at h
    · cases h
    · rename_i r c2 h1
      have f1 := visitExpr_frame env e c r c2 h1
      have f2 := visitReturnVal_frame _ _ _ _ _ _ h
      exact ⟨f1.toStmt.transS f2, fun hr => by simp [Stmt.hasReturn] at hr⟩
  | .returnVoid, c, n, c1, h => by
    simp only [visitStmt] at h
    exact ⟨visitReturnVoid_frame _ _ _ _ h, fun hr => by simp [Stmt.hasReturn] at hr⟩
  | .ifStmt cond op, c, n, c1, h => by
    simp only [visitStmt] at h
    split at h
    · cases h
    · rename_i r c2 h1
      have f1 := visitExpr_frame env cond c r c2 h1
      split at h
      · cases h
      · rename_i o c3 h2
        have f2 := visitStmt_frame env op c2 o c3 h2
        cases h
        exact ⟨f1.toStmt.transS f2.1,
          fun hr => f1.transE (f2.2 (by simpa [Stmt.hasReturn] using hr))⟩
  | .whileStmt cond op, c, n, c1, h => by
    simp only [visitStmt] at h
    split at h
    · cases h
    · rename_i r c2 h1
      have f1 := visitExpr_frame env cond c r c2 h1
      split at h
      · cases h
      · rename_i o c3 h2
        have f2 := visitStmt_frame env op c2 o c3 h2
        cases h
        exact ⟨f1.toStmt.transS f2.1,
          fun hr => f1.transE (f2.2 (by simpa [Stmt.hasReturn] using hr))⟩
theorem visitScopeLoop_frame (env : Env) :
    ∀ (ss : List Stmt) (c : Compiler) (r : Option (List AotNode)) (c1 : Compiler),
      visitScopeLoop env ss c = .ok (r, c1) →
        StmtFrame c c1 ∧ (hasReturnAny ss = false → ExprFrame c c1)
  | [], c, r, c1, h => by
    simp only [visitScopeLoop] at h
    cases h
    exact ⟨StmtFrame.reflS c, fun _ => ExprFrame.reflE c⟩
  | s :: rest, c, r, c1, h => by
    simp only [visitScopeLoop] at h
    split at h
    · cases h
    · rename_i o c2 h1
      have f1 := visitStmt_frame env s c o c2 h1
      split at h
      · cases h
        exact ⟨f1.1, fun hr => f1.2 (by
          simp only [hasReturnAny, Bool.or_eq_false_iff] at hr; exact hr.1)⟩
      · split at h
        · cases h
        · rename_i c3 h2
          have f2 := visitScopeLoop_frame env rest c2 none c3 h2
          cases h
          exact ⟨f1.1.transS f2.1, fun hr => by
            simp only [hasReturnAny, Bool.or_eq_false_iff] at hr
            exact (f1.2 hr.1).transE (f2.2 hr.2)⟩
        · rename_i ops c3 h2
          have f2 := visitScopeLoop_frame env rest c2 (some ops) c3 h2
          cases h
          exact ⟨f1.1.transS f2.1, fun hr => by
            simp only [hasReturnAny, Bool.or_eq_false_iff] at hr
            exact (f1.2 hr.1).transE (f2.2 hr.2)⟩
end

/-! ### Frame of the statement loop of a function -/

theorem FnFrame.reflF (c : Compiler) : FnFrame c c := ⟨rfl, rfl, rfl⟩

theorem FnFrame.transF {a b c : Compiler} (h1 : FnFrame a b) (h2 : FnFrame b c) : FnFrame a c :=
  ⟨h2.1.trans h1.1, h2.2.1.trans h1.2.1, h2.2.2.trans h1.2.2⟩

theorem StmtFrame.toFn {a b : Compiler} (h : StmtFrame a b) : FnFrame a b := by
  have hs : b._ctx.script = a._ctx.script := by
    have := congrArg CompilerCtx.script h.2
    exact this
  have hf : b._ctx.function = a._ctx.function := by
    have := congrArg CompilerCtx.function h.2
    exact this
  exact ⟨h.1, hf, by rw [hs]⟩

theorem modifyCurrent_privateTypes (c : Compiler) (g : ScriptFunction → ScriptFunction) :
    (modifyCurrent c g)._privateTypes = c._privateTypes := by
  unfold modifyCurrent
  split
  · rfl
  · split <;> rfl

theorem modifyCurrent_scopes (c : Compiler) (g : ScriptFunction → ScriptFunction) :
    (modifyCurrent c g)._scopes = c._scopes := by
  unfold modifyCurrent
  split
  · rfl
  · split <;> rfl

theorem modifyCurrent_errors (c : Compiler) (g : ScriptFunction → ScriptFunction) :
    (modifyCurrent c g)._errors = c._errors := by
  unfold modifyCurrent
  split
  · rfl
  · split <;> rfl

theorem modifyCurrent_lValueIDCount (c : Compiler) (g : ScriptFunction → ScriptFunction) :
    (modifyCurrent c g)._lValueIDCount = c._lValueIDCount := by
  unfold modifyCurrent
  split
  · rfl
  · split <;> rfl

theorem modifyCurrent_function (c : Compiler) (g : ScriptFunction → ScriptFunction) :
    (modifyCurrent c g)._ctx.function = c._ctx.function := by
  unfold modifyCurrent
  split
  · rfl
  · split <;> rfl

theorem modifyCurrent_returnCalled (c : Compiler) (g : ScriptFunction → ScriptFunction) :
    (modifyCurrent c g)._ctx.returnCalled = c._ctx.returnCalled := by
  unfold modifyCurrent
  split
  · rfl
  · split <;> rfl

theorem modifyCurrent_length (c : Compiler) (g : ScriptFunction → ScriptFunction) :
    (modifyCurrent c g)._ctx.script.localFunctions.length =
      c._ctx.script.localFunctions.length := by
  unfold modifyCurrent
  split
  · rfl
  · split
    · rfl
    · simp

theorem currentFunction_modifyCurrent (c : Compiler) (g : ScriptFunction → ScriptFunction)
    (f : ScriptFunction) (h : currentFunction c = some f) :
    currentFunction (modifyCurrent c g) = some (g f) := by
  unfold currentFunction at h
  unfold currentFunction modifyCurrent
  split at h
  · cases h
  · rename_i i hi
    simp only [hi, h]
    have hlt : i < c._ctx.script.localFunctions.length := by
      rcases List.getElem?_eq_some.mp h with ⟨hlt, _⟩
      exact hlt
    simp [hlt]

theorem modifyCurrent_signatures (c : Compiler) (g : ScriptFunction → ScriptFunction)
    (hg : ∀ f, signatureOf (g f) = signatureOf f) :
    (modifyCurrent c g)._ctx.script.localFunctions.map signatureOf =
      c._ctx.script.localFunctions.map signatureOf := by
  unfold modifyCurrent
  split
  · rfl
  · split
    · rfl
    · rename_i i hi _ fn hfn
      simp only
      apply List.ext_getElem?
      intro j
      rw [List.getElem?_map, List.getElem?_map, List.getElem?_set]
      by_cases hij : i = j
      · subst hij
        have hlt : i < c._ctx.script.localFunctions.length := by
          rcases List.getElem?_eq_some.mp hfn with ⟨hlt, _⟩
          exact hlt
        simp [hlt, hfn, hg]
      · simp [hij]

theorem generateBytecode_frame (env : Env) (node : AotNode) (c c1 : Compiler)
    (h : generateBytecode env node c = .ok c1) :
    FnFrame c c1 ∧ c1._ctx.returnCalled = c._ctx.returnCalled ∧ c1._errors = c._errors ∧
      c1._scopes = c._scopes := by
  simp only [generateBytecode] at h
  split at h
  · cases h
  · split at h
    · cases h
    · rename_i es _
      cases h
      refine ⟨⟨?_, ?_, ?_⟩, ?_, ?_, ?_⟩
      · exact modifyCurrent_privateTypes _ _
      · exact modifyCurrent_function _ _
      · exact modifyCurrent_signatures _ _ (fun f => rfl)
      · exact modifyCurrent_returnCalled _ _
      · exact modifyCurrent_errors _ _
      · exact modifyCurrent_scopes _ _

theorem visitFunctionStatements_frame (env : Env) :
    ∀ (ss : List Stmt) (c c1 : Compiler), visitFunctionStatements env ss c = .ok c1 →
      FnFrame c c1 ∧ (hasReturnAny ss = false → c1._ctx.returnCalled = c._ctx.returnCalled)
  | [], c, c1, h => by
    simp only [visitFunctionStatements] at h
    cases h
    exact ⟨FnFrame.reflF c, fun _ => rfl⟩
  | s :: rest, c, c1, h => by
    simp only [visitFunctionStatements] at h
    split at h
    · cases h
    · rename_i n c2 h1
      have f1 := visitStmt_frame env s c n c2 h1
      split at h
      · have f2 := visitFunctionStatements_frame env rest c2 c1 h
        exact ⟨f1.1.toFn.transF f2.1, fun hr => by
          simp only [hasReturnAny, Bool.or_eq_false_iff] at hr
          rw [f2.2 hr.2, (f1.2 hr.1).1]⟩
      · split at h
        · cases h
        · split at h
          · cases h
          · rename_i c3 h3
            have f3 := generateBytecode_frame env _ c2 c3 h3
            have f2 := visitFunctionStatements_frame env rest c3 c1 h
            exact ⟨(f1.1.toFn.transF f3.1).transF f2.1, fun hr => by
              simp only [hasReturnAny, Bool.or_eq_false_iff] at hr
              rw [f2.2 hr.2, f3.2.1, (f1.2 hr.1).1]⟩

theorem FnFrame.current {c c1 : Compiler} (h : FnFrame c c1) (f : ScriptFunction)
    (hf : currentFunction c = some f) :
    ∃ f1, currentFunction c1 = some f1 ∧ signatureOf f1 = signatureOf f := by
  unfold BraneScript.currentFunction at hf ⊢
  rw [h.2.1]
  split at hf
  · cases hf
  · rename_i i hi
    have hm : (c1._ctx.script.localFunctions.map signatureOf)[i]? =
        (c._ctx.script.localFunctions.map signatureOf)[i]? := by rw [h.2.2]
    rw [List.getElem?_map, List.getElem?_map, hf] at hm
    cases hc : c1._ctx.script.localFunctions[i]? with
    | none => simp [hc] at hm
    | some f1 =>
      rw [hc] at hm
      simp only [Option.map_some', Option.some.injEq] at hm
      exact ⟨f1, rfl, hm⟩

/-! ### Name mangling -/

theorem lastChar_append (s t : String) (h : t.toList ≠ []) : lastChar (s ++ t) = lastChar t := by
  unfold lastChar
  show (s ++ t).data.getLast? = t.data.getLast?
  rw [String.data_append]
  have h1 : t.data ≠ [] := h
  rw [List.getLast?_append]
  cases hl : t.data.getLast? with
  | none => exact absurd (List.getLast?_eq_none_iff.mp hl) h1
  | some ch => rfl

theorem lastChar_open (s : String) : lastChar (s ++ "(") = some '(' := by
  rw [lastChar_append s "(" (by decide)]
  rfl

theorem isID_ne_nil (t : String) (h : isID t = true) : t.toList ≠ [] := by
  unfold isID at h
  intro hn
  rw [hn] at h
  cases h

theorem isID_lastChar (t : String) (h : isID t = true) : lastChar t ≠ some '(' := by
  unfold isID at h
  unfold lastChar
  intro hl
  have hmem : '(' ∈ t.toList := List.mem_of_getLast?_eq_some hl
  cases hd : t.toList with
  | nil => rw [hd] at hmem; cases hmem
  | cons ch rest =>
    rw [hd] at h hmem
    simp only [Bool.and_eq_true, List.all_eq_true] at h
    rcases List.mem_cons.mp hmem with heq | hin
    · rw [← heq] at h
      exact absurd h.1 (by decide)
    · exact absurd (h.2 _ hin) (by decide)

theorem intercalate_go_append (sep : String) (l : List String) :
    ∀ (acc t : String), String.intercalate.go acc sep (l ++ [t]) =
      String.intercalate.go acc sep l ++ sep ++ t := by
  induction l with
  | nil => intro acc t; simp [String.intercalate.go]
  | cons a rest ih =>
    intro acc t
    show String.intercalate.go (acc ++ sep ++ a) sep (rest ++ [t]) = _
    exact ih _ _

theorem intercalate_nil_append (sep t : String) : sep.intercalate ([] ++ [t]) = t := by
  simp [String.intercalate, String.intercalate.go]

theorem intercalate_cons_append (sep a : String) (l : List String) (t : String) :
    sep.intercalate ((a :: l) ++ [t]) = sep.intercalate (a :: l) ++ sep ++ t := by
  simp only [List.cons_append, String.intercalate, intercalate_go_append]

theorem intercalate_ne_nil (sep : String) (l : List String) (h : l ≠ [])
    (hl : ∀ t ∈ l, t.toList ≠ []) : (sep.intercalate l).toList ≠ [] := by
  cases l with
  | nil => exact absurd rfl h
  | cons a rest =>
    simp only [String.intercalate]
    have hgo : ∀ (r : List String) (acc : String), acc.toList ≠ [] →
        (String.intercalate.go acc sep r).toList ≠ [] := by
      intro r
      induction r with
      | nil => intro acc ha; simpa [String.intercalate.go] using ha
      | cons b r ih =>
        intro acc ha
        simp only [String.intercalate.go]
        apply ih
        show (acc ++ sep ++ b).data ≠ []
        rw [String.data_append, String.data_append]
        intro hn
        have := List.append_eq_nil.mp hn
        exact ha (List.append_eq_nil.mp this.1).1
    exact hgo rest a (hl a (List.mem_cons_self _ _))

theorem currentFunction_congr (c c1 : Compiler) (h1 : c1._ctx.function = c._ctx.function)
    (h2 : c1._ctx.script = c._ctx.script) : currentFunction c1 = currentFunction c := by
  unfold currentFunction
  rw [h1, h2]

theorem newReg_ctx (ctx : CompilerCtx) (t : Option TypeDef) (flags : Nat) :
    (newReg ctx t flags).2.script = ctx.script ∧ (newReg ctx t flags).2.function = ctx.function ∧
      (newReg ctx t flags).2.returnCalled = ctx.returnCalled := by
  unfold newReg
  cases t with
  | none => exact ⟨rfl, rfl, rfl⟩
  | some ty =>
    simp only
    split
    · exact ⟨rfl, rfl, rfl⟩
    · exact ⟨rfl, rfl, rfl⟩

theorem registerLocalValue_ok (env : Env) (c : Compiler) (name type : String)
    (constant ref : Bool) (t : TypeDef) (hty : getType env c type = .ok (some t))
    (hsc : c._scopes ≠ []) :
    ∃ i c1, registerLocalValue env c name type constant ref = .ok (i, c1) ∧ c1._scopes ≠ [] ∧
      c1._ctx = c._ctx ∧ c1._privateTypes = c._privateTypes ∧ c1._errors = c._errors := by
  unfold registerLocalValue
  rw [hty]
  cases hl : c._scopes.getLast? with
  | none => exact absurd (List.getLast?_eq_none_iff.mp hl) hsc
  | some back =>
    simp only [Option.isNone_some, Bool.false_and, Bool.false_eq_true, if_false]
    exact ⟨_, _, rfl, by simp, rfl, rfl, rfl⟩

theorem visitFunctionArgument_ok (env : Env) (name0 : String) (argument : DeclarationContext)
    (c : Compiler) (f : ScriptFunction) (done : List String) (t : TypeDef)
    (hcur : currentFunction c = some f) (hm : Mangled name0 done f)
    (hsc : c._scopes ≠ []) (hty : getType env c argument.type.text = .ok (some t))
    (hid : isID argument.type.text = true) :
    ∃ c1 f1, visitFunctionArgument env argument c = .ok (true, c1) ∧
      currentFunction c1 = some f1 ∧ Mangled name0 (done ++ [argument.type.text]) f1 ∧
      f1.returnType = f.returnType ∧ c1._scopes ≠ [] ∧ c1._privateTypes = c._privateTypes ∧
      c1._ctx.function = c._ctx.function ∧ c1._errors = c._errors ∧
      c1._ctx.returnCalled = c._ctx.returnCalled ∧
      c1._ctx.script.localFunctions.length = c._ctx.script.localFunctions.length := by
  obtain ⟨hname, hargs, hlast⟩ := hm
  -- the state after the comma has been appended when one is due
  obtain ⟨c1, f1, hc1, hcur1, hname1, hargs1, hret1, hsc1, hpt1, hfn1, herr1, hrc1, hlen1⟩ :
      ∃ c1 f1,
        (if lastChar f.name ≠ some '(' then
          modifyCurrent c (fun f => { f with name := f.name ++ "," }) else c) = c1 ∧
        currentFunction c1 = some f1 ∧
        f1.name ++ argument.type.text =
          name0 ++ "(" ++ ",".intercalate (done ++ [argument.type.text]) ∧
        f1.arguments = done ∧ f1.returnType = f.returnType ∧ c1._scopes = c._scopes ∧
        c1._privateTypes = c._privateTypes ∧ c1._ctx.function = c._ctx.function ∧
        c1._errors = c._errors ∧ c1._ctx.returnCalled = c._ctx.returnCalled ∧
        c1._ctx.script.localFunctions.length = c._ctx.script.localFunctions.length := by
    cases hd : done with
    | nil =>
      have hl : lastChar f.name = some '(' := hlast.mpr hd
      refine ⟨c, f, by simp [hl], hcur, ?_, by rw [hargs, hd], rfl, rfl, rfl, rfl, rfl, rfl, rfl⟩
      rw [hname, hd, intercalate_nil_append]
      simp [String.intercalate]
    | cons a l =>
      have hl : lastChar f.name ≠ some '(' := fun h => by
        have := hlast.mp h
        rw [hd] at this
        cases this
      refine ⟨modifyCurrent c (fun f => { f with name := f.name ++ "," }), _, by simp [hl],
        currentFunction_modifyCurrent _ _ _ hcur, ?_, by rw [hargs, hd], rfl,
        modifyCurrent_scopes _ _, modifyCurrent_privateTypes _ _, modifyCurrent_function _ _,
        modifyCurrent_errors _ _, modifyCurrent_returnCalled _ _, modifyCurrent_length _ _⟩
      show f.name ++ "," ++ argument.type.text = _
      rw [hname, hd, intercalate_cons_append]
      simp only [String.append_assoc]
  have hty1 : getType env c1 argument.type.text = .ok (some t) := by
    rw [getType_congr env c c1 hpt1]; exact hty
  have hty2 : getType env (modifyCurrent c1 (fun f => { f with
      name := f.name ++ argument.type.text,
      arguments := f.arguments ++ [argument.type.text] })) argument.type.text = .ok (some t) := by
    rw [getType_congr env c1 _ (modifyCurrent_privateTypes _ _)]; exact hty1
  have hcur2 := currentFunction_modifyCurrent c1 (fun f => { f with
      name := f.name ++ argument.type.text,
      arguments := f.arguments ++ [argument.type.text] }) f1 hcur1
  have hnr := newReg_ctx (modifyCurrent c1 (fun f => { f with
      name := f.name ++ argument.type.text,
      arguments := f.arguments ++ [argument.type.text] }))._ctx (some t) 0
  obtain ⟨i, c4, hreg, hsc4, hctx4, hpt4, herr4⟩ := registerLocalValue_ok env
    ({ modifyCurrent c1 (fun f => { f with
          name := f.name ++ argument.type.text,
          arguments := f.arguments ++ [argument.type.text] }) with
        _ctx := { (newReg (modifyCurrent c1 (fun f => { f with
          name := f.name ++ argument.type.text,
          arguments := f.arguments ++ [argument.type.text] }))._ctx (some t) 0).2 with
          lValues := insertLValue (newReg (modifyCurrent c1 (fun f => { f with
            name := f.name ++ argument.type.text,
            arguments := f.arguments ++ [argument.type.text] }))._ctx (some t) 0).2.lValues
            (modifyCurrent c1 (fun f => { f with
              name := f.name ++ argument.type.text,
              arguments := f.arguments ++ [argument.type.text] }))._lValueIDCount
            (newReg (modifyCurrent c1 (fun f => { f with
              name := f.name ++ argument.type.text,
              arguments := f.arguments ++ [argument.type.text] }))._ctx (some t) 0).1 } })
    argument.id.text argument.type.text false false t
    (by rw [← hty2]; exact getType_congr env _ _ rfl _)
    (by show (modifyCurrent c1 _)._scopes ≠ []; rw [modifyCurrent_scopes, hsc1]; exact hsc)
  refine ⟨c4, { f1 with name := f1.name ++ argument.type.text,
                        arguments := f1.arguments ++ [argument.type.text] },
    ?_, ?_, ⟨hname1, ?_, ?_⟩, hret1, hsc4, ?_, ?_, ?_, ?_, ?_⟩
  · unfold visitFunctionArgument
    simp only [hcur, hc1, hty1, hty2, hreg]
  · have hcur4 : currentFunction c4 = currentFunction (modifyCurrent c1 (fun f => { f with
        name := f.name ++ argument.type.text,
        arguments := f.arguments ++ [argument.type.text] })) :=
      currentFunction_congr _ c4 (by rw [hctx4]; exact hnr.2.1) (by rw [hctx4]; exact hnr.1)
    rw [hcur4]
    exact hcur2
  · show f1.arguments ++ [argument.type.text] = _
    rw [hargs1]
  · show lastChar (f1.name ++ argument.type.text) = some '(' ↔ _
    rw [lastChar_append _ _ (isID_ne_nil _ hid)]
    constructor
    · intro h; exact absurd h (isID_lastChar _ hid)
    · intro h; simp at h
  · rw [hpt4]; show (modifyCurrent c1 _)._privateTypes = _
    rw [modifyCurrent_privateTypes, hpt1]
  · rw [hctx4]; show (newReg _ _ _).2.function = _
    rw [hnr.2.1, modifyCurrent_function, hfn1]
  · rw [herr4]; show (modifyCurrent c1 _)._errors = _
    rw [modifyCurrent_errors, herr1]
  · rw [hctx4]; show (newReg _ _ _).2.returnCalled = _
    rw [hnr.2.2, modifyCurrent_returnCalled, hrc1]
  · rw [hctx4]; show (newReg _ _ _).2.script.localFunctions.length = _
    rw [hnr.1, modifyCurrent_length, hlen1]

theorem visitFunctionArguments_ok (env : Env) (name0 : String) :
    ∀ (args : List DeclarationContext) (c : Compiler) (f : ScriptFunction) (done : List String),
      currentFunction c = some f → Mangled name0 done f → c._scopes ≠ [] →
      (∀ a ∈ args, ∃ t, getType env c a.type.text = .ok (some t)) →
      (∀ a ∈ args, isID a.type.text = true) →
      ∃ c1 f1, visitFunctionArguments env args c = .ok (true, c1) ∧
        currentFunction c1 = some f1 ∧
        Mangled name0 (done ++ args.map (fun a => a.type.text)) f1 ∧
        f1.returnType = f.returnType ∧ c1._privateTypes = c._privateTypes ∧
        c1._ctx.function = c._ctx.function ∧ c1._errors = c._errors ∧
        c1._ctx.returnCalled = c._ctx.returnCalled ∧
        c1._ctx.script.localFunctions.length = c._ctx.script.localFunctions.length
  | [], c, f, done, hcur, hm, _, _, _ => by
    refine ⟨c, f, rfl, hcur, ?_, rfl, rfl, rfl, rfl, rfl, rfl⟩
    simpa using hm
  | a :: rest, c, f, done, hcur, hm, hsc, hty, hid => by
    obtain ⟨t, ht⟩ := hty a (List.mem_cons_self _ _)
    obtain ⟨c1, f1, hstep, hcur1, hm1, hret1, hsc1, hpt1, hfn1, herr1, hrc1, hlen1⟩ :=
      visitFunctionArgument_ok env name0 a c f done t hcur hm hsc ht
        (hid a (List.mem_cons_self _ _))
    obtain ⟨c2, f2, hloop, hcur2, hm2, hret2, hpt2, hfn2, herr2, hrc2, hlen2⟩ :=
      visitFunctionArguments_ok env name0 rest c1 f1 (done ++ [a.type.text]) hcur1 hm1 hsc1
        (fun b hb => by
          obtain ⟨tb, htb⟩ := hty b (List.mem_cons_of_mem _ hb)
          exact ⟨tb, by rw [getType_congr env c c1 hpt1]; exact htb⟩)
        (fun b hb => hid b (List.mem_cons_of_mem _ hb))
    refine ⟨c2, f2, ?_, hcur2, ?_, hret2.trans hret1, hpt2.trans hpt1, hfn2.trans hfn1,
      herr2.trans herr1, hrc2.trans hrc1, hlen2.trans hlen1⟩
    · simp only [visitFunctionArguments, hstep]
      exact hloop
    · simpa [List.append_assoc] using hm2

theorem visitFunctionBody_signatures (env : Env) (ctx : FunctionContext) (prev : Option Nat)
    (c1 c2 : Compiler) (h : visitFunctionBody env ctx prev c1 = .ok c2) :
    c2._ctx.script.localFunctions.map signatureOf =
      c1._ctx.script.localFunctions.map signatureOf := by
  simp only [visitFunctionBody] at h
  split at h
  · cases h
  · rename_i c5 h5
    have f5 := (visitFunctionStatements_frame env _ _ _ h5).1
    split at h
    · cases h
    · split at h
      · cases h; exact f5.2.2
      · cases h; exact f5.2.2

theorem visitFunction_reaches_body (env : Env) (ctx : FunctionContext) (c : Compiler)
    (rt : TypeDef) (hret : getType env c ctx.type.text = .ok (some rt))
    (hargs : ∀ a ∈ ctx.arguments, ∃ t, getType env c a.type.text = .ok (some t))
    (hid : ∀ a ∈ ctx.arguments, isID a.type.text = true) :
    ∃ c3 f3, visitFunctionArguments env ctx.arguments (visitFunctionBegin ctx c) = .ok (true, c3) ∧
      currentFunction c3 = some f3 ∧
      Mangled ctx.id.text (ctx.arguments.map (fun a => a.type.text)) f3 ∧
      f3.returnType = ctx.type.text ∧
      c3._ctx.function = some c._ctx.script.localFunctions.length ∧
      visitFunction env ctx c = visitFunctionBody env ctx c._ctx.function
        (modifyCurrent c3 (fun f => { f with name := f.name ++ ")" })) := by
  -- the state at the head of the argument loop
  have hpush : currentFunction (pushFunction c) = some emptyFunction := by
    simp [currentFunction, pushFunction, setFunction]
  have hcur0 := currentFunction_modifyCurrent _
    (fun f => { f with name := ctx.id.text ++ "(" }) _
    (currentFunction_modifyCurrent (pushFunction c)
      (fun f => { f with returnType := ctx.type.text }) _ hpush)
  have hpt0 : (visitFunctionBegin ctx c)._privateTypes = c._privateTypes := by
    show (modifyCurrent (modifyCurrent (pushFunction c) _) _)._privateTypes = _
    rw [modifyCurrent_privateTypes, modifyCurrent_privateTypes]
    rfl
  have hfn0 : (visitFunctionBegin ctx c)._ctx.function =
      some c._ctx.script.localFunctions.length := by
    show (modifyCurrent (modifyCurrent (pushFunction c) _) _)._ctx.function = _
    rw [modifyCurrent_function, modifyCurrent_function]
    rfl
  have hsc0 : (visitFunctionBegin ctx c)._scopes ≠ [] := by
    show (modifyCurrent (modifyCurrent (pushFunction c) _) _)._scopes ++ [_] ≠ []
    simp
  have hm0 : Mangled ctx.id.text [] { { emptyFunction with returnType := ctx.type.text } with
      name := ctx.id.text ++ "(" } := by
    refine ⟨by simp [String.intercalate], rfl, ?_⟩
    simp [lastChar_open]
  obtain ⟨c3, f3, hloop, hcur3, hm3, hret3, hpt3, hfn3, _, _, _⟩ :=
    visitFunctionArguments_ok env ctx.id.text ctx.arguments (visitFunctionBegin ctx c) _ []
      (by exact hcur0) hm0 hsc0
      (fun a ha => by
        obtain ⟨t, ht⟩ := hargs a ha
        exact ⟨t, by rw [getType_congr env c _ hpt0]; exact ht⟩)
      hid
  have hret1 : getType env (modifyCurrent (pushFunction c)
      (fun f => { f with returnType := ctx.type.text })) ctx.type.text = .ok (some rt) := by
    rw [getType_congr env c _ (by rw [modifyCurrent_privateTypes]; rfl)]
    exact hret
  refine ⟨c3, f3, hloop, hcur3, by simpa using hm3, hret3, by rw [hfn3, hfn0], ?_⟩
  simp only [visitFunction, hret1, hloop, Option.isNone_some, Bool.false_and,
    Bool.false_eq_true, if_false]

/-- C1: when the return type and every argument type resolve (the type names
being `ID` tokens of the lexer), `visitFunction` gets past its argument loop
with the new function made current, named `id(` + the argument type names
joined by `,` + `)` and listing exactly those type names as its arguments in
declaration order; the rest of the run is `visitFunctionBody` from that state,
and whenever it returns, the function pushed by this call still carries that
name and that argument list. -/
theorem visitFunction_mangles_name (env : Env) (ctx : FunctionContext) (c : Compiler)
    (rt : TypeDef) (hret : getType env c ctx.type.text = .ok (some rt))
    (hargs : ∀ a ∈ ctx.arguments, ∃ t, getType env c a.type.text = .ok (some t))
    (hid : ∀ a ∈ ctx.arguments, isID a.type.text = true) :
    ∃ c1 f, visitFunction env ctx c = visitFunctionBody env ctx c._ctx.function c1 ∧
      c1._ctx.function = some c._ctx.script.localFunctions.length ∧
      currentFunction c1 = some f ∧
      f.name = ctx.id.text ++ "(" ++
        ",".intercalate (ctx.arguments.map (fun a => a.type.text)) ++ ")" ∧
      f.arguments = ctx.arguments.map (fun a => a.type.text) ∧
      ∀ c2, visitFunction env ctx c = .ok c2 →
        ∃ f2, c2._ctx.script.localFunctions[c._ctx.script.localFunctions.length]? = some f2 ∧
          f2.name = f.name ∧ f2.arguments = f.arguments := by
  obtain ⟨c3, f3, _, hcur3, hm3, _, hfn3, hrun⟩ :=
    visitFunction_reaches_body env ctx c rt hret hargs hid
  have hcur4 := currentFunction_modifyCurrent c3 (fun f => { f with name := f.name ++ ")" })
    f3 hcur3
  have hfn4 : (modifyCurrent c3 (fun f => { f with name := f.name ++ ")" }))._ctx.function =
      some c._ctx.script.localFunctions.length := by
    rw [modifyCurrent_function, hfn3]
  refine ⟨_, _, hrun, hfn4, hcur4, ?_, ?_, ?_⟩
  · show f3.name ++ ")" = _
    rw [hm3.1]
  · show f3.arguments = _
    rw [hm3.2.1]
  · intro c2 h2
    rw [hrun] at h2
    have hsig := visitFunctionBody_signatures env ctx _ _ c2 h2
    have hget : (modifyCurrent c3 (fun f => { f with name := f.name ++ ")" }))._ctx.script.localFunctions[c._ctx.script.localFunctions.length]? =
        some { f3 with name := f3.name ++ ")" } := by
      have := hcur4
      unfold currentFunction at this
      rw [hfn4] at this
      exact this
    have hmap : (c2._ctx.script.localFunctions.map signatureOf)[c._ctx.script.localFunctions.length]? =
        some (signatureOf { f3 with name := f3.name ++ ")" }) := by
      rw [hsig, List.getElem?_map, hget]
      rfl
    rw [List.getElem?_map] at hmap
    cases hc : c2._ctx.script.localFunctions[c._ctx.script.localFunctions.length]? with
    | none => rw [hc] at hmap; cases hmap
    | some f2 =>
      rw [hc] at hmap
      simp only [Option.map_some', Option.some.injEq, signatureOf, Prod.mk.injEq] at hmap
      exact ⟨f2, rfl, hmap.1, hmap.2.2⟩

/-- Witness of C1: `int f(int a, float b) { return a; }` is named
`f(int,float)` with the arguments `int`, `float`, past the argument loop and in
the script the run returns. -/
theorem visitFunction_mangles_name_witness :
    (∃ c1 f, visitFunction nativeEnv sampleTwoArgs (compilerWith [] 0) =
        visitFunctionBody nativeEnv sampleTwoArgs none c1 ∧
      currentFunction c1 = some f ∧ f.name = "f(int,float)" ∧
      f.arguments = ["int", "float"]) ∧
    (∃ c2 f2, visitFunction nativeEnv sampleTwoArgs (compilerWith [] 0) = .ok c2 ∧
      c2._errors = [] ∧ c2._ctx.script.localFunctions[0]? = some f2 ∧
      f2.name = "f(int,float)" ∧ f2.arguments = ["int", "float"]) := by
  obtain ⟨c1, f, hrun, _, hcur, hname, hargs, hkeep⟩ :=
    visitFunction_mangles_name nativeEnv sampleTwoArgs (compilerWith [] 0) intType rfl
      (by
        intro a ha
        simp only [sampleTwoArgs, List.mem_cons, List.mem_singleton, List.not_mem_nil,
          or_false] at ha
        rcases ha with rfl | rfl
        · exact ⟨intType, rfl⟩
        · exact ⟨floatType, rfl⟩)
      (by
        intro a ha
        simp only [sampleTwoArgs, List.mem_cons, List.mem_singleton, List.not_mem_nil,
          or_false] at ha
        rcases ha with rfl | rfl <;> decide)
  have hn : f.name = "f(int,float)" := by rw [hname]; decide
  have ha : f.arguments = ["int", "float"] := by rw [hargs]; rfl
  obtain ⟨c2, hc2, herr⟩ : ∃ c2, visitFunction nativeEnv sampleTwoArgs (compilerWith [] 0) =
      .ok c2 ∧ c2._errors = [] := ⟨_, rfl, rfl⟩
  obtain ⟨f2, hget, hn2, ha2⟩ := hkeep c2 hc2
  exact ⟨⟨c1, f, hrun, hcur, hn, ha⟩, ⟨c2, f2, hc2, herr, hget, hn2.trans hn, ha2.trans ha⟩⟩

/-! ### Call-site resolution -/

theorem buildSignature_ok (env : Env) (start : Token) (name0 : String) (c : Compiler) :
    ∀ (args : List AotNode) (fn : String) (done : List String),
      fn = name0 ++ "(" ++ ",".intercalate done → (lastChar fn = some '(' ↔ done = []) →
      (∀ a ∈ args, a.isNull = false ∧ ∃ t, a.resType env = some t ∧ isID t.name = true) →
      buildSignature env start args fn c =
        (some (name0 ++ "(" ++ ",".intercalate (done ++ args.map (argTypeName env))), c)
  | [], fn, done, hfn, _, _ => by
    simp [buildSignature, hfn]
  | a :: rest, fn, done, hfn, hlast, hargs => by
    obtain ⟨hnull, t, ht, hid⟩ := hargs a (List.mem_cons_self _ _)
    have hname : argTypeName env a = t.name := by simp [argTypeName, ht]
    have hrest : ∀ b ∈ rest, b.isNull = false ∧
        ∃ t, b.resType env = some t ∧ isID t.name = true :=
      fun b hb => hargs b (List.mem_cons_of_mem _ hb)
    have hlast1 : ∀ (x : String), lastChar (x ++ t.name) = some '(' ↔ done ++ [t.name] = [] := by
      intro x
      rw [lastChar_append _ _ (isID_ne_nil _ hid)]
      constructor
      · intro h; exact absurd h (isID_lastChar _ hid)
      · intro h; simp at h
    simp only [buildSignature, hnull, ht, Bool.false_eq_true, if_false]
    cases hd : done with
    | nil =>
      have hl : lastChar fn = some '(' := hlast.mpr hd
      simp only [hl, ne_eq, not_true_eq_false, if_false]
      rw [buildSignature_ok env start name0 c rest (fn ++ t.name) (done ++ [t.name])
        (by rw [hfn, hd, intercalate_nil_append]; simp [String.intercalate]) (hlast1 _) hrest]
      simp [hd, hname]
    | cons d ds =>
      have hl : lastChar fn ≠ some '(' := fun h => by
        have := hlast.mp h
        rw [hd] at this
        cases this
      simp only [hl, ne_eq, not_false_eq_true, if_true]
      rw [buildSignature_ok env start name0 c rest (fn ++ "," ++ t.name) (done ++ [t.name])
        (by rw [hfn, hd, intercalate_cons_append]; simp only [String.append_assoc])
        (hlast1 _) hrest]
      simp [hd, hname]

theorem findLocalFunction_none (sig : String) :
    ∀ (l : List ScriptFunction) (k : Nat), (∀ f ∈ l, f.name ≠ sig) →
      findLocalFunction sig l k = none
  | [], _, _ => rfl
  | f :: rest, k, h => by
    have hf : sig ≠ f.name := fun e => h f (List.mem_cons_self _ _) e.symm
    simp only [findLocalFunction, hf, if_false]
    exact findLocalFunction_none sig rest _ (fun g hg => h g (List.mem_cons_of_mem _ hg))

theorem findLocalFunction_least (sig : String) :
    ∀ (l : List ScriptFunction) (k i : Nat) (f : ScriptFunction), l[i]? = some f →
      f.name = sig → (∀ j g, j < i → l[j]? = some g → g.name ≠ sig) → k + i < 4294967296 →
      findLocalFunction sig l k = some (k + i, f)
  | [], _, i, f, h, _, _, _ => by simp at h
  | g :: rest, k, 0, f, h, hname, _, _ => by
    simp only [List.getElem?_cons_zero, Option.some.injEq] at h
    subst h
    simp [findLocalFunction, hname]
  | g :: rest, k, i + 1, f, h, hname, hleast, hk => by
    have hg : sig ≠ g.name := fun e => hleast 0 g (Nat.succ_pos _) (by simp) e.symm
    simp only [findLocalFunction, hg, if_false]
    have hmod : (k + 1) % 4294967296 = k + 1 := Nat.mod_eq_of_lt (by omega)
    rw [hmod, findLocalFunction_least sig rest (k + 1) i f (by simpa using h) hname
      (fun j g2 hj hg2 => hleast (j + 1) g2 (by omega) (by simpa using hg2)) (by omega)]
    congr 2
    omega

/-- C2: a call without a namespace whose argument nodes are all non-null and
non-void (their type names being identifiers) is resolved against the
signature `name(` + the arguments' result-type names joined by `,` + `)`: if
`localFunctions[i]` is the first function with that name, the result is the
`FunctionCall` node with index `i`, the type `getType` gives for that function's
return type and the arguments, and the state is untouched; if no local function
has that name, the result is null and exactly one error is appended. -/
theorem visitFunctionCall_local (env : Env) (linker : Linker) (start name : Token)
    (arguments : List AotNode) (c : Compiler) (hlinker : env.linker = some linker)
    (hargs : ∀ a ∈ arguments, a.isNull = false ∧
      ∃ t, a.resType env = some t ∧ isID t.name = true)
    (hlen : c._ctx.script.localFunctions.length ≤ 4294967296) :
    (∀ i f, c._ctx.script.localFunctions[i]? = some f →
      f.name = name.text ++ "(" ++ ",".intercalate (arguments.map (argTypeName env)) ++ ")" →
      (∀ j g, j < i → c._ctx.script.localFunctions[j]? = some g →
        g.name ≠ name.text ++ "(" ++ ",".intercalate (arguments.map (argTypeName env)) ++ ")") →
      ∃ retType, getType env c f.returnType = .ok retType ∧
        visitFunctionCall env start none name arguments c =
          .ok (.AotFunctionCall i retType arguments, c)) ∧
    ((∀ f ∈ c._ctx.script.localFunctions,
        f.name ≠ name.text ++ "(" ++ ",".intercalate (arguments.map (argTypeName env)) ++ ")") →
      ∃ c1, visitFunctionCall env start none name arguments c = .ok (.null, c1) ∧
        c1._errors = c._errors ++ [errorText start.line start.charPositionInLine start.text
          ("Could not find function with signature " ++ (name.text ++ "(" ++
            ",".intercalate (arguments.map (argTypeName env)) ++ ")"))] ∧
        c1._scopes = c._scopes ∧ c1._ctx = c._ctx) := by
  have hsig := buildSignature_ok env start name.text c arguments (name.text ++ "(") []
    (by simp [String.intercalate]) (by simp [lastChar_open]) hargs
  simp only [List.nil_append] at hsig
  constructor
  · intro i f hi hname hleast
    have hlt : i < c._ctx.script.localFunctions.length :=
      (List.getElem?_eq_some.mp hi).1
    have hfind := findLocalFunction_least _ c._ctx.script.localFunctions 0 i f hi hname hleast
      (by omega)
    rw [Nat.zero_add] at hfind
    have hty : ∃ retType, getType env c f.returnType = .ok retType := by
      unfold getType
      rw [hlinker]
      split
      · exact ⟨_, rfl⟩
      · exact ⟨_, rfl⟩
    obtain ⟨retType, hrt⟩ := hty
    refine ⟨retType, hrt, ?_⟩
    simp only [visitFunctionCall, hsig, hfind, hrt]
  · intro hnone
    have hfind := findLocalFunction_none _ c._ctx.script.localFunctions 0 hnone
    refine ⟨throwErrorToken start ("Could not find function with signature " ++
      (name.text ++ "(" ++ ",".intercalate (arguments.map (argTypeName env)) ++ ")")) c,
      ?_, rfl, rfl, rfl⟩
    simp only [visitFunctionCall, hsig, hfind]

/-- Witness of C2: among `g(int)`, `f(int,float)` and a second `f(int,float)`
the call `f(1, 2.0f)` resolves to index 1 and that function's return type. -/
theorem visitFunctionCall_local_witness :
    ∃ retType, getType nativeEnv (compilerWithFunctions sampleFunctions) "float" = .ok retType ∧
      visitFunctionCall nativeEnv (tok "f") none (tok "f") sampleCallArguments
          (compilerWithFunctions sampleFunctions) =
        .ok (.AotFunctionCall 1 retType sampleCallArguments,
          compilerWithFunctions sampleFunctions) :=
  (visitFunctionCall_local nativeEnv nativeLinker (tok "f") (tok "f") sampleCallArguments
    (compilerWithFunctions sampleFunctions) rfl
    (by
      intro a ha
      simp only [sampleCallArguments, List.mem_cons, List.mem_singleton, List.not_mem_nil,
        or_false] at ha
      rcases ha with rfl | rfl
      · exact ⟨rfl, intType, rfl, by decide⟩
      · exact ⟨rfl, floatType, rfl, by decide⟩)
    (by decide)).1 1 ⟨"f(int,float)", "float", ["int", "float"], []⟩ rfl (by decide)
    (by
      intro j g hj hg
      have hj0 : j = 0 := by omega
      subst hj0
      simp only [compilerWithFunctions, sampleFunctions, List.getElem?_cons_zero,
        Option.some.injEq] at hg
      subst hg
      decide)

/-! ### Scopes -/

/-- C5, the code at the failing input: in `{ int x; y; }` the visit of `y`
returns null, `visitScope` returns null out of its loop without `popScope()`,
and the scope it pushed stays on the stack with `x` bound in it, so `x` is
still found afterwards. In `{ int x; if (true) { int z; y; } }` the inner scope
is left pushed the same way, `visitIf` builds a node around the null, and the
outer `popScope()` then removes the inner scope instead of its own: the outer
`visitScope` returns a node and `x` is still bound. -/
theorem visitScope_null_keeps_scope_pushed :
    (∃ c1, visitScope nativeEnv sampleFailingScope (compilerWith [⟨[]⟩] 0) = .ok (.null, c1) ∧
      c1._scopes = [⟨[]⟩, ⟨[("x", ⟨0, some intType, false, false⟩)]⟩] ∧
      localValueExists c1 "x" = true ∧
      getValueNode c1 "x" = .AotValueNode ⟨0, some intType, false, false⟩) ∧
    (∃ c1, visitScope nativeEnv sampleFailingInnerScope (compilerWith [⟨[]⟩] 0) =
        .ok (.AotScope [.AotValueNode ⟨0, some intType, false, false⟩,
          .AotIf (.AotConst (.bool true) (some boolType)) .null], c1) ∧
      c1._scopes = [⟨[]⟩, ⟨[("x", ⟨0, some intType, false, false⟩)]⟩] ∧
      localValueExists c1 "x" = true) :=
  ⟨⟨_, rfl, rfl, rfl, rfl⟩, ⟨_, rfl, rfl, rfl⟩⟩

/-! ### Missing return -/

/-- C6, counterexample: the non-void functions
`int f(bool c) { if (c) { return 1; } }` and
`int f(bool c) { while (c) { return 1; } }`, whose only return statement sits
inside an `if` or `while` body, are compiled without any diagnostic. -/
theorem visitFunction_accepts_nested_return :
    (∃ c1, visitFunction nativeEnv sampleReturnInsideIf (compilerWith [] 0) = .ok c1 ∧
      c1._errors = []) ∧
    (∃ c1, visitFunction nativeEnv sampleReturnInsideWhile (compilerWith [] 0) = .ok c1 ∧
      c1._errors = []) :=
  ⟨⟨_, rfl, rfl⟩, ⟨_, rfl, rfl⟩⟩

/-- C6 as amended: for a function whose return type resolves and is not `void`,
whose argument types resolve, and whose body holds no return statement at any
depth, `visitFunction` gets past its argument loop, and the run ends as the
statement loop does: if the loop aborts so does the run, and if it ends in a
state `c5`, `visitFunction` returns `c5` with exactly one error appended, the
diagnostic "Function missing call to return". -/
theorem visitFunction_missing_return (env : Env) (ctx : FunctionContext) (c : Compiler)
    (rt : TypeDef) (hret : getType env c ctx.type.text = .ok (some rt))
    (hvoid : ctx.type.text ≠ "void")
    (hargs : ∀ a ∈ ctx.arguments, ∃ t, getType env c a.type.text = .ok (some t))
    (hid : ∀ a ∈ ctx.arguments, isID a.type.text = true)
    (hnone : hasReturnAny ctx.statements = false) :
    ∃ c3, visitFunctionArguments env ctx.arguments (visitFunctionBegin ctx c) = .ok (true, c3) ∧
      visitFunction env ctx c =
        (match visitFunctionStatements env ctx.statements
            (setReturnCalled (modifyCurrent c3 (fun f => { f with name := f.name ++ ")" }))
              false) with
        | .abort => .abort
        | .ok c5 =>
          .ok { c5 with _errors := c5._errors ++
            [errorText ctx.start.line ctx.start.charPositionInLine ("\n" ++ ctx.text)
              "Function missing call to return"] }) := by
  obtain ⟨c3, f3, hloop, hcur3, _, hret3, _, hrun⟩ :=
    visitFunction_reaches_body env ctx c rt hret hargs hid
  refine ⟨c3, hloop, ?_⟩
  rw [hrun]
  have hcur4 := currentFunction_modifyCurrent c3 (fun f => { f with name := f.name ++ ")" })
    f3 hcur3
  have hcur4b : currentFunction (setReturnCalled
      (modifyCurrent c3 (fun f => { f with name := f.name ++ ")" })) false) =
      some { f3 with name := f3.name ++ ")" } := by
    rw [currentFunction_congr _ _ rfl rfl]
    exact hcur4
  unfold visitFunctionBody
  cases hs : visitFunctionStatements env ctx.statements
      (setReturnCalled (modifyCurrent c3 (fun f => { f with name := f.name ++ ")" })) false) with
  | abort => rfl
  | ok c5 =>
    have hf := visitFunctionStatements_frame env _ _ _ hs
    obtain ⟨f5, hcur5, hsig5⟩ := hf.1.current _ hcur4b
    have hrc : c5._ctx.returnCalled = false := hf.2 hnone
    have hrt5 : f5.returnType = ctx.type.text := by
      have := congrArg (fun p => p.2.1) hsig5
      simp only [signatureOf] at this
      rw [this]
      exact hret3
    simp [hcur5, hrc, hrt5, hvoid, throwErrorPos]

/-- Witness of the amended C6: `int f(bool c) { { int x; } }` is rejected with
the one missing-return diagnostic. -/
theorem visitFunction_missing_return_witness :
    ∃ c2, visitFunction nativeEnv sampleNoReturn (compilerWith [] 0) = .ok c2 ∧
      c2._errors =
        ["Compile Error at [1:0] Function missing call to return: \nint f(bool c) \x7b \x7b int x; \x7d \x7d"] := by
  obtain ⟨c3, hloop, hrun⟩ :=
    visitFunction_missing_return nativeEnv sampleNoReturn (compilerWith [] 0) intType rfl
      (by decide)
      (by
        intro a ha
        simp only [sampleNoReturn, List.mem_singleton] at ha
        subst ha
        exact ⟨boolType, rfl⟩)
      (by
        intro a ha
        simp only [sampleNoReturn, List.mem_singleton] at ha
        subst ha
        decide)
      rfl
  have h3 : visitFunctionArguments nativeEnv sampleNoReturn.arguments
      (visitFunctionBegin sampleNoReturn (compilerWith [] 0)) = .ok (true, _) := rfl
  rw [h3] at hloop
  cases hloop
  exact ⟨_, hrun, by decide⟩

/-! ### Struct layout -/

theorem alignUp_dvd (o a : Nat) (ha : 0 < a) : a ∣ alignUp o a := by
  unfold alignUp
  split
  · rename_i h; exact Nat.dvd_of_mod_eq_zero h
  · have hlt : o % a < a := Nat.mod_lt _ ha
    have hdm := Nat.div_add_mod o a
    refine ⟨o / a + 1, ?_⟩
    rw [Nat.mul_add, Nat.mul_one]
    omega

theorem le_alignUp (o a : Nat) : o ≤ alignUp o a := by
  unfold alignUp
  split <;> omega

theorem alignUp_least (o a k : Nat) (ha : 0 < a) (hk : a ∣ k) (hok : o ≤ k) :
    alignUp o a ≤ k := by
  unfold alignUp
  split
  · exact hok
  · rename_i h
    obtain ⟨q, rfl⟩ := hk
    have hlt : o % a < a := Nat.mod_lt _ ha
    have hdm := Nat.div_add_mod o a
    have hq : o / a < q := by
      by_contra hcon
      have hle : q ≤ o / a := Nat.le_of_not_lt hcon
      have : a * q ≤ a * (o / a) := Nat.mul_le_mul_left a hle
      omega
    have : a * (o / a + 1) ≤ a * q := Nat.mul_le_mul_left a hq
    rw [Nat.mul_add, Nat.mul_one] at this
    omega

theorem padLoop_shape : ∀ (ms : List StructMember) (off : Nat),
    (padLoop ms off).1.map (fun m => (m.name, m.type)) = ms.map (fun m => (m.name, m.type))
  | [], _ => rfl
  | m :: rest, off => by
    simp only [padLoop, List.map_cons]
    rw [padLoop_shape rest]

theorem padLoop_head (ms : List StructMember) (off : Nat)
    (hpos : ∀ m ∈ ms, 0 < m.type.size) (m : StructMember)
    (h : (padLoop ms off).1[0]? = some m) :
    m.type.size ∣ m.offset ∧ off ≤ m.offset ∧
      ∀ k, m.type.size ∣ k → off ≤ k → m.offset ≤ k := by
  cases ms with
  | nil => simp [padLoop] at h
  | cons m0 rest =>
    simp only [padLoop, List.getElem?_cons_zero, Option.some.injEq] at h
    subst h
    have h0 := hpos m0 (List.mem_cons_self _ _)
    exact ⟨alignUp_dvd _ _ h0, le_alignUp _ _, fun k hk hok => alignUp_least _ _ k h0 hk hok⟩

theorem padLoop_next : ∀ (ms : List StructMember) (off : Nat),
    (∀ m ∈ ms, 0 < m.type.size) → ∀ (j : Nat) (p m : StructMember),
    (padLoop ms off).1[j]? = some p → (padLoop ms off).1[j + 1]? = some m →
    m.type.size ∣ m.offset ∧ p.offset + p.type.size ≤ m.offset ∧
      ∀ k, m.type.size ∣ k → p.offset + p.type.size ≤ k → m.offset ≤ k
  | [], _, _, j, p, m, hp, _ => by simp [padLoop] at hp
  | m0 :: rest, off, hpos, 0, p, m, hp, hm => by
    simp only [padLoop, List.getElem?_cons_zero, Option.some.injEq] at hp
    simp only [padLoop, List.getElem?_cons_succ] at hm
    subst hp
    exact padLoop_head rest _ (fun x hx => hpos x (List.mem_cons_of_mem _ hx)) m hm
  | m0 :: rest, off, hpos, j + 1, p, m, hp, hm => by
    simp only [padLoop, List.getElem?_cons_succ] at hp hm
    exact padLoop_next rest _ (fun x hx => hpos x (List.mem_cons_of_mem _ hx)) j p m hp hm

theorem padLoop_end : ∀ (ms : List StructMember) (off : Nat), ms ≠ [] →
    (padLoop ms off).2 = previousEnd (padLoop ms off).1 (padLoop ms off).1.length
  | [], _, h => absurd rfl h
  | [m0], off, _ => by
    simp [padLoop, previousEnd]
  | m0 :: m1 :: rest, off, _ => by
    have ih := padLoop_end (m1 :: rest) (alignUp off m0.type.size + m0.type.size)
      (List.cons_ne_nil _ _)
    have hlen : (padLoop (m1 :: rest) (alignUp off m0.type.size + m0.type.size)).1.length =
        rest.length + 1 := by
      have := congrArg List.length (padLoop_shape (m1 :: rest)
        (alignUp off m0.type.size + m0.type.size))
      simpa using this
    rw [show (padLoop (m0 :: m1 :: rest) off).2 =
      (padLoop (m1 :: rest) (alignUp off m0.type.size + m0.type.size)).2 from rfl, ih]
    rw [show (padLoop (m0 :: m1 :: rest) off).1 =
      { m0 with offset := alignUp off m0.type.size } ::
        (padLoop (m1 :: rest) (alignUp off m0.type.size + m0.type.size)).1 from rfl]
    rw [List.length_cons, hlen]
    simp only [previousEnd, List.getElem?_cons_succ]

theorem le_maxMemberSize : ∀ (ms : List StructMember) (m : StructMember), m ∈ ms →
    m.type.size ≤ maxMemberSize ms
  | [], _, h => by cases h
  | m0 :: rest, m, h => by
    simp only [maxMemberSize]
    rcases List.mem_cons.mp h with rfl | hin
    · exact Nat.le_max_left _ _
    · exact Nat.le_trans (le_maxMemberSize rest m hin) (Nat.le_max_right _ _)

theorem maxMemberSize_mem : ∀ (ms : List StructMember), ms ≠ [] →
    ∃ m ∈ ms, m.type.size = maxMemberSize ms
  | [], h => absurd rfl h
  | [m0], _ => ⟨m0, List.mem_cons_self _ _, by simp [maxMemberSize]⟩
  | m0 :: m1 :: rest, _ => by
    obtain ⟨m, hm, he⟩ := maxMemberSize_mem (m1 :: rest) (List.cons_ne_nil _ _)
    by_cases hle : maxMemberSize (m1 :: rest) ≤ m0.type.size
    · exact ⟨m0, List.mem_cons_self _ _, by
        show m0.type.size = max m0.type.size (maxMemberSize (m1 :: rest))
        rw [Nat.max_eq_left hle]⟩
    · exact ⟨m, List.mem_cons_of_mem _ hm, by
        show m.type.size = max m0.type.size (maxMemberSize (m1 :: rest))
        rw [Nat.max_eq_right (by omega), he]⟩

/-- C7: `padMembers` keeps the members and their order, gives every member the
smallest offset that is a multiple of its size and not below the end of the
member before it (0 for the first), and makes the struct size the smallest
multiple of the largest member size that is not below the end of the last
member. Member sizes are positive. -/
theorem padMembers_layout (d : StructDef) (hpos : ∀ m ∈ d.members, 0 < m.type.size) :
    (padMembers d).name = d.name ∧
    (padMembers d).members.map (fun m => (m.name, m.type)) =
      d.members.map (fun m => (m.name, m.type)) ∧
    (∀ i m, (padMembers d).members[i]? = some m →
      m.type.size ∣ m.offset ∧ previousEnd (padMembers d).members i ≤ m.offset ∧
      ∀ k, m.type.size ∣ k → previousEnd (padMembers d).members i ≤ k → m.offset ≤ k) ∧
    (∀ m ∈ d.members, m.type.size ≤ maxMemberSize d.members) ∧
    (d.members ≠ [] →
      (∃ m ∈ d.members, m.type.size = maxMemberSize d.members) ∧
      maxMemberSize d.members ∣ (padMembers d).size ∧
      lastEnd (padMembers d).members ≤ (padMembers d).size ∧
      ∀ k, maxMemberSize d.members ∣ k → lastEnd (padMembers d).members ≤ k →
        (padMembers d).size ≤ k) := by
  refine ⟨rfl, padLoop_shape _ _, ?_, le_maxMemberSize _, ?_⟩
  · intro i m hm
    cases i with
    | zero =>
      have := padLoop_head d.members 0 hpos m hm
      exact ⟨this.1, this.2.1, this.2.2⟩
    | succ j =>
      have hm1 : (padLoop d.members 0).1[j + 1]? = some m := hm
      cases hp : (padLoop d.members 0).1[j]? with
      | none =>
        have hlen := List.getElem?_eq_none_iff.mp hp
        have hlt := (List.getElem?_eq_some.mp hm1).1
        omega
      | some p =>
        have := padLoop_next d.members 0 hpos j p m hp hm1
        have hprev : previousEnd (padMembers d).members (j + 1) = p.offset + p.type.size := by
          show (match (padLoop d.members 0).1[j]? with
            | some p => p.offset + p.type.size
            | none => 0) = _
          rw [hp]
        rw [hprev]
        exact this
  · intro hne
    obtain ⟨m, hm, he⟩ := maxMemberSize_mem d.members hne
    have hmax : 0 < maxMemberSize d.members := by rw [← he]; exact hpos m hm
    have hend : (padLoop d.members 0).2 = lastEnd (padMembers d).members :=
      padLoop_end d.members 0 hne
    refine ⟨⟨m, hm, he⟩, alignUp_dvd _ _ hmax, ?_, ?_⟩
    · rw [← hend]; exact le_alignUp _ _
    · intro k hk hle
      rw [← hend] at hle
      exact alignUp_least _ _ k hmax hk hle

/-- Witness of C7: `struct S { char a; int b; float c; }`, declared without
`packed`, gets `a@0`, `b@4`, `c@8` and size 12. -/
theorem padMembers_layout_witness :
    ((padMembers sampleStruct).name = sampleStruct.name ∧
    (padMembers sampleStruct).members.map (fun m => (m.name, m.type)) =
      sampleStruct.members.map (fun m => (m.name, m.type)) ∧
    (∀ i m, (padMembers sampleStruct).members[i]? = some m →
      m.type.size ∣ m.offset ∧ previousEnd (padMembers sampleStruct).members i ≤ m.offset ∧
      ∀ k, m.type.size ∣ k → previousEnd (padMembers sampleStruct).members i ≤ k →
        m.offset ≤ k) ∧
    (∀ m ∈ sampleStruct.members, m.type.size ≤ maxMemberSize sampleStruct.members) ∧
    (sampleStruct.members ≠ [] →
      (∃ m ∈ sampleStruct.members, m.type.size = maxMemberSize sampleStruct.members) ∧
      maxMemberSize sampleStruct.members ∣ (padMembers sampleStruct).size ∧
      lastEnd (padMembers sampleStruct).members ≤ (padMembers sampleStruct).size ∧
      ∀ k, maxMemberSize sampleStruct.members ∣ k →
        lastEnd (padMembers sampleStruct).members ≤ k → (padMembers sampleStruct).size ≤ k)) ∧
    (commitLayout false sampleStruct).members.map (fun m => (m.name, m.offset)) =
      [("a", 0), ("b", 4), ("c", 8)] ∧
    (commitLayout false sampleStruct).size = 12 :=
  ⟨padMembers_layout sampleStruct (by
      intro m hm
      simp only [sampleStruct, List.mem_cons, List.mem_singleton, List.not_mem_nil,
        or_false] at hm
      rcases hm with rfl | rfl | rfl <;> decide),
    by decide, by decide⟩

theorem packLoop_shape : ∀ (ms : List StructMember) (off : Nat),
    (packLoop ms off).1.map (fun m => (m.name, m.type)) = ms.map (fun m => (m.name, m.type))
  | [], _ => rfl
  | m :: rest, off => by
    simp only [packLoop, List.map_cons]
    rw [packLoop_shape rest]

theorem packLoop_offset : ∀ (ms : List StructMember) (off i : Nat) (m : StructMember),
    (packLoop ms off).1[i]? = some m →
      m.offset = off + ((ms.take i).map (fun x => x.type.size)).sum
  | [], _, _, _, h => by simp [packLoop] at h
  | m0 :: rest, off, 0, m, h => by
    simp only [packLoop, List.getElem?_cons_zero, Option.some.injEq] at h
    subst h
    simp
  | m0 :: rest, off, i + 1, m, h => by
    simp only [packLoop, List.getElem?_cons_succ] at h
    rw [packLoop_offset rest _ i m h]
    simp only [List.take_succ_cons, List.map_cons, List.sum_cons]
    omega

theorem packLoop_end : ∀ (ms : List StructMember) (off : Nat),
    (packLoop ms off).2 = off + (ms.map (fun x => x.type.size)).sum
  | [], _ => by simp [packLoop]
  | m0 :: rest, off => by
    simp only [packLoop, List.map_cons, List.sum_cons]
    rw [packLoop_end rest]
    omega

/-- C8: `packMembers` keeps the members and their order, gives every member the
sum of the sizes of all earlier members as its offset, and makes the struct
size the sum of all member sizes; `packed struct P { char a; int b; float c; }`
gets `a@0`, `b@1`, `c@5` and size 9. -/
theorem packMembers_layout :
    (∀ d : StructDef,
      (packMembers d).name = d.name ∧
      (packMembers d).members.map (fun m => (m.name, m.type)) =
        d.members.map (fun m => (m.name, m.type)) ∧
      (∀ i m, (packMembers d).members[i]? = some m →
        m.offset = ((d.members.take i).map (fun x => x.type.size)).sum) ∧
      (packMembers d).size = (d.members.map (fun x => x.type.size)).sum) ∧
    (commitLayout true samplePackedStruct).members.map (fun m => (m.name, m.offset)) =
      [("a", 0), ("b", 1), ("c", 5)] ∧
    (commitLayout true samplePackedStruct).size = 9 := by
  refine ⟨fun d => ⟨rfl, packLoop_shape _ _, ?_, ?_⟩, by decide, by decide⟩
  · intro i m hm
    have := packLoop_offset d.members 0 i m hm
    omega
  · have := packLoop_end d.members 0
    show (packLoop d.members 0).2 = _
    omega

/-! ### Constant folding -/

theorem wrap32_range (v : Int) :
    -2147483648 ≤ wrap32 v ∧ wrap32 v < 2147483648 ∧ (wrap32 v - v) % 4294967296 = 0 ∧
      (-2147483648 ≤ v → v < 2147483648 → wrap32 v = v) := by
  unfold wrap32
  refine ⟨by omega, by omega, by omega, fun h1 h2 => by omega⟩

theorem foldInt32_eq (op : ArithOp) (a b : Int) (hdiv : op = .Div → b ≠ 0) :
    foldInt32 op a b = .ok (wrap32 (exactArith op a b)) := by
  cases op with
  | Add => rfl
  | Sub => rfl
  | Mul => rfl
  | Div =>
    have hb : b ≠ 0 := hdiv rfl
    simp [foldInt32, exactArith, hb]

theorem unifiedType_same (env : Env) (t : TypeDef) : unifiedType env (some t) (some t) = some t := by
  simp [unifiedType]

theorem optimize_foldsTo (env : Env) (t : TypeDef) (n : AotNode) (v : Int)
    (h : FoldsTo t n v) : optimize env n = .ok (.AotConst (.int32 v) (some t)) := by
  induction h with
  | const v => simp [optimize]
  | arith op l r a b _ _ hdiv ihl ihr =>
    simp only [optimize, ihl, ihr, foldConst, foldInt32_eq op a b hdiv, unifiedType_same]

/-- C9: the optimize pass replaces an Add, Sub, Mul or Div node whose two
operands are 32-bit integer constants of one type by the single constant of that
type holding the exact result wrapped to 32 bits (for Div the divisor is not
zero); the wrapped value lies in the 32-bit range and is congruent to the exact
one modulo 2^32; a whole tree of such operations folds bottom-up to the one
constant its native evaluation gives; and in a function returning `int` the
statement `return 1 + 2 * 3;` reaches `generateBytecode` as the return of the
single constant 7, whatever the emitters are. -/
theorem optimize_folds_int32_constants :
    (∀ (env : Env) (op : ArithOp) (a b : Int) (t : TypeDef), (op = .Div → b ≠ 0) →
      optimize env (.AotArith op (.AotConst (.int32 a) (some t)) (.AotConst (.int32 b) (some t)))
        = .ok (.AotConst (.int32 (wrap32 (exactArith op a b))) (some t))) ∧
    (∀ v : Int, -2147483648 ≤ wrap32 v ∧ wrap32 v < 2147483648 ∧
      (wrap32 v - v) % 4294967296 = 0 ∧
      (-2147483648 ≤ v → v < 2147483648 → wrap32 v = v)) ∧
    (∀ (env : Env) (t : TypeDef) (n : AotNode) (v : Int), FoldsTo t n v →
      optimize env n = .ok (.AotConst (.int32 v) (some t))) ∧
    (∀ gen : AotNode → EmitState → Outcome EmitState,
      visitFunctionStatements { nativeEnv with generateBytecode := gen } [sampleFoldStatement]
          (compilerInFunction "int") =
        generateBytecode { nativeEnv with generateBytecode := gen }
          (.AotReturnValueNode (.AotConst (.int32 7) (some intType)))
          (setReturnCalled (compilerInFunction "int") true)) := by
  refine ⟨?_, wrap32_range, optimize_foldsTo, ?_⟩
  · intro env op a b t hdiv
    exact optimize_foldsTo env t _ _ (.arith op _ _ a b (.const a) (.const b) hdiv)
  · intro gen
    have hvisit : visitStmt { nativeEnv with generateBytecode := gen } sampleFoldStatement
        (compilerInFunction "int") =
        .ok (.AotReturnValueNode (.AotArith .Add (.AotConst (.int32 1) (some intType))
          (.AotArith .Mul (.AotConst (.int32 2) (some intType))
            (.AotConst (.int32 3) (some intType)))),
          setReturnCalled (compilerInFunction "int") true) := rfl
    have hopt : optimize { nativeEnv with generateBytecode := gen }
        (.AotReturnValueNode (.AotArith .Add (.AotConst (.int32 1) (some intType))
          (.AotArith .Mul (.AotConst (.int32 2) (some intType))
            (.AotConst (.int32 3) (some intType))))) =
        .ok (.AotReturnValueNode (.AotConst (.int32 7) (some intType))) := rfl
    simp only [visitFunctionStatements, hvisit, hopt, AotNode.isNull, Bool.false_eq_true,
      if_false]
    cases generateBytecode { nativeEnv with generateBytecode := gen }
      (.AotReturnValueNode (.AotConst (.int32 7) (some intType)))
      (setReturnCalled (compilerInFunction "int") true) <;> rfl

/-- Witness of C9: `2 * 3` folds to the constant 6 and `7 / 2` to 3. -/
theorem optimize_folds_int32_constants_witness :
    optimize nativeEnv (.AotArith .Mul (.AotConst (.int32 2) (some intType))
        (.AotConst (.int32 3) (some intType))) =
      .ok (.AotConst (.int32 (wrap32 (exactArith .Mul 2 3))) (some intType)) ∧
    optimize nativeEnv (.AotArith .Div (.AotConst (.int32 7) (some intType))
        (.AotConst (.int32 2) (some intType))) =
      .ok (.AotConst (.int32 (wrap32 (exactArith .Div 7 2))) (some intType)) ∧
    wrap32 (exactArith .Mul 2 3) = 6 ∧ wrap32 (exactArith .Div 7 2) = 3 ∧
    wrap32 (exactArith .Add 2147483647 1) = -2147483648 :=
  ⟨optimize_folds_int32_constants.1 nativeEnv .Mul 2 3 intType (by decide),
    optimize_folds_int32_constants.1 nativeEnv .Div 7 2 intType (by decide),
    by decide, by decide, by decide⟩

/-! ### Registers -/

theorem flag_or_and_self (t x : Nat) : (t ||| x) &&& t = t := by
  apply Nat.eq_of_testBit_eq
  intro i
  simp only [Nat.testBit_and, Nat.testBit_or]
  cases t.testBit i <;> cases x.testBit i <;> rfl

theorem flag_keep (t c f : Nat) (h : t &&& c = 0) : (t ||| (c &&& f)) &&& c = f &&& c := by
  apply Nat.eq_of_testBit_eq
  intro i
  have hi := congrArg (fun n => n.testBit i) h
  simp only [Nat.testBit_and, Nat.zero_testBit] at hi
  simp only [Nat.testBit_and, Nat.testBit_or]
  cases ht : t.testBit i <;> cases hc : c.testBit i <;> cases f.testBit i <;>
    simp_all

theorem newReg_nonvoid (ctx : CompilerCtx) (t : TypeDef) (flags : Nat)
    (h : t.type ≠ ValueType.Void) :
    newReg ctx (some t) flags =
      (regValue t flags ctx.regIndex, { ctx with regIndex := ctx.regIndex + 1 }) := by
  simp [newReg, AotValue.isVoid, h, regValue]

theorem newReg_void (ctx : CompilerCtx) (type : Option TypeDef) (flags : Nat)
    (h : isVoidType type = true) :
    newReg ctx type flags = (⟨type, flags, ⟨0, .Void, .Null⟩, .NoRes⟩, ctx) := by
  cases type with
  | none => rfl
  | some t =>
    simp only [isVoidType, decide_eq_true_eq] at h
    simp [newReg, AotValue.isVoid, h]

theorem appendCode_ok (ctx : CompilerCtx) (op : Opcode) (operands : List ValueIndex) (i : Nat)
    (f : ScriptFunction) (hi : ctx.function = some i)
    (hf : ctx.script.localFunctions[i]? = some f) :
    appendCode ctx op operands = .ok (withInstruction ctx i f ⟨op, operands⟩) := by
  simp [appendCode, hi, hf, withInstruction]

theorem newReg_flags (ctx : CompilerCtx) (type : Option TypeDef) (flags : Nat) :
    (newReg ctx type flags).1.flags = flags ∧
      (newReg ctx type flags).1.compareType = CompareType.NoRes := by
  unfold newReg
  cases type with
  | none => exact ⟨rfl, rfl⟩
  | some t =>
    simp only
    split <;> exact ⟨rfl, rfl⟩

theorem hasFlag_temp (env : Env) (x : Nat) (v : AotValue) (hT : env.flagTemp ≠ 0)
    (hv : v.flags = env.flagTemp ||| x) : v.hasFlag env.flagTemp = true := by
  simp only [AotValue.hasFlag, hv, flag_or_and_self, decide_eq_true_eq]
  exact hT

/-- C13, counterexample: a value of `Const` storage that is no comparison flag
and has no type (it is void) goes through `castReg` without any register being
allocated: the register counter stays at 3 and the returned value has `Null`
storage, while the `MOV` is appended all the same. -/
theorem castReg_void_allocates_no_register :
    ∃ r ctx1, castReg nativeEnv (ctxInFunction [] 3) ⟨none, 0, ⟨0, .Void, .Const⟩, .NoRes⟩ =
        .ok (r, ctx1) ∧
      ctx1.regIndex = 3 ∧ r.valueIndex.storageType = ValueStorageType.Null ∧
      ctx1.script.localFunctions =
        [⟨"f()", "int", [], [⟨.MOV, [⟨0, .Void, .Null⟩, ⟨0, .Void, .Const⟩]⟩]⟩] :=
  ⟨_, _, rfl, rfl, rfl, rfl⟩

/-- C13 as amended: a value of `Reg`, `Ptr` or `StackPtr` storage is returned by
`castReg` as it is, with the context untouched (no instruction, no register).
A value that is no comparison flag, has `Const` or `DerefPtr` storage and a
type that is not void makes `castReg`, inside a function, allocate exactly one
register of that type (index = the register counter, which goes up by one) with
the flags `Temp | (Constexpr & v.flags)`, append exactly one `MOV` from `v` into
that register, and return the register value; it is flagged `Temp` and keeps
the `Constexpr` flag of `v`. A value that is no comparison flag, has `Const` or
`DerefPtr` storage and a void type (null, or of the `Void` category) makes
`castReg`, inside a function, allocate no register (the register counter stays
as it is), append exactly one `MOV` from `v` into the `Null`-storage value
`newReg` returns, and return that value. -/
theorem castReg_non_compare (env : Env) (ctx : CompilerCtx) (v : AotValue) :
    ((v.valueIndex.storageType = ValueStorageType.Reg ∨
        v.valueIndex.storageType = ValueStorageType.Ptr ∨
        v.valueIndex.storageType = ValueStorageType.StackPtr) →
      castReg env ctx v = .ok (v, ctx)) ∧
    (∀ (t : TypeDef) (i : Nat) (f : ScriptFunction),
      v.compareType = CompareType.NoRes →
      (v.valueIndex.storageType = ValueStorageType.Const ∨
        v.valueIndex.storageType = ValueStorageType.DerefPtr) →
      v.typeDef = some t → t.type ≠ ValueType.Void →
      ctx.function = some i → ctx.script.localFunctions[i]? = some f →
      castReg env ctx v =
        .ok (regValue t (env.flagTemp ||| (env.flagConstexpr &&& v.flags)) ctx.regIndex,
          withInstruction { ctx with regIndex := ctx.regIndex + 1 } i f
            ⟨.MOV, [(regValue t (env.flagTemp ||| (env.flagConstexpr &&& v.flags))
              ctx.regIndex).valueIndex, v.valueIndex]⟩) ∧
      (env.flagTemp ≠ 0 →
        (regValue t (env.flagTemp ||| (env.flagConstexpr &&& v.flags)) ctx.regIndex).hasFlag
          env.flagTemp = true) ∧
      (env.flagTemp &&& env.flagConstexpr = 0 →
        (regValue t (env.flagTemp ||| (env.flagConstexpr &&& v.flags)) ctx.regIndex).flags &&&
          env.flagConstexpr = v.flags &&& env.flagConstexpr)) ∧
    (∀ (i : Nat) (f : ScriptFunction),
      v.compareType = CompareType.NoRes →
      (v.valueIndex.storageType = ValueStorageType.Const ∨
        v.valueIndex.storageType = ValueStorageType.DerefPtr) →
      isVoidType v.typeDef = true →
      ctx.function = some i → ctx.script.localFunctions[i]? = some f →
      castReg env ctx v =
        .ok (⟨v.typeDef, env.flagTemp ||| (env.flagConstexpr &&& v.flags), ⟨0, .Void, .Null⟩,
            .NoRes⟩,
          withInstruction ctx i f ⟨.MOV, [⟨0, .Void, .Null⟩, v.valueIndex]⟩) ∧
      (withInstruction ctx i f ⟨.MOV, [⟨0, .Void, .Null⟩, v.valueIndex]⟩).regIndex =
        ctx.regIndex) := by
  refine ⟨?_, ?_, ?_⟩
  · intro h
    simp only [castReg, h, if_true]
  · intro t i f hc hs ht hv hi hf
    have hst : ¬ (v.valueIndex.storageType = ValueStorageType.Reg ∨
        v.valueIndex.storageType = ValueStorageType.Ptr ∨
        v.valueIndex.storageType = ValueStorageType.StackPtr) := by
      rcases hs with h | h <;> simp [h]
    have hcmp : v.isCompare = false := by simp [AotValue.isCompare, hc]
    refine ⟨?_, fun hT => hasFlag_temp env _ _ hT rfl, fun hTC => flag_keep _ _ _ hTC⟩
    simp only [castReg, hst, if_false, ht, newReg_nonvoid ctx t _ hv, hcmp, Bool.not_false,
      if_true]
    rw [appendCode_ok { ctx with regIndex := ctx.regIndex + 1 } _ _ i f hi hf]
  · intro i f hc hs hvoid hi hf
    have hst : ¬ (v.valueIndex.storageType = ValueStorageType.Reg ∨
        v.valueIndex.storageType = ValueStorageType.Ptr ∨
        v.valueIndex.storageType = ValueStorageType.StackPtr) := by
      rcases hs with h | h <;> simp [h]
    have hcmp : v.isCompare = false := by simp [AotValue.isCompare, hc]
    refine ⟨?_, rfl⟩
    simp only [castReg, hst, if_false, newReg_void ctx v.typeDef _ hvoid, hcmp, Bool.not_false,
      if_true]
    rw [appendCode_ok ctx _ _ i f hi hf]

/-- Witness of the amended C13: inside `f()` with the register counter at 3, an
`int` constant flagged `Constexpr` is moved into the fresh register 3, which
carries the flags `Temp | Constexpr`. -/
theorem castReg_non_compare_witness :
    castReg nativeEnv (ctxInFunction [] 3) ⟨some intType, 4, ⟨7, .Int32, .Const⟩, .NoRes⟩ =
      .ok (regValue intType 6 3,
        withInstruction { ctxInFunction [] 3 with regIndex := 4 } 0 ⟨"f()", "int", [], []⟩
          ⟨.MOV, [⟨3, .Int32, .Reg⟩, ⟨7, .Int32, .Const⟩]⟩) :=
  ((castReg_non_compare nativeEnv (ctxInFunction [] 3)
    ⟨some intType, 4, ⟨7, .Int32, .Const⟩, .NoRes⟩).2.1 intType 0 ⟨"f()", "int", [], []⟩
    rfl (Or.inl rfl) rfl (by decide) rfl rfl).1

/-- C14, counterexample: a comparison flag (`EqualRes`, `Null` storage) whose
type is the non-void `ObjectRef` type `S` is reified by `castReg` into a
register value of `Ptr` storage, not `Reg`. -/
theorem castReg_compare_objectRef_gives_ptr :
    ∃ r ctx1, castReg nativeEnv (ctxInFunction [] 3)
        ⟨some objectType, 0, ⟨0, .Bool, .Null⟩, .EqualRes⟩ = .ok (r, ctx1) ∧
      r.valueIndex.storageType = ValueStorageType.Ptr ∧
      r.valueIndex.storageType ≠ ValueStorageType.Reg :=
  ⟨_, _, rfl, rfl, by decide⟩

/-- C14 as amended: a comparison flag `v` (`compareType` not `None`, `Null`
storage, a type that is not void) makes `castReg`, inside a function, allocate
one register (index = the register counter, which goes up by one), append
exactly one instruction on that register, `SETE`, `SETNE`, `SETA`, `SETG`,
`SETAE` or `SETGE` for `Equal`, `NotEqual`, `Above`, `Greater`, `AboveEqual` or
`GreaterEqual`, and return the register value, which is flagged `Temp`, has
`compareType` `None`, and has `Reg` storage unless the type is an `ObjectRef`
one, where it has `Ptr` storage. -/
theorem castReg_compare_flag (env : Env) (ctx : CompilerCtx) (v : AotValue) (t : TypeDef)
    (i : Nat) (f : ScriptFunction) (hc : v.compareType ≠ CompareType.NoRes)
    (hs : v.valueIndex.storageType = ValueStorageType.Null) (ht : v.typeDef = some t)
    (hv : t.type ≠ ValueType.Void) (hi : ctx.function = some i)
    (hf : ctx.script.localFunctions[i]? = some f) (hT : env.flagTemp ≠ 0) :
    ∃ op r, setOpcode v.compareType = some op ∧
      r = regValue t (env.flagTemp ||| (env.flagConstexpr &&& v.flags)) ctx.regIndex ∧
      castReg env ctx v =
        .ok (r, withInstruction { ctx with regIndex := ctx.regIndex + 1 } i f
          ⟨op, [r.valueIndex]⟩) ∧
      r.hasFlag env.flagTemp = true ∧ r.compareType = CompareType.NoRes ∧
      r.valueIndex.index = ctx.regIndex ∧
      r.valueIndex.storageType =
        (if t.type ≠ ValueType.ObjectRef then ValueStorageType.Reg else ValueStorageType.Ptr) ∧
      setOpcode .EqualRes = some .SETE ∧ setOpcode .NotEqualRes = some .SETNE ∧
      setOpcode .AboveRes = some .SETA ∧ setOpcode .GreaterRes = some .SETG ∧
      setOpcode .AboveEqualRes = some .SETAE ∧ setOpcode .GreaterEqualRes = some .SETGE := by
  have hop : ∃ op, setOpcode v.compareType = some op := by
    cases hct : v.compareType with
    | NoRes => exact absurd hct hc
    | EqualRes => exact ⟨_, rfl⟩
    | NotEqualRes => exact ⟨_, rfl⟩
    | AboveRes => exact ⟨_, rfl⟩
    | GreaterRes => exact ⟨_, rfl⟩
    | AboveEqualRes => exact ⟨_, rfl⟩
    | GreaterEqualRes => exact ⟨_, rfl⟩
  obtain ⟨op, hop⟩ := hop
  have hcmp : v.isCompare = true := by simp [AotValue.isCompare, hc]
  refine ⟨op, _, hop, rfl, ?_, hasFlag_temp env _ _ hT rfl, rfl, rfl, rfl,
    rfl, rfl, rfl, rfl, rfl, rfl⟩
  have hst : ¬ (v.valueIndex.storageType = ValueStorageType.Reg ∨
      v.valueIndex.storageType = ValueStorageType.Ptr ∨
      v.valueIndex.storageType = ValueStorageType.StackPtr) := by simp [hs]
  simp only [castReg, hst, if_false, ht, newReg_nonvoid ctx t _ hv, hcmp, hop, Bool.not_true,
    Bool.false_eq_true]
  rw [appendCode_ok { ctx with regIndex := ctx.regIndex + 1 } _ _ i f hi hf]

/-- Witness of the amended C14: a `bool` flag of kind `GreaterRes` becomes the
register 3 through one `SETG`. -/
theorem castReg_compare_flag_witness :
    ∃ op r, setOpcode CompareType.GreaterRes = some op ∧ r = regValue boolType (2 ||| (4 &&& 0)) 3 ∧
      castReg nativeEnv (ctxInFunction [] 3) ⟨some boolType, 0, ⟨0, .Bool, .Null⟩, .GreaterRes⟩ =
        .ok (r, withInstruction { ctxInFunction [] 3 with regIndex := 3 + 1 } 0
          ⟨"f()", "int", [], []⟩ ⟨op, [r.valueIndex]⟩) ∧
      r.hasFlag 2 = true ∧ r.compareType = CompareType.NoRes ∧
      r.valueIndex.index = 3 ∧
      r.valueIndex.storageType =
        (if boolType.type ≠ ValueType.ObjectRef then ValueStorageType.Reg
          else ValueStorageType.Ptr) ∧
      setOpcode .EqualRes = some .SETE ∧ setOpcode .NotEqualRes = some .SETNE ∧
      setOpcode .AboveRes = some .SETA ∧ setOpcode .GreaterRes = some .SETG ∧
      setOpcode .AboveEqualRes = some .SETAE ∧ setOpcode .GreaterEqualRes = some .SETGE :=
  castReg_compare_flag nativeEnv (ctxInFunction [] 3)
    ⟨some boolType, 0, ⟨0, .Bool, .Null⟩, .GreaterRes⟩ boolType 0 ⟨"f()", "int", [], []⟩
    (by decide) rfl rfl (by decide) rfl rfl (by decide)

theorem newRegs_indices : ∀ (reqs : List (Option TypeDef × Nat)) (ctx : CompilerCtx),
    ((newRegs ctx reqs).1.filter (fun v => !v.isVoid)).map (fun v => v.valueIndex.index) =
        List.range' ctx.regIndex (reqs.filter (fun r => !isVoidType r.1)).length ∧
      (newRegs ctx reqs).2.regIndex =
        ctx.regIndex + (reqs.filter (fun r => !isVoidType r.1)).length ∧
      (newRegs ctx reqs).2.script = ctx.script
  | [], ctx => by simp [newRegs]
  | (type, flags) :: rest, ctx => by
    have ih := newRegs_indices rest (newReg ctx type flags).2
    cases hv : isVoidType type with
    | true =>
      have hn := newReg_void ctx type flags hv
      have hvoid : AotValue.isVoid ⟨type, flags, ⟨0, .Void, .Null⟩, .NoRes⟩ = true := by
        cases type with
        | none => rfl
        | some t => simpa [AotValue.isVoid, isVoidType] using hv
      rw [hn] at ih
      simp only [newRegs, hn, List.filter_cons, hv, hvoid, Bool.not_true, Bool.false_eq_true,
        if_false]
      exact ih
    | false =>
      cases type with
      | none => simp [isVoidType] at hv
      | some t =>
        have ht : t.type ≠ ValueType.Void := by simpa [isVoidType] using hv
        have hn := newReg_nonvoid ctx t flags ht
        have hnv : (regValue t flags ctx.regIndex).isVoid = false := by
          simp [AotValue.isVoid, regValue, ht]
        rw [hn] at ih
        simp only [newRegs, hn, List.filter_cons, hv, hnv, Bool.not_false, if_true,
          List.map_cons, List.length_cons, List.range'_succ]
        refine ⟨?_, ?_, ih.2.2⟩
        · rw [ih.1]
          simp [regValue]
        · rw [ih.2.1]
          simp only
          omega

/-- C15: for a type that is not void, `newReg` returns the value of that type
with the given flags, the register counter as its index and `Reg` storage
(`Ptr` for an `ObjectRef` type), and moves the counter up by one, leaving the
rest of the context (the instruction buffers with it) as it was; for a void
type it returns a `Null`-storage value and leaves the whole context as it was.
Any run of `newReg` calls after `setFunction` hands the indices 0, 1, 2, … to
its non-void requests in order, so they are pairwise distinct. -/
theorem newReg_allocates :
    (∀ (ctx : CompilerCtx) (t : TypeDef) (flags : Nat), t.type ≠ ValueType.Void →
      newReg ctx (some t) flags =
        (⟨some t, flags,
            ⟨ctx.regIndex, t.type, if t.type ≠ ValueType.ObjectRef then .Reg else .Ptr⟩, .NoRes⟩,
          { ctx with regIndex := ctx.regIndex + 1 })) ∧
    (∀ (ctx : CompilerCtx) (type : Option TypeDef) (flags : Nat), isVoidType type = true →
      (newReg ctx type flags).1.valueIndex.storageType = ValueStorageType.Null ∧
      (newReg ctx type flags).2 = ctx) ∧
    (∀ (ctx : CompilerCtx) (f : Option Nat) (reqs : List (Option TypeDef × Nat)),
      ((newRegs (setFunction ctx f) reqs).1.filter (fun v => !v.isVoid)).map
          (fun v => v.valueIndex.index) =
        List.range (reqs.filter (fun r => !isVoidType r.1)).length ∧
      (((newRegs (setFunction ctx f) reqs).1.filter (fun v => !v.isVoid)).map
          (fun v => v.valueIndex.index)).Nodup ∧
      (newRegs (setFunction ctx f) reqs).2.script = ctx.script) := by
  refine ⟨fun ctx t flags h => newReg_nonvoid ctx t flags h, ?_, ?_⟩
  · intro ctx type flags h
    rw [newReg_void ctx type flags h]
    exact ⟨rfl, rfl⟩
  · intro ctx f reqs
    have h := newRegs_indices reqs (setFunction ctx f)
    have h0 : (setFunction ctx f).regIndex = 0 := rfl
    rw [h0] at h
    refine ⟨?_, ?_, h.2.2⟩
    · rw [h.1, List.range_eq_range']
    · rw [h.1]
      exact List.nodup_range' _ _

/-- Witness of C15: after `setFunction`, the requests `int`, void, `S`, `bool`
get the registers 0, 1 and 2, with `Reg`, `Ptr` and `Reg` storage, and the void
request gets a `Null`-storage value. -/
theorem newReg_allocates_witness :
    (newRegs (setFunction (ctxInFunction [] 9) (some 0))
        [(some intType, 0), (none, 0), (some objectType, 2), (some boolType, 0)]).1.map
      (fun v => (v.valueIndex.index, v.valueIndex.storageType)) =
      [(0, .Reg), (0, .Null), (1, .Ptr), (2, .Reg)] ∧
    newReg (ctxInFunction [] 9) (some objectType) 2 =
      (⟨some objectType, 2, ⟨9, .ObjectRef, .Ptr⟩, .NoRes⟩,
        { ctxInFunction [] 9 with regIndex := 9 + 1 }) :=
  ⟨by decide, newReg_allocates.1 (ctxInFunction [] 9) objectType 2 (by decide)⟩

/-- C16, counterexample: a void value that is not flagged `Temp` (type null,
`Null` storage, as a call of a void function yields) goes through `castTemp`
with one `MOV` appended but no register allocated: the register counter stays
at 3 and the returned value has `Null` storage. -/
theorem castTemp_void_allocates_no_register :
    ∃ r ctx1, castTemp nativeEnv (ctxInFunction [] 3) ⟨none, 0, ⟨0, .Void, .Null⟩, .NoRes⟩ =
        .ok (r, ctx1) ∧
      ctx1.regIndex = 3 ∧ r.valueIndex.storageType = ValueStorageType.Null ∧
      ctx1.script.localFunctions =
        [⟨"f()", "int", [], [⟨.MOV, [⟨0, .Void, .Null⟩, ⟨0, .Void, .Null⟩]⟩]⟩] :=
  ⟨_, _, rfl, rfl, rfl, rfl⟩

/-- C16 as amended: inside a function, `castTemp(v)` returns for every `v`; the
result is flagged `Temp`, and `castTemp` applied to it returns it with the
context untouched (no instruction, no register). When `v` is flagged `Temp` the
first call already returns `v` with the context untouched. When it is not,
exactly one `MOV` from `v` into the value `newReg` gives for the type of `v` and
the flags `Temp | (Constexpr & v.flags)` is appended; that value is one fresh
register (index = the register counter, which goes up by one) when the type of
`v` is not void, and for a void `v` no register is allocated. -/
theorem castTemp_idempotent (env : Env) (ctx : CompilerCtx) (v : AotValue) (i : Nat)
    (f : ScriptFunction) (hi : ctx.function = some i)
    (hf : ctx.script.localFunctions[i]? = some f) (hT : env.flagTemp ≠ 0) :
    (∃ r ctx1, castTemp env ctx v = .ok (r, ctx1) ∧ r.hasFlag env.flagTemp = true ∧
      castTemp env ctx1 r = .ok (r, ctx1)) ∧
    (v.hasFlag env.flagTemp = true → castTemp env ctx v = .ok (v, ctx)) ∧
    (v.hasFlag env.flagTemp = false →
      castTemp env ctx v =
        .ok ((newReg ctx v.typeDef (env.flagTemp ||| (env.flagConstexpr &&& v.flags))).1,
          withInstruction
            (newReg ctx v.typeDef (env.flagTemp ||| (env.flagConstexpr &&& v.flags))).2 i f
            ⟨.MOV, [(newReg ctx v.typeDef
              (env.flagTemp ||| (env.flagConstexpr &&& v.flags))).1.valueIndex,
              v.valueIndex]⟩) ∧
      (∀ t, v.typeDef = some t → t.type ≠ ValueType.Void →
        newReg ctx v.typeDef (env.flagTemp ||| (env.flagConstexpr &&& v.flags)) =
          (regValue t (env.flagTemp ||| (env.flagConstexpr &&& v.flags)) ctx.regIndex,
            { ctx with regIndex := ctx.regIndex + 1 })) ∧
      (isVoidType v.typeDef = true →
        (newReg ctx v.typeDef (env.flagTemp ||| (env.flagConstexpr &&& v.flags))).2 = ctx)) := by
  have hfn : (ctx.function.isNone && !env.ndebug) = false := by simp [hi]
  have hyes : v.hasFlag env.flagTemp = true → castTemp env ctx v = .ok (v, ctx) := by
    intro h
    simp only [castTemp, hfn, h, Bool.false_eq_true, if_false, if_true]
  have hnr := newReg_ctx ctx v.typeDef (env.flagTemp ||| (env.flagConstexpr &&& v.flags))
  have hno : v.hasFlag env.flagTemp = false →
      castTemp env ctx v =
        .ok ((newReg ctx v.typeDef (env.flagTemp ||| (env.flagConstexpr &&& v.flags))).1,
          withInstruction
            (newReg ctx v.typeDef (env.flagTemp ||| (env.flagConstexpr &&& v.flags))).2 i f
            ⟨.MOV, [(newReg ctx v.typeDef
              (env.flagTemp ||| (env.flagConstexpr &&& v.flags))).1.valueIndex,
              v.valueIndex]⟩) := by
    intro h
    simp only [castTemp, hfn, h, Bool.false_eq_true, if_false]
    rw [appendCode_ok _ _ _ i f (by rw [hnr.2.1]; exact hi) (by rw [hnr.1]; exact hf)]
  refine ⟨?_, hyes, fun h => ⟨hno h, ?_, ?_⟩⟩
  · cases hflag : v.hasFlag env.flagTemp with
    | true => exact ⟨v, ctx, hyes hflag, hflag, hyes hflag⟩
    | false =>
      have hr : (newReg ctx v.typeDef
          (env.flagTemp ||| (env.flagConstexpr &&& v.flags))).1.hasFlag env.flagTemp = true :=
        hasFlag_temp env _ _ hT (newReg_flags _ _ _).1
      refine ⟨_, _, hno hflag, hr, ?_⟩
      have hfn1 : ((withInstruction
          (newReg ctx v.typeDef (env.flagTemp ||| (env.flagConstexpr &&& v.flags))).2 i f
          ⟨.MOV, [(newReg ctx v.typeDef
            (env.flagTemp ||| (env.flagConstexpr &&& v.flags))).1.valueIndex,
            v.valueIndex]⟩).function.isNone && !env.ndebug) = false := by
        show ((newReg ctx v.typeDef _).2.function.isNone && !env.ndebug) = false
        rw [hnr.2.1]
        exact hfn
      simp only [castTemp, hfn1, hr, Bool.false_eq_true, if_false, if_true]
  · intro t ht hv
    rw [ht]
    exact newReg_nonvoid ctx t _ hv
  · intro hv
    rw [newReg_void ctx v.typeDef _ hv]

/-- Witness of the amended C16: an `int` constant that is not flagged `Temp` is
moved into the fresh register 3, and a second `castTemp` returns that register
with the context as it is. -/
theorem castTemp_idempotent_witness :
    ∃ r ctx1, castTemp nativeEnv (ctxInFunction [] 3) ⟨some intType, 4, ⟨7, .Int32, .Const⟩, .NoRes⟩ =
        .ok (r, ctx1) ∧ r.hasFlag nativeEnv.flagTemp = true ∧
      castTemp nativeEnv ctx1 r = .ok (r, ctx1) :=
  (castTemp_idempotent nativeEnv (ctxInFunction [] 3)
    ⟨some intType, 4, ⟨7, .Int32, .Const⟩, .NoRes⟩ 0 ⟨"f()", "int", [], []⟩ rfl rfl
    (by decide)).1

/-! ## Comparisons and return statements -/

/-- C12: when the visits of the two operands of `l op r` give the nodes `a` and
`b`, `visitComparison` builds `Compare(Equal, a, b)` for `==`,
`Compare(NotEqual, a, b)` for `!=`, `Compare(Greater, a, b)` for `>`,
`Compare(GreaterEqual, a, b)` for `>=`, `Compare(Greater, b, a)` for `<` and
`Compare(GreaterEqual, b, a)` for `<=`; with the signed-integer meaning of the
modes the node built is true exactly when `l op r` holds. -/
theorem visitComparison_builds (env : Env) (left right : Expr) (op : Token) (c c1 c2 : Compiler)
    (a b : AotNode) (hl : visitExpr env left c = .ok (a, c1))
    (hr : visitExpr env right c1 = .ok (b, c2)) (hop : op.text ∈ comparisonOperators) :
    (op.text = "==" →
      visitExpr env (.comparison left op right) c = .ok (.AotCompareNode .Equal a b, c2)) ∧
    (op.text = "!=" →
      visitExpr env (.comparison left op right) c = .ok (.AotCompareNode .NotEqual a b, c2)) ∧
    (op.text = ">" →
      visitExpr env (.comparison left op right) c = .ok (.AotCompareNode .Greater a b, c2)) ∧
    (op.text = ">=" →
      visitExpr env (.comparison left op right) c =
        .ok (.AotCompareNode .GreaterEqual a b, c2)) ∧
    (op.text = "<" →
      visitExpr env (.comparison left op right) c = .ok (.AotCompareNode .Greater b a, c2)) ∧
    (op.text = "<=" →
      visitExpr env (.comparison left op right) c =
        .ok (.AotCompareNode .GreaterEqual b a, c2)) ∧
    ∃ node, visitExpr env (.comparison left op right) c = .ok (node, c2) ∧
      ∀ val : AotNode → Int, compareHolds val node = opHolds op.text (val a) (val b) := by
  refine ⟨?_, ?_, ?_, ?_, ?_, ?_, ?_⟩
  · intro h
    simp [visitExpr, hl, hr, h]
  · intro h
    simp [visitExpr, hl, hr, h]
  · intro h
    simp [visitExpr, hl, hr, h]
  · intro h
    simp [visitExpr, hl, hr, h]
  · intro h
    simp [visitExpr, hl, hr, h]
  · intro h
    simp [visitExpr, hl, hr, h]
  · simp only [comparisonOperators, List.mem_cons, List.mem_singleton, List.not_mem_nil,
      or_false] at hop
    rcases hop with h | h | h | h | h | h
    · exact ⟨.AotCompareNode .Equal a b, by simp [visitExpr, hl, hr, h],
        fun val => by simp [compareHolds, CompareMode.holds, opHolds, h]⟩
    · exact ⟨.AotCompareNode .NotEqual a b, by simp [visitExpr, hl, hr, h],
        fun val => by simp [compareHolds, CompareMode.holds, opHolds, h]⟩
    · exact ⟨.AotCompareNode .Greater a b, by simp [visitExpr, hl, hr, h],
        fun val => by simp [compareHolds, CompareMode.holds, opHolds, h]⟩
    · exact ⟨.AotCompareNode .GreaterEqual a b, by simp [visitExpr, hl, hr, h],
        fun val => by simp [compareHolds, CompareMode.holds, opHolds, h]⟩
    · exact ⟨.AotCompareNode .Greater b a, by simp [visitExpr, hl, hr, h],
        fun val => by simp [compareHolds, CompareMode.holds, opHolds, h]⟩
    · exact ⟨.AotCompareNode .GreaterEqual b a, by simp [visitExpr, hl, hr, h],
        fun val => by simp [compareHolds, CompareMode.holds, opHolds, h]⟩

/-- Witness of C12: `1 < 2` becomes `Compare(Greater, 2, 1)`, which is true. -/
theorem visitComparison_builds_witness :
    visitExpr nativeEnv (.comparison (.constInt (tok "1")) (tok "<") (.constInt (tok "2")))
        (compilerWith [] 0) =
      .ok (.AotCompareNode .Greater (.AotConst (.int32 2) (some intType))
        (.AotConst (.int32 1) (some intType)), compilerWith [] 0) ∧
    compareHolds constValue (.AotCompareNode .Greater (.AotConst (.int32 2) (some intType))
        (.AotConst (.int32 1) (some intType))) = true :=
  ⟨(visitComparison_builds nativeEnv (.constInt (tok "1")) (.constInt (tok "2")) (tok "<")
      (compilerWith [] 0) (compilerWith [] 0) (compilerWith [] 0)
      (.AotConst (.int32 1) (some intType)) (.AotConst (.int32 2) (some intType)) rfl rfl
      (by decide)).2.2.2.2.1 rfl, by decide⟩

/-- C17: for a non-null expression node `e` inside a function (linker set),
`visitReturnVal` returns `ReturnValue(e)` and sets `returnCalled` when the name
of the result type of `e` is the declared return type name of the function;
returns `ReturnValue(Cast(e, getType(declared return type)))` and sets
`returnCalled` when the name differs; and when the result type of `e` is void
it returns null, adds exactly one error and leaves `returnCalled` as it was. -/
theorem visitReturnVal_cast (env : Env) (l : Linker) (s : Token) (e : AotNode) (c : Compiler)
    (f : ScriptFunction) (hn : e.isNull = false) (hf : currentFunction c = some f)
    (hl : env.linker = some l) :
    (∀ t, e.resType env = some t → t.name = f.returnType →
      visitReturnVal env s e c = .ok (.AotReturnValueNode e, setReturnCalled c true) ∧
      (setReturnCalled c true)._ctx.returnCalled = true) ∧
    (∀ t, e.resType env = some t → t.name ≠ f.returnType →
      ∃ rt, getType env c f.returnType = .ok rt ∧
        visitReturnVal env s e c =
          .ok (.AotReturnValueNode (.AotCastNode e rt), setReturnCalled c true)) ∧
    (e.resType env = none →
      ∃ c1, visitReturnVal env s e c = .ok (.null, c1) ∧
        c1 = throwErrorToken s ("can\x27t cast from void to " ++ f.returnType) c ∧
        c1._errors.length = c._errors.length + 1 ∧
        c1._ctx.returnCalled = c._ctx.returnCalled) := by
  refine ⟨?_, ?_, ?_⟩
  · intro t ht hname
    refine ⟨?_, rfl⟩
    simp [visitReturnVal, hn, hf, ht, hname]
  · intro t ht hname
    have hg : ∃ rt, getType env c f.returnType = .ok rt := by
      unfold getType
      cases c._privateTypes.lookup f.returnType with
      | some t1 => exact ⟨_, rfl⟩
      | none => simp [hl]
    obtain ⟨rt, hrt⟩ := hg
    refine ⟨rt, hrt, ?_⟩
    simp [visitReturnVal, hn, hf, ht, hname, hrt]
  · intro ht
    refine ⟨_, ?_, rfl, ?_, rfl⟩
    · simp [visitReturnVal, hn, hf, ht]
    · simp [throwErrorToken, throwErrorPos, throwErrorMessage]

/-- Witness of C17: in a function declared to return `float`, `return 1;`
becomes `ReturnValue(Cast(1, float))`. -/
theorem visitReturnVal_cast_witness :
    ∃ rt, getType nativeEnv (compilerInFunction "float") "float" = .ok rt ∧
      visitReturnVal nativeEnv (tok "1") (.AotConst (.int32 1) (some intType))
          (compilerInFunction "float") =
        .ok (.AotReturnValueNode (.AotCastNode (.AotConst (.int32 1) (some intType)) rt),
          setReturnCalled (compilerInFunction "float") true) :=
  (visitReturnVal_cast nativeEnv nativeLinker (tok "1") (.AotConst (.int32 1) (some intType))
    (compilerInFunction "float") ⟨"f()", "float", [], []⟩ rfl rfl rfl).2.1 intType rfl
    (by decide)

/-! ## Link directives, the driver and null results -/

/-- C18, failing input: after `link "A" as "x"; link "B" as "x"; link "C" as "y";`
the script lists the libraries `A`, `B`, `C` and the alias table is `x -> 0`,
`y -> 1`, so the alias `y`, registered by the directive that names `C`, points at
`B`: a call `y.f()` is built with library index 1 and with the return type of
the function of `B` (`float`; the one of `C` returns `bool`). The same drift
happens with a repeated library name: after `link "A"; link "A"; link "B";` the
list is `A`, `A`, `B` and the alias `B` points at index 1, which holds `A`. -/
theorem visitLink_alias_points_at_other_library :
    (∃ c1, visitProgram libraryEnv sampleLinks (compilerWith [] 0) = .ok c1 ∧
      c1._errors = [] ∧
      c1._ctx.script.linkedLibraries = ["A", "B", "C"] ∧
      c1._ctx.libraryAliases = [("x", 0), ("y", 1)] ∧
      c1._ctx.script.linkedLibraries[1]? = some "B" ∧
      visitFunctionCall libraryEnv (tok "y") (some (tok "y")) (tok "f") [] c1 =
        .ok (.AotExternalFunctionCall 1 "f()" (some floatType) [], c1)) ∧
    (∃ c2, visitProgram libraryEnv sampleRepeatedLinks (compilerWith [] 0) = .ok c2 ∧
      c2._errors = [] ∧
      c2._ctx.script.linkedLibraries = ["A", "A", "B"] ∧
      c2._ctx.libraryAliases = [("A", 0), ("B", 1)] ∧
      c2._ctx.script.linkedLibraries[1]? = some "A") :=
  ⟨⟨_, rfl, rfl, rfl, rfl, rfl, rfl⟩, ⟨_, rfl, rfl, rfl, rfl, rfl⟩⟩

/-- C19: when the parse and the walk of the tree finish in the state `c1`,
`compile` returns; it returns null exactly when the error list of `c1` is not
empty, and otherwise it returns the script of the context of `c1`. When the
walk does not finish, `compile` does not return. -/
theorem compile_null_iff_errors (env : Env) (parse : String → ParseResult) (script : String)
    (c : Compiler) :
    (∀ c1, walkProgram env parse script c = .ok c1 →
      ∃ r, compile env parse script c = .ok (r, c1) ∧
        (r = none ↔ c1._errors ≠ []) ∧
        (c1._errors = [] → r = some c1._ctx.script)) ∧
    (walkProgram env parse script c = .abort → compile env parse script c = .abort) := by
  refine ⟨?_, ?_⟩
  · intro c1 h
    cases he : c1._errors with
    | nil =>
      refine ⟨some c1._ctx.script, ?_, ?_, fun _ => rfl⟩
      · simp [compile, h, contextValid, he]
      · simp
    | cons e es =>
      refine ⟨none, ?_, ?_, ?_⟩
      · simp [compile, h, contextValid, he]
      · simp
      · intro h0
        cases h0
  · intro h
    simp [compile, h]

/-- Witness of C19: the text `int f(int a, float b) { return a; }` compiles
to a script with the one function `f(int,float)`, and the text `?`, which the
lexer rejects, compiles to null with one error in the list. -/
theorem compile_null_iff_errors_witness :
    (∃ r c1, compile nativeEnv sampleParse sampleTwoArgs.text (compilerWith [] 0) = .ok (r, c1) ∧
      (r = none ↔ c1._errors ≠ []) ∧ c1._errors = [] ∧
      c1._ctx.script.localFunctions.map (fun f => f.name) = ["f(int,float)"]) ∧
    (∃ r c1, compile nativeEnv sampleParse "?" (compilerWith [] 0) = .ok (r, c1) ∧
      (r = none ↔ c1._errors ≠ []) ∧ c1._errors = ["Unknown Token \"?\" on line 1:0"]) := by
  refine ⟨?_, ?_⟩
  · obtain ⟨r, h1, h2, _⟩ :=
      (compile_null_iff_errors nativeEnv sampleParse sampleTwoArgs.text (compilerWith [] 0)).1 _ rfl
    exact ⟨r, _, h1, h2, rfl, rfl⟩
  · obtain ⟨r, h1, h2, _⟩ :=
      (compile_null_iff_errors nativeEnv sampleParse "?" (compilerWith [] 0)).1 _ rfl
    exact ⟨r, _, h1, h2, rfl⟩

/-- The visitors that test the results of their children: a null result of the
first child visited makes `visitAssignment`, `visitAddsub` and `visitMuldiv`
return null, a null expression makes `visitReturnVal` return null, and a null
argument at the front of a call makes `visitFunctionCall` return null. -/
theorem checked_visitors_return_null (env : Env) (c c1 : Compiler) (e other : Expr) (op : Token)
    (h : visitExpr env e c = .ok (.null, c1)) :
    visitExpr env (.assignment other e) c = .ok (.null, c1) ∧
    visitExpr env (.addsub e op other) c = .ok (.null, c1) ∧
    visitExpr env (.muldiv e op other) c = .ok (.null, c1) ∧
    visitStmt env (.returnVal e) c = .ok (.null, c1) ∧
    (∀ start ns name rest, visitFunctionCall env start ns name (.null :: rest) c1 =
      .ok (.null, c1)) := by
  refine ⟨?_, ?_, ?_, ?_, ?_⟩
  · simp [visitExpr, h, AotNode.isNull]
  · simp [visitExpr, h, AotNode.isNull]
  · simp [visitExpr, h, AotNode.isNull]
  · simp [visitStmt, h, visitReturnVal, AotNode.isNull]
  · intro start ns name rest
    simp [visitFunctionCall, buildSignature, AotNode.isNull]

/-- C20, failing input: with `y` declared nowhere the visit of `y` returns null
(and records an error), yet `if (y) {}` is built as `If(null, Scope())`,
`while (y) {}` as `While(null, Scope())`, `y == 1` as
`Compare(Equal, null, 1)` and `(int)y` as `Cast(null, int)`, none of them null;
`delete y` dereferences the null result and does not return. -/
theorem unchecked_visitors_build_on_null :
    (∃ c1, visitExpr nativeEnv (.id (tok "y")) (compilerWith [] 0) = .ok (.null, c1) ∧
      visitStmt nativeEnv (.ifStmt (.id (tok "y")) (.scope [])) (compilerWith [] 0) =
        .ok (.AotIf .null (.AotScope []), c1) ∧
      visitStmt nativeEnv (.whileStmt (.id (tok "y")) (.scope [])) (compilerWith [] 0) =
        .ok (.AotWhile .null (.AotScope []), c1) ∧
      visitExpr nativeEnv (.comparison (.id (tok "y")) (tok "==") (.constInt (tok "1")))
          (compilerWith [] 0) =
        .ok (.AotCompareNode .Equal .null (.AotConst (.int32 1) (some intType)), c1) ∧
      visitExpr nativeEnv (.cast (tok "(") (.id (tok "y")) (tok "int")) (compilerWith [] 0) =
        .ok (.AotCastNode .null (some intType), c1)) ∧
    visitExpr nativeEnv (.delete (tok "delete") (.id (tok "y"))) (compilerWith [] 0) = .abort :=
  ⟨⟨_, rfl, rfl, rfl, rfl, rfl⟩, rfl⟩

/-! ## Errors and null nodes, state kept across functions and compilations -/

/-- The visitors that return null on each of their own errors: when
`visitId`, `visitMemberAccess`, `visitDeclaration` or `visitReturnVal` (on the
node its child has produced) changes the error list, the node it returns is
null. -/
theorem error_visitors_return_null (env : Env) (c c1 : Compiler) (n : AotNode) :
    (∀ t, visitExpr env (.id t) c = .ok (n, c1) → c1._errors ≠ c._errors → n.isNull = true) ∧
    (∀ base member, visitMemberAccess env base member c = .ok (n, c1) →
      c1._errors ≠ c._errors → n.isNull = true) ∧
    (∀ d, visitDeclaration env d c = .ok (n, c1) → c1._errors ≠ c._errors → n.isNull = true) ∧
    (∀ s e, visitReturnVal env s e c = .ok (n, c1) → c1._errors ≠ c._errors →
      n.isNull = true) := by
  refine ⟨?_, ?_, ?_, ?_⟩
  · intro t h he
    simp only [visitExpr] at h
    split at h
    · cases h
      rfl
    · cases h
      exact absurd rfl he
  · intro base member h he
    simp only [visitMemberAccess] at h
    split at h
    · cases h
      rfl
    · split at h
      · cases h
        rfl
      · split at h
        · cases h
          rfl
        · cases h
          exact absurd rfl he
  · intro d h he
    simp only [visitDeclaration] at h
    split at h
    · cases h
    · cases h
      rfl
    · split at h
      · cases h
        rfl
      · split at h
        · cases h
          rfl
        · split at h
          · cases h
          · rename_i i c2 hreg
            cases h
            obtain ⟨_, _, _, _, herr⟩ : True ∧ True ∧ True ∧ True ∧ c1._errors = c._errors := by
              simp only [registerLocalValue] at hreg
              split at hreg
              · cases hreg
              · split at hreg
                · cases hreg
                · split at hreg
                  · cases hreg
                  · cases hreg
                    exact ⟨trivial, trivial, trivial, trivial, rfl⟩
            exact absurd herr he
  · intro s e h he
    simp only [visitReturnVal] at h
    split at h
    · cases h
      rfl
    · split at h
      · cases h
      · split at h
        · cases h
          rfl
        · split at h
          · split at h
            · cases h
            · cases h
              exact absurd rfl he
          · cases h
            exact absurd rfl he

/-- C21, failing input: `new int` records the error "Type is not an object" and
still returns a node, `New(null)`, not null. With assertions compiled out,
`return;` likewise records "Void return statements not implemented" and returns
a `Return` node. -/
theorem visitNew_error_returns_node :
    (∃ c1, visitExpr nativeEnv (.new (tok "new") (tok "int")) (compilerWith [] 0) =
        .ok (.AotNewNode none, c1) ∧
      c1._errors = ["Compile Error at [1:0] Type is not an object: int"] ∧
      AotNode.isNull (.AotNewNode none) = false) ∧
    (∃ c2, visitStmt releaseEnv .returnVoid (compilerWith [] 0) = .ok (.AotReturnNode, c2) ∧
      c2._errors = ["Void return statements not implemented"] ∧
      AotNode.isNull .AotReturnNode = false) :=
  ⟨⟨_, rfl, rfl, rfl⟩, ⟨_, rfl, rfl, rfl⟩⟩

/-- C22, failing input: `int f(bool c) { { int x; } }`, which misses its return
statement, makes `visitFunction` return with the argument scope still on the
stack (`c` bound in it) and with the current function still the new one;
`foo f() { }`, whose return type is unknown, makes it return with the current
function still the new one. Before both calls the stack is empty and no
function is current. -/
theorem visitFunction_error_keeps_function_context :
    (compilerWith [] 0)._scopes = [] ∧ (compilerWith [] 0)._ctx.function = none ∧
    (∃ c1, visitFunction nativeEnv sampleNoReturn (compilerWith [] 0) = .ok c1 ∧
      c1._scopes = [⟨[("c", ⟨0, some boolType, false, false⟩)]⟩] ∧
      c1._ctx.function = some 0) ∧
    (∃ c2, visitFunction nativeEnv sampleUnknownReturn (compilerWith [] 0) = .ok c2 ∧
      c2._scopes = [] ∧ c2._ctx.function = some 0) :=
  ⟨rfl, rfl, ⟨_, rfl, rfl, rfl⟩, ⟨_, rfl, rfl, rfl⟩⟩

/-- C23, failing input: on a fresh compiler the text
`int f(int a, float b) { return a; }` compiles to a script; on a compiler that
has compiled the text `?` before, which the lexer rejects, the same text
compiles to null, because the error of the first run is still in the list. The local-index
counter is kept as well: it is 2 after the run on the fresh compiler. -/
theorem compile_keeps_state_of_earlier_run :
    ∃ c1 c2 script c3,
      compile nativeEnv sampleParse "?" (compilerWith [] 0) = .ok (none, c1) ∧
      compile nativeEnv sampleParse sampleTwoArgs.text c1 = .ok (none, c2) ∧
      compile nativeEnv sampleParse sampleTwoArgs.text (compilerWith [] 0) =
        .ok (some script, c3) ∧
      c2._errors = ["Unknown Token \"?\" on line 1:0"] ∧
      c3._lValueIDCount = 2 :=
  ⟨_, _, _, _, rfl, rfl, rfl, rfl, rfl⟩

/-- C25: `getType(n)` returns the private (locally declared) type registered
under `n` when there is one, whatever the linker knows under `n`; when there is
none it returns exactly `linker.getType(n)`, which may be null. -/
theorem getType_private_first (env : Env) (c : Compiler) (n : String) :
    (∀ t, c._privateTypes.lookup n = some t → getType env c n = .ok (some t)) ∧
    (∀ l, c._privateTypes.lookup n = none → env.linker = some l →
      getType env c n = .ok (l.getType n)) := by
  refine ⟨?_, ?_⟩
  · intro t h
    simp [getType, h]
  · intro l h hl
    simp [getType, h, hl]

/-- Witness of C25: with a struct declared locally under the name `int`,
`getType("int")` is that struct and not the native type of the linker, while
`getType("float")` is the answer of the linker. -/
theorem getType_private_first_witness :
    getType nativeEnv { compilerWith [] 0 with _privateTypes := [("int", objectType)] } "int" =
      .ok (some objectType) ∧
    getType nativeEnv { compilerWith [] 0 with _privateTypes := [("int", objectType)] } "float" =
      .ok (nativeLinker.getType "float") :=
  ⟨(getType_private_first nativeEnv
      { compilerWith [] 0 with _privateTypes := [("int", objectType)] } "int").1 objectType rfl,
    (getType_private_first nativeEnv
      { compilerWith [] 0 with _privateTypes := [("int", objectType)] } "float").2 nativeLinker
      rfl rfl⟩

/-- C28, failing input: `int f(int a, float a) { return a; }` is accepted
without any error: the argument loop registers both arguments (two registers,
two local indices), the scope keeps `a` bound to the first, `int`, declaration,
and the function is named `f(int,float)`. -/
theorem visitFunction_accepts_duplicate_arguments :
    (∃ c1, visitFunctionArguments nativeEnv sampleDuplicateArguments.arguments
        (visitFunctionBegin sampleDuplicateArguments (compilerWith [] 0)) = .ok (true, c1) ∧
      c1._errors = [] ∧
      c1._scopes = [⟨[("a", ⟨0, some intType, false, false⟩)]⟩] ∧
      getValueNode c1 "a" = .AotValueNode ⟨0, some intType, false, false⟩ ∧
      c1._lValueIDCount = 2 ∧ c1._ctx.regIndex = 2) ∧
    (∃ c2, visitFunction nativeEnv sampleDuplicateArguments (compilerWith [] 0) = .ok c2 ∧
      c2._errors = [] ∧
      c2._ctx.script.localFunctions.map (fun f => f.name) = ["f(int,float)"]) :=
  ⟨⟨_, rfl, rfl, rfl, rfl, rfl, rfl⟩, ⟨_, rfl, rfl, rfl⟩⟩

/-- C29: a declaration marked `ref` whose type resolves to a type that is not
an `ObjectRef` and whose name is not bound makes `visitDeclaration` append the
one error "Only types of struct can be marked as references", return null and
leave the scope stack and the local-index counter as they were; a declaration
whose type does not resolve makes it append the one error "Undefined type",
return null and leave both as they were. -/
theorem visitDeclaration_rejects (env : Env) (context : DeclarationContext) (c : Compiler) :
    (∀ (t : TypeDef) (r : Token), context.isRef = some r →
      getType env c context.type.text = .ok (some t) → t.type ≠ ValueType.ObjectRef →
      localValueExists c context.id.text = false →
      ∃ c1, visitDeclaration env context c = .ok (.null, c1) ∧
        c1._errors = c._errors ++ [errorText r.line r.charPositionInLine r.text
          "Only types of struct can be marked as references"] ∧
        c1._scopes = c._scopes ∧ c1._lValueIDCount = c._lValueIDCount) ∧
    (getType env c context.type.text = .ok none →
      ∃ c1, visitDeclaration env context c = .ok (.null, c1) ∧
        c1._errors = c._errors ++ [errorText context.type.line context.type.charPositionInLine
          context.type.text "Undefined type"] ∧
        c1._scopes = c._scopes ∧ c1._lValueIDCount = c._lValueIDCount) := by
  refine ⟨?_, ?_⟩
  · intro t r hr ht hno hex
    refine ⟨throwErrorToken r "Only types of struct can be marked as references" c, ?_, rfl, rfl,
      rfl⟩
    simp [visitDeclaration, ht, hex, hr, hno]
  · intro ht
    refine ⟨throwErrorToken context.type "Undefined type" c, ?_, rfl, rfl, rfl⟩
    simp [visitDeclaration, ht]

/-- Witness of C29: `ref int x;` in an empty scope is rejected with one error,
and so is `foo y;`. -/
theorem visitDeclaration_rejects_witness :
    (∃ c1, visitDeclaration nativeEnv ⟨tok "x", tok "int", none, some (tok "ref")⟩
        (compilerWith [⟨[]⟩] 0) = .ok (.null, c1) ∧
      c1._errors = [] ++ [errorText 1 0 "ref" "Only types of struct can be marked as references"] ∧
      c1._scopes = [⟨[]⟩] ∧ c1._lValueIDCount = 0) ∧
    (∃ c1, visitDeclaration nativeEnv ⟨tok "y", tok "foo", none, none⟩
        (compilerWith [⟨[]⟩] 0) = .ok (.null, c1) ∧
      c1._errors = [] ++ [errorText 1 0 "foo" "Undefined type"] ∧
      c1._scopes = [⟨[]⟩] ∧ c1._lValueIDCount = 0) :=
  ⟨(visitDeclaration_rejects nativeEnv ⟨tok "x", tok "int", none, some (tok "ref")⟩
      (compilerWith [⟨[]⟩] 0)).1 intType (tok "ref") rfl rfl (by decide) rfl,
    (visitDeclaration_rejects nativeEnv ⟨tok "y", tok "foo", none, none⟩
      (compilerWith [⟨[]⟩] 0)).2 rfl⟩

/-! ## Struct definitions -/

theorem lookup_append_new {β : Type} : ∀ (l : List (String × β)) (k : String) (v : β),
    l.lookup k = none → (l ++ [(k, v)]).lookup k = some v
  | [], k, v, _ => by simp [List.lookup]
  | (a, b) :: rest, k, v, h => by
    simp only [List.lookup] at h
    simp only [List.cons_append, List.lookup]
    split at h
    · cases h
    · rename_i hne
      exact lookup_append_new rest k v h

theorem forall₂_of_map_eq {α β γ : Type} (R : α → γ → Prop) (f : β → γ) :
    ∀ (l : List α) (u v : List β), u.map f = v.map f →
      List.Forall₂ (fun a b => R a (f b)) l u → List.Forall₂ (fun a b => R a (f b)) l v
  | _, [], [], _, h => h
  | _, [], _ :: _, h, _ => by simp at h
  | _, _ :: _, [], h, _ => by simp at h
  | _, x :: u, y :: v, h, hf => by
    simp only [List.map_cons, List.cons.injEq] at h
    cases hf with
    | cons h1 h2 => exact List.Forall₂.cons (h.1 ▸ h1) (forall₂_of_map_eq R f _ u v h.2 h2)

theorem visitStructMembers_resolved (env : Env) :
    ∀ (members : List DeclarationContext) (c : Compiler),
      (∀ d ∈ members, ∃ t, getType env c d.type.text = .ok (some t)) →
      ∃ ms, visitStructMembers env members c = .ok (ms, c) ∧
        ms.map (fun m => m.name) = members.map (fun d => d.id.text) ∧
        List.Forall₂ (fun d m => getType env c d.type.text = .ok (some m.type)) members ms ∧
        ∀ m ∈ ms, m.offset = 0
  | [], c, _ => ⟨[], rfl, rfl, List.Forall₂.nil, by simp⟩
  | d :: rest, c, h => by
    obtain ⟨t, ht⟩ := h d (List.mem_cons_self _ _)
    obtain ⟨ms, hms, hn, hf, ho⟩ :=
      visitStructMembers_resolved env rest c (fun x hx => h x (List.mem_cons_of_mem _ hx))
    refine ⟨⟨d.id.text, 0, t⟩ :: ms, ?_, ?_, List.Forall₂.cons ht hf, ?_⟩
    · simp only [visitStructMembers, ht, hms]
    · simp [hn]
    · intro m hm
      rcases List.mem_cons.mp hm with rfl | hm
      · rfl
      · exact ho m hm

theorem addMember_name (d : StructDef) (name : String) (type : TypeDef) :
    (addMember d name type).name = d.name := by
  unfold addMember
  split <;> rfl

theorem addMembers_name : ∀ (ms : List StructMember) (d : StructDef),
    (ms.foldl (fun d m => addMember d m.name m.type) d).name = d.name
  | [], _ => rfl
  | m :: rest, d => by
    simp only [List.foldl_cons]
    rw [addMembers_name rest, addMember_name]

theorem commitLayout_name (packed : Bool) (d : StructDef) :
    (commitLayout packed d).name = d.name := by
  unfold commitLayout
  split <;> rfl

theorem addMembers_distinct : ∀ (ms : List StructMember) (d : StructDef),
    (ms.map (fun m => m.name)).Nodup → (∀ m ∈ ms, ∀ x ∈ d.members, x.name ≠ m.name) →
    (ms.foldl (fun d m => addMember d m.name m.type) d).members =
      d.members ++ ms.map (fun m => ⟨m.name, 0, m.type⟩)
  | [], d, _, _ => by simp
  | m :: rest, d, hnd, hfresh => by
    simp only [List.map_cons, List.nodup_cons] at hnd
    have hadd : (addMember d m.name m.type).members = d.members ++ [⟨m.name, 0, m.type⟩] := by
      unfold addMember
      have : d.members.any (fun x => x.name == m.name) = false := by
        rw [List.any_eq_false]
        intro x hx
        simpa using hfresh m (List.mem_cons_self _ _) x hx
      simp [this]
    simp only [List.foldl_cons]
    rw [addMembers_distinct rest _ hnd.2, hadd]
    · simp
    · intro m1 hm1 x hx
      rw [hadd, List.mem_append, List.mem_singleton] at hx
      rcases hx with hx | rfl
      · exact hfresh m1 (List.mem_cons_of_mem _ hm1) x hx
      · intro heq
        exact hnd.1 (List.mem_map.mpr ⟨m1, hm1, heq.symm⟩)

theorem commitLayout_shape (packed : Bool) (d : StructDef) :
    (commitLayout packed d).members.map (fun m => (m.name, m.type)) =
      d.members.map (fun m => (m.name, m.type)) := by
  unfold commitLayout
  split
  · exact packLoop_shape _ _
  · exact padLoop_shape _ _

/-- C26, counterexample: visited while an error is already in the list (here
the one of `foo f() { }` before it), the definition
`struct S { char a; int b; float c; }`, whose member types all resolve,
appends nothing to `localStructs` and `getType("S")` stays null. And when a
struct `S` is declared already, the definition `packed struct S { int z; }`
appends its `IRStructDef`, yet `getType("S")` still returns the first `S`. -/
theorem visitStructDef_skipped_after_error :
    (∃ c0 c1, visitFunction nativeEnv sampleUnknownReturn (compilerWith [] 0) = .ok c0 ∧
      visitStructDef nativeEnv sampleStructContext c0 = .ok c1 ∧
      c1._ctx.script.localStructs = [] ∧ getType nativeEnv c1 "S" = .ok none) ∧
    (∃ c2 c3 first, visitStructDef nativeEnv sampleStructContext (compilerWith [] 0) = .ok c2 ∧
      visitStructDef nativeEnv sampleSecondStructContext c2 = .ok c3 ∧
      c3._ctx.script.localStructs.map (fun d => (d.name, d.packed, d.members.length)) =
        [("S", false, 3), ("S", true, 1)] ∧
      getType nativeEnv c3 "S" = .ok (some first) ∧
      TypeDef.size first = 12) :=
  ⟨⟨_, _, rfl, rfl, rfl, rfl⟩, ⟨_, _, _, rfl, rfl, rfl, rfl, rfl⟩⟩

/-- C26 as amended: for every struct definition whose member types all resolve,
visited while no error is recorded, `visitStructDef` appends exactly one
`IRStructDef` to `localStructs`, carrying the name of the struct, a packed flag
equal to the packed qualifier, and one member entry per member of the committed
`StructDef`, in its order, with the same name, the same offset and the name of
the member type; the committed `StructDef` has the declared members in
declaration order when their names are pairwise distinct. When no struct of
that name is declared before, `getType(name)` returns the new struct
afterwards. Visited while an error is recorded, such a definition makes
`visitStructDef` return with the state as it was: nothing is appended and
nothing is registered. -/
theorem visitStructDef_publishes (env : Env) (context : StructDefContext) (c : Compiler)
    (hres : ∀ d ∈ context.members, ∃ t, getType env c d.type.text = .ok (some t)) :
    (c._errors = [] → ∃ c1 ms newDef ir,
      visitStructMembers env context.members c = .ok (ms, c) ∧
      newDef = commitLayout context.packed.isSome
        (ms.foldl (fun d m => addMember d m.name m.type) ⟨context.id.text, [], 0⟩) ∧
      visitStructDef env context c = .ok c1 ∧
      c1._ctx.script.localStructs = c._ctx.script.localStructs ++ [ir] ∧
      ir.name = context.id.text ∧ ir.packed = context.packed.isSome ∧
      ir.members = newDef.members.map (fun m => ⟨m.name, m.offset, m.type.name⟩) ∧
      c1._ctx.localStructDefs = c._ctx.localStructDefs ++ [newDef.toTypeDef] ∧
      ((context.members.map (fun d => d.id.text)).Nodup →
        newDef.members.map (fun m => m.name) = context.members.map (fun d => d.id.text) ∧
        List.Forall₂ (fun d m => getType env c d.type.text = .ok (some m.type))
          context.members newDef.members) ∧
      (c._privateTypes.lookup context.id.text = none →
        getType env c1 context.id.text = .ok (some newDef.toTypeDef))) ∧
    (c._errors ≠ [] → visitStructDef env context c = .ok c) := by
  obtain ⟨ms, hms, hnames, hforall, _⟩ := visitStructMembers_resolved env context.members c hres
  refine ⟨?_, ?_⟩
  · intro herr
    have hvalid : contextValid c = true := by simp [contextValid, herr]
    have hname : (commitLayout context.packed.isSome
        (ms.foldl (fun d m => addMember d m.name m.type) ⟨context.id.text, [], 0⟩)).name =
        context.id.text := by
      rw [commitLayout_name, addMembers_name]
    cases hrun : visitStructDef env context c with
    | abort =>
      simp [visitStructDef, hms, hvalid] at hrun
    | ok c1 =>
      have hc1 := hrun
      simp only [visitStructDef, hms, hvalid, Bool.not_true, Bool.false_eq_true, if_false,
        Outcome.ok.injEq] at hc1
      have hpt : c1._privateTypes = insertPrivateType c._privateTypes
          (commitLayout context.packed.isSome
            (ms.foldl (fun d m => addMember d m.name m.type) ⟨context.id.text, [], 0⟩)).name
          (commitLayout context.packed.isSome
            (ms.foldl (fun d m => addMember d m.name m.type)
              ⟨context.id.text, [], 0⟩)).toTypeDef := by
        rw [← hc1]
      have hls : c1._ctx.script.localStructs = c._ctx.script.localStructs ++
          [⟨(commitLayout context.packed.isSome
              (ms.foldl (fun d m => addMember d m.name m.type) ⟨context.id.text, [], 0⟩)).name,
            context.packed.isSome,
            (commitLayout context.packed.isSome
              (ms.foldl (fun d m => addMember d m.name m.type)
                ⟨context.id.text, [], 0⟩)).members.map
              (fun m => ⟨m.name, m.offset, m.type.name⟩)⟩] := by
        rw [← hc1]
      have hsd : c1._ctx.localStructDefs = c._ctx.localStructDefs ++
          [(commitLayout context.packed.isSome
            (ms.foldl (fun d m => addMember d m.name m.type)
              ⟨context.id.text, [], 0⟩)).toTypeDef] := by
        rw [← hc1]
      refine ⟨c1, ms, _, _, hms, rfl, rfl, hls, hname, rfl, rfl, hsd, ?_, ?_⟩
      · intro hnd
        have hmembers : (ms.foldl (fun d m => addMember d m.name m.type)
            (⟨context.id.text, [], 0⟩ : StructDef)).members =
            ms.map (fun m => ⟨m.name, 0, m.type⟩) := by
          rw [addMembers_distinct ms _ (by rw [hnames]; exact hnd) (by intro m _ x hx; cases hx)]
          rfl
        have hshape := commitLayout_shape context.packed.isSome
          (ms.foldl (fun d m => addMember d m.name m.type) ⟨context.id.text, [], 0⟩)
        rw [hmembers, List.map_map] at hshape
        have hshape2 : (commitLayout context.packed.isSome
            (ms.foldl (fun d m => addMember d m.name m.type)
              ⟨context.id.text, [], 0⟩)).members.map
            (fun m => (m.name, m.type)) = ms.map (fun m => (m.name, m.type)) := hshape
        refine ⟨?_, ?_⟩
        · rw [← hnames]
          have := congrArg (List.map Prod.fst) hshape2
          simpa [List.map_map, Function.comp] using this
        · have htypes := congrArg (List.map Prod.snd) hshape2
          simp only [List.map_map] at htypes
          have hty : (commitLayout context.packed.isSome
              (ms.foldl (fun d m => addMember d m.name m.type)
                ⟨context.id.text, [], 0⟩)).members.map
              (fun m => m.type) = ms.map (fun m => m.type) := htypes
          exact forall₂_of_map_eq
            (fun (d : DeclarationContext) (t : TypeDef) => getType env c d.type.text = .ok (some t))
            (fun m : StructMember => m.type) _ _ _ hty.symm hforall
      · intro hnew
        simp only [getType, hpt, insertPrivateType, hname, hnew]
        rw [lookup_append_new _ _ _ hnew]
  · intro hne
    have hinvalid : contextValid c = false := by
      cases he : c._errors with
      | nil => exact absurd he hne
      | cons e es => simp [contextValid, he]
    simp only [visitStructDef, hms, hinvalid, Bool.not_false, if_true]

/-- Witness of the amended C26: `struct S { char a; int b; float c; }` on a
fresh compiler is published as `S`, not packed, with `a@0`, `b@4`, `c@8`, and
on a compiler that holds an error it leaves the state as it was. -/
theorem visitStructDef_publishes_witness :
    (∃ c1 ir, visitStructDef nativeEnv sampleStructContext (compilerWith [] 0) = .ok c1 ∧
      c1._ctx.script.localStructs = [] ++ [ir] ∧ ir.name = "S" ∧ ir.packed = false) ∧
    (∃ c1, visitStructDef nativeEnv sampleStructContext (compilerWith [] 0) = .ok c1 ∧
      c1._ctx.script.localStructs.map
          (fun d => (d.name, d.packed, d.members.map (fun m => (m.name, m.offset, m.type)))) =
        [("S", false, [("a", 0, "char"), ("b", 4, "int"), ("c", 8, "float")])]) ∧
    visitStructDef nativeEnv sampleStructContext
        (throwErrorMessage "earlier error" (compilerWith [] 0)) =
      .ok (throwErrorMessage "earlier error" (compilerWith [] 0)) := by
  have hres : ∀ (c : Compiler), c._privateTypes = [] → ∀ d ∈ sampleStructContext.members,
      ∃ t, getType nativeEnv c d.type.text = .ok (some t) := by
    intro c hc d hd
    simp only [sampleStructContext, List.mem_cons, List.mem_singleton, List.not_mem_nil,
      or_false] at hd
    rcases hd with rfl | rfl | rfl
    · exact ⟨charType, by simp only [getType, hc]; rfl⟩
    · exact ⟨intType, by simp only [getType, hc]; rfl⟩
    · exact ⟨floatType, by simp only [getType, hc]; rfl⟩
  obtain ⟨c1, ms, newDef, ir, _, _, h, hls, hn, hp, _⟩ :=
    (visitStructDef_publishes nativeEnv sampleStructContext (compilerWith [] 0)
      (hres _ rfl)).1 rfl
  exact ⟨⟨c1, ir, h, hls, hn, hp⟩, ⟨_, rfl, rfl⟩,
    (visitStructDef_publishes nativeEnv sampleStructContext
      (throwErrorMessage "earlier error" (compilerWith [] 0)) (hres _ rfl)).2 (by simp [throwErrorMessage])⟩

/-! ## Function arguments -/

theorem modifyCurrent_regIndex (c : Compiler) (g : ScriptFunction → ScriptFunction) :
    (modifyCurrent c g)._ctx.regIndex = c._ctx.regIndex := by
  unfold modifyCurrent
  split
  · rfl
  · split <;> rfl

theorem modifyCurrent_lValues (c : Compiler) (g : ScriptFunction → ScriptFunction) :
    (modifyCurrent c g)._ctx.lValues = c._ctx.lValues := by
  unfold modifyCurrent
  split
  · rfl
  · split <;> rfl

theorem registerLocalValue_bind (env : Env) (c : Compiler) (name type : String)
    (constant ref : Bool) (t : TypeDef) (base : List Scope) (top : Scope)
    (hty : getType env c type = .ok (some t)) (hs : c._scopes = base ++ [top]) :
    ∃ c1, registerLocalValue env c name type constant ref =
        .ok (c._lValueIDCount % 65536, c1) ∧
      c1._scopes = base ++
        [top.emplace name ⟨c._lValueIDCount % 65536, some t, constant, ref⟩] ∧
      c1._lValueIDCount = (c._lValueIDCount + 1) % 65536 ∧ c1._ctx = c._ctx ∧
      c1._privateTypes = c._privateTypes := by
  refine ⟨{ c with
    _lValueIDCount := (c._lValueIDCount + 1) % 65536
    _scopes := base ++ [top.emplace name ⟨c._lValueIDCount % 65536, some t, constant, ref⟩] },
    ?_, rfl, rfl, rfl, rfl⟩
  unfold registerLocalValue
  rw [hty]
  simp [hs]

theorem visitFunctionArgument_effect (env : Env) (a : DeclarationContext) (c : Compiler)
    (f : ScriptFunction) (t : TypeDef) (base : List Scope) (top : Scope)
    (hcur : currentFunction c = some f) (hty : getType env c a.type.text = .ok (some t))
    (hv : t.type ≠ ValueType.Void) (hs : c._scopes = base ++ [top]) :
    ∃ c1 f1, visitFunctionArgument env a c = .ok (true, c1) ∧
      currentFunction c1 = some f1 ∧ c1._privateTypes = c._privateTypes ∧
      c1._scopes = base ++
        [top.emplace a.id.text ⟨c._lValueIDCount % 65536, some t, false, false⟩] ∧
      c1._lValueIDCount = (c._lValueIDCount + 1) % 65536 ∧
      c1._ctx.lValues =
        insertLValue c._ctx.lValues c._lValueIDCount (regValue t 0 c._ctx.regIndex) ∧
      c1._ctx.regIndex = c._ctx.regIndex + 1 := by
  -- the state after the comma has been appended when one is due
  obtain ⟨c1, f1, hc1, hcur1, hsc1, hpt1, hcnt1, hreg1, hlv1⟩ :
      ∃ c1 f1,
        (if lastChar f.name ≠ some '(' then
          modifyCurrent c (fun f => { f with name := f.name ++ "," }) else c) = c1 ∧
        currentFunction c1 = some f1 ∧ c1._scopes = c._scopes ∧
        c1._privateTypes = c._privateTypes ∧ c1._lValueIDCount = c._lValueIDCount ∧
        c1._ctx.regIndex = c._ctx.regIndex ∧ c1._ctx.lValues = c._ctx.lValues := by
    by_cases hl : lastChar f.name ≠ some '('
    · exact ⟨modifyCurrent c (fun f => { f with name := f.name ++ "," }), _, by simp [hl],
        currentFunction_modifyCurrent _ _ _ hcur,
        modifyCurrent_scopes _ _, modifyCurrent_privateTypes _ _,
        modifyCurrent_lValueIDCount _ _, modifyCurrent_regIndex _ _, modifyCurrent_lValues _ _⟩
    · exact ⟨c, f, by simp [hl], hcur, rfl, rfl, rfl, rfl, rfl⟩
  have hty1 : getType env c1 a.type.text = .ok (some t) := by
    rw [getType_congr env c c1 hpt1]; exact hty
  have hty2 : getType env (modifyCurrent c1 (fun f => { f with
      name := f.name ++ a.type.text,
      arguments := f.arguments ++ [a.type.text] })) a.type.text = .ok (some t) := by
    rw [getType_congr env c1 _ (modifyCurrent_privateTypes _ _)]; exact hty1
  have hcur2 := currentFunction_modifyCurrent c1 (fun f => { f with
      name := f.name ++ a.type.text,
      arguments := f.arguments ++ [a.type.text] }) f1 hcur1
  have hnr := newReg_nonvoid (modifyCurrent c1 (fun f => { f with
      name := f.name ++ a.type.text,
      arguments := f.arguments ++ [a.type.text] }))._ctx t 0 hv
  have hnc := newReg_ctx (modifyCurrent c1 (fun f => { f with
      name := f.name ++ a.type.text,
      arguments := f.arguments ++ [a.type.text] }))._ctx (some t) 0
  obtain ⟨c4, hreg, hsc4, hcnt4, hctx4, hpt4⟩ := registerLocalValue_bind env
    ({ modifyCurrent c1 (fun f => { f with
          name := f.name ++ a.type.text,
          arguments := f.arguments ++ [a.type.text] }) with
        _ctx := { (newReg (modifyCurrent c1 (fun f => { f with
          name := f.name ++ a.type.text,
          arguments := f.arguments ++ [a.type.text] }))._ctx (some t) 0).2 with
          lValues := insertLValue (newReg (modifyCurrent c1 (fun f => { f with
            name := f.name ++ a.type.text,
            arguments := f.arguments ++ [a.type.text] }))._ctx (some t) 0).2.lValues
            (modifyCurrent c1 (fun f => { f with
              name := f.name ++ a.type.text,
              arguments := f.arguments ++ [a.type.text] }))._lValueIDCount
            (newReg (modifyCurrent c1 (fun f => { f with
              name := f.name ++ a.type.text,
              arguments := f.arguments ++ [a.type.text] }))._ctx (some t) 0).1 } })
    a.id.text a.type.text false false t base top
    (by rw [← hty2]; exact getType_congr env _ _ rfl _)
    (by show (modifyCurrent c1 _)._scopes = _; rw [modifyCurrent_scopes, hsc1]; exact hs)
  refine ⟨c4, { f1 with name := f1.name ++ a.type.text,
                        arguments := f1.arguments ++ [a.type.text] },
    ?_, ?_, ?_, ?_, ?_, ?_, ?_⟩
  · unfold visitFunctionArgument
    simp only [hcur, hc1, hty1, hty2, hreg]
  · have : currentFunction c4 = currentFunction (modifyCurrent c1 (fun f => { f with
        name := f.name ++ a.type.text,
        arguments := f.arguments ++ [a.type.text] })) :=
      currentFunction_congr _ c4 (by rw [hctx4]; exact hnc.2.1) (by rw [hctx4]; exact hnc.1)
    exact this.trans hcur2
  · rw [hpt4]
    show (modifyCurrent c1 _)._privateTypes = _
    rw [modifyCurrent_privateTypes, hpt1]
  · rw [hsc4]
    show base ++ [top.emplace a.id.text ⟨(modifyCurrent c1 _)._lValueIDCount % 65536, _, _, _⟩] = _
    rw [modifyCurrent_lValueIDCount, hcnt1]
  · rw [hcnt4]
    show ((modifyCurrent c1 _)._lValueIDCount + 1) % 65536 = _
    rw [modifyCurrent_lValueIDCount, hcnt1]
  · rw [hctx4]
    show insertLValue (newReg _ _ _).2.lValues (modifyCurrent c1 _)._lValueIDCount
      (newReg _ _ _).1 = _
    rw [hnr]
    show insertLValue (modifyCurrent c1 _)._ctx.lValues (modifyCurrent c1 _)._lValueIDCount
      (regValue t 0 (modifyCurrent c1 _)._ctx.regIndex) = _
    rw [modifyCurrent_lValues, modifyCurrent_lValueIDCount, modifyCurrent_regIndex, hlv1, hcnt1,
      hreg1]
  · rw [hctx4]
    show (newReg _ _ _).2.regIndex = _
    rw [hnr]
    show (modifyCurrent c1 _)._ctx.regIndex + 1 = _
    rw [modifyCurrent_regIndex, hreg1]

theorem visitFunctionArgument_bound (env : Env) (a : DeclarationContext) (c : Compiler)
    (f : ScriptFunction) (t : TypeDef) (k0 : Nat) (base : List Scope)
    (done : List (String × TypeDef)) (hcur : currentFunction c = some f)
    (hty : getType env c a.type.text = .ok (some t)) (hv : t.type ≠ ValueType.Void)
    (hI : ArgumentsBound k0 base done c) (hfresh : a.id.text ∉ done.map Prod.fst)
    (hlen : done.length < 65536) :
    ∃ c1 f1, visitFunctionArgument env a c = .ok (true, c1) ∧ currentFunction c1 = some f1 ∧
      c1._privateTypes = c._privateTypes ∧
      ArgumentsBound k0 base (done ++ [(a.id.text, t)]) c1 := by
  obtain ⟨top, hs, hbind, hnone, hkeys, hreg, hcnt⟩ := hI
  obtain ⟨c1, f1, hrun, hcur1, hpt1, hsc1, hcnt1, hlv1, hreg1⟩ :=
    visitFunctionArgument_effect env a c f t base top hcur hty hv hs
  have hcm : c._lValueIDCount % 65536 = (k0 + done.length) % 65536 := by
    rw [hcnt, Nat.mod_mod]
  have hfind : top.localValues.lookup a.id.text = none := hnone _ hfresh
  have hkey : c._ctx.lValues.lookup c._lValueIDCount = none := by
    apply hkeys
    intro j hj
    rw [hcnt]
    omega
  have hsc : c1._scopes = base ++ [⟨top.localValues ++
      [(a.id.text, ⟨(k0 + done.length) % 65536, some t, false, false⟩)]⟩] := by
    rw [hsc1, hcm]
    simp [Scope.emplace, Scope.find, hfind]
  have hlv : c1._ctx.lValues = c._ctx.lValues ++
      [((k0 + done.length) % 65536, regValue t 0 done.length)] := by
    rw [hlv1]
    unfold insertLValue
    rw [hkey]
    simp only [hcnt, hreg]
  refine ⟨c1, f1, hrun, hcur1, hpt1, ⟨_, hsc, ?_, ?_, ?_, ?_, ?_⟩⟩
  · intro j n t1 hj
    by_cases hlt : j < done.length
    · rw [List.getElem?_append_left hlt] at hj
      obtain ⟨h1, h2⟩ := hbind j n t1 hj
      constructor
      · show (top.localValues ++ _).lookup n = _
        rw [List.lookup_append]
        have h1b : top.localValues.lookup n = _ := h1
        rw [h1b]
        rfl
      · rw [hlv, List.lookup_append, h2]
        rfl
    · have hge : done.length ≤ j := Nat.le_of_not_lt hlt
      rw [List.getElem?_append_right hge] at hj
      have hj0 : j - done.length = 0 := by
        by_contra hne
        have : ([(a.id.text, t)] : List (String × TypeDef))[j - done.length]? = none := by
          apply List.getElem?_eq_none
          simp only [List.length_singleton]
          omega
        rw [this] at hj
        cases hj
      rw [hj0] at hj
      simp only [List.getElem?_cons_zero, Option.some.injEq, Prod.mk.injEq] at hj
      obtain ⟨rfl, rfl⟩ := hj
      have hjeq : j = done.length := by omega
      subst hjeq
      constructor
      · show (top.localValues ++ _).lookup a.id.text = _
        rw [List.lookup_append, hfind]
        simp [List.lookup]
      · rw [hlv, List.lookup_append]
        have : c._ctx.lValues.lookup ((k0 + done.length) % 65536) = none := by
          rw [← hcnt]; exact hkey
        rw [this]
        simp [List.lookup]
  · intro n hn
    simp only [List.map_append, List.map_cons, List.map_nil, List.mem_append,
      List.mem_singleton, not_or] at hn
    show (top.localValues ++ _).lookup n = none
    rw [List.lookup_append]
    have h1 : top.localValues.lookup n = none := hnone n hn.1
    rw [h1]
    have hb : (n == a.id.text) = false := by simpa using hn.2
    simp [List.lookup, hb]
  · intro k hk
    rw [hlv, List.lookup_append]
    have h1 : c._ctx.lValues.lookup k = none :=
      hkeys k (fun j hj => hk j (by simp only [List.length_append, List.length_singleton]; omega))
    rw [h1]
    have h2 : k ≠ (k0 + done.length) % 65536 :=
      hk done.length (by simp only [List.length_append, List.length_singleton]; omega)
    have hb : (k == (k0 + done.length) % 65536) = false := by simpa using h2
    simp [List.lookup, hb]
  · rw [hreg1, hreg]
    simp
  · rw [hcnt1, hcnt]
    simp only [List.length_append, List.length_singleton]
    omega

theorem visitFunctionArguments_bound (env : Env) (k0 : Nat) (base : List Scope) :
    ∀ (args : List DeclarationContext) (types : List TypeDef) (c : Compiler) (f : ScriptFunction)
      (done : List (String × TypeDef)),
      currentFunction c = some f → ArgumentsBound k0 base done c →
      List.Forall₂ (fun a t => getType env c a.type.text = .ok (some t) ∧
        t.type ≠ ValueType.Void) args types →
      ((done.map Prod.fst) ++ args.map (fun a => a.id.text)).Nodup →
      done.length + args.length ≤ 65536 →
      ∃ c1, visitFunctionArguments env args c = .ok (true, c1) ∧
        ArgumentsBound k0 base (done ++ (args.map (fun a => a.id.text)).zip types) c1
  | [], [], c, f, done, _, hI, _, _, _ => ⟨c, rfl, by simpa using hI⟩
  | a :: rest, t :: types, c, f, done, hcur, hI, hty, hnd, hlen => by
    cases hty with
    | cons h1 h2 =>
      have hfresh : a.id.text ∉ done.map Prod.fst := by
        intro hmem
        rw [List.nodup_append] at hnd
        exact hnd.2.2 hmem (by simp)
      obtain ⟨c1, f1, hrun, hcur1, hpt1, hI1⟩ :=
        visitFunctionArgument_bound env a c f t k0 base done hcur h1.1 h1.2 hI hfresh
          (by simp only [List.length_cons] at hlen; omega)
      have h2b : List.Forall₂ (fun a t => getType env c1 a.type.text = .ok (some t) ∧
          t.type ≠ ValueType.Void) rest types := by
        refine List.Forall₂.imp ?_ h2
        intro x y hxy
        rw [getType_congr env c c1 hpt1]
        exact hxy
      obtain ⟨c2, hrun2, hI2⟩ :=
        visitFunctionArguments_bound env k0 base rest types c1 f1 (done ++ [(a.id.text, t)])
          hcur1 hI1 h2b
          (by
            simp only [List.map_append, List.map_cons, List.map_nil, List.append_assoc,
              List.singleton_append]
            simpa using hnd)
          (by simp only [List.length_append, List.length_cons, List.length_nil] at hlen ⊢; omega)
      refine ⟨c2, ?_, ?_⟩
      · simp only [visitFunctionArguments, hrun, hrun2]
      · simpa [List.append_assoc] using hI2

theorem visitFunctionBegin_bound (ctx : FunctionContext) (c : Compiler)
    (hcount : c._lValueIDCount < 65536) :
    (∃ f, currentFunction (visitFunctionBegin ctx c) = some f) ∧
      (visitFunctionBegin ctx c)._privateTypes = c._privateTypes ∧
      ArgumentsBound c._lValueIDCount c._scopes [] (visitFunctionBegin ctx c) := by
  have hpush : currentFunction (pushFunction c) = some emptyFunction := by
    simp [currentFunction, pushFunction, setFunction]
  have h1 := currentFunction_modifyCurrent _ (fun f => { f with returnType := ctx.type.text })
    _ hpush
  have h2 := currentFunction_modifyCurrent _ (fun f => { f with name := ctx.id.text ++ "(" })
    _ h1
  have h3 : ∃ f, currentFunction (visitFunctionBegin ctx c) = some f := ⟨_, h2⟩
  refine ⟨h3, ?_, ⟨⟨[]⟩, ?_, ?_, ?_, ?_, ?_, ?_⟩⟩
  · show (modifyCurrent (modifyCurrent (pushFunction c) _) _)._privateTypes = _
    rw [modifyCurrent_privateTypes, modifyCurrent_privateTypes]
    rfl
  · show (modifyCurrent (modifyCurrent (pushFunction c) _) _)._scopes ++ _ = _
    rw [modifyCurrent_scopes, modifyCurrent_scopes]
    rfl
  · intro j n t h
    simp at h
  · intro n _
    rfl
  · intro k _
    show (modifyCurrent (modifyCurrent (pushFunction c) _) _)._ctx.lValues.lookup k = none
    rw [modifyCurrent_lValues, modifyCurrent_lValues]
    rfl
  · show (modifyCurrent (modifyCurrent (pushFunction c) _) _)._ctx.regIndex = _
    rw [modifyCurrent_regIndex, modifyCurrent_regIndex]
    rfl
  · show (modifyCurrent (modifyCurrent (pushFunction c) _) _)._lValueIDCount = _
    rw [modifyCurrent_lValueIDCount, modifyCurrent_lValueIDCount]
    show c._lValueIDCount = _
    simp only [List.length_nil, Nat.add_zero]
    exact (Nat.mod_eq_of_lt hcount).symm

/-- C27: for every function whose argument types all resolve (to types that
are not void) and whose argument names are pairwise distinct, the argument loop
of `visitFunction` runs to its end, and after it `getValueNode` of the `i`-th
argument name yields a value node of the `i`-th argument type whose local index
`k` is a key of `lValues`, and `lValues[k]` is the register value with index `i`
of that type, with `Reg` storage, or `Ptr` storage for an `ObjectRef` type. The
local-index counter is a `uint16_t` and there are at most 65536 arguments. -/
theorem visitFunction_binds_arguments (env : Env) (ctx : FunctionContext) (c : Compiler)
    (types : List TypeDef)
    (hargs : List.Forall₂ (fun a t => getType env c a.type.text = .ok (some t) ∧
      t.type ≠ ValueType.Void) ctx.arguments types)
    (hnames : (ctx.arguments.map (fun a => a.id.text)).Nodup)
    (hcount : c._lValueIDCount < 65536) (hlen : ctx.arguments.length ≤ 65536) :
    ∃ c3, visitFunctionArguments env ctx.arguments (visitFunctionBegin ctx c) = .ok (true, c3) ∧
      ∀ i a t, ctx.arguments[i]? = some a → types[i]? = some t →
        ∃ k, getValueNode c3 a.id.text = .AotValueNode ⟨k, some t, false, false⟩ ∧
          c3._ctx.lValues.lookup k =
            some ⟨some t, 0,
              ⟨i, t.type, if t.type ≠ ValueType.ObjectRef then .Reg else .Ptr⟩, .NoRes⟩ := by
  obtain ⟨⟨f, hcur⟩, hpt, hI⟩ := visitFunctionBegin_bound ctx c hcount
  have hargs1 : List.Forall₂ (fun a t =>
      getType env (visitFunctionBegin ctx c) a.type.text = .ok (some t) ∧
      t.type ≠ ValueType.Void) ctx.arguments types := by
    refine List.Forall₂.imp ?_ hargs
    intro x y hxy
    rw [getType_congr env c _ hpt]
    exact hxy
  obtain ⟨c3, hrun, top, hs, hbind, _⟩ :=
    visitFunctionArguments_bound env c._lValueIDCount c._scopes ctx.arguments types
      (visitFunctionBegin ctx c) f [] hcur hI hargs1 (by simpa using hnames) (by simpa using hlen)
  refine ⟨c3, hrun, ?_⟩
  intro i a t ha ht
  have hz : ([] ++ (ctx.arguments.map (fun a => a.id.text)).zip types)[i]? =
      some (a.id.text, t) := by
    simp only [List.nil_append]
    rw [List.getElem?_zip_eq_some]
    exact ⟨by rw [List.getElem?_map, ha]; rfl, ht⟩
  obtain ⟨h1, h2⟩ := hbind i a.id.text t hz
  refine ⟨(c._lValueIDCount + i) % 65536, ?_, h2⟩
  unfold getValueNode
  rw [hs]
  simp only [List.reverse_append, List.reverse_cons, List.reverse_nil, List.nil_append,
    List.singleton_append, getValueNodeLoop, h1]

/-- Witness of C27: after the argument loop of `int f(int a, float b)` the
names `a` and `b` are bound as the claim says. -/
theorem visitFunction_binds_arguments_witness :
    ∃ c3, visitFunctionArguments nativeEnv sampleTwoArgs.arguments
        (visitFunctionBegin sampleTwoArgs (compilerWith [] 0)) = .ok (true, c3) ∧
      ∀ i a t, sampleTwoArgs.arguments[i]? = some a → [intType, floatType][i]? = some t →
        ∃ k, getValueNode c3 a.id.text = .AotValueNode ⟨k, some t, false, false⟩ ∧
          c3._ctx.lValues.lookup k =
            some ⟨some t, 0,
              ⟨i, t.type, if t.type ≠ ValueType.ObjectRef then .Reg else .Ptr⟩, .NoRes⟩ :=
  visitFunction_binds_arguments nativeEnv sampleTwoArgs (compilerWith [] 0) [intType, floatType]
    (List.Forall₂.cons ⟨rfl, by decide⟩ (List.Forall₂.cons ⟨rfl, by decide⟩ List.Forall₂.nil))
    (by decide) (by decide) (by decide)

/-! ## Line comments -/

theorem commentTail_stops : ∀ (pre : List Char) (ch : Char) (rest : List Char),
    (∀ x ∈ pre, isCommentEnd x = false) → isCommentEnd ch = true →
      commentTail (pre ++ ch :: rest) = some (pre.length + 1)
  | [], ch, rest, _, hch => by simp [commentTail, hch]
  | x :: pre, ch, rest, hpre, hch => by
    have hx : isCommentEnd x = false := hpre x (List.mem_cons_self _ _)
    have ih := commentTail_stops pre ch rest (fun y hy => hpre y (List.mem_cons_of_mem _ hy)) hch
    simp [commentTail, hx, ih]

/-- C30, failing input: in the text `// a (b) OF E` followed by a line feed the
rule `COMMENT` matches `// a (` and stops there, so `b) OF E` and the line feed
are left to be read as tokens; in `// ENTRY` it matches `// E`. A line comment
without such characters is matched up to and including its line feed, and one
that runs to the end of the text without any of them is not matched at all. -/
theorem matchComment_ends_at_parenthesis :
    skipComment "// a (b) OF E\n" = some ("// a (", "b) OF E\n") ∧
    skipComment "// ENTRY\nint" = some ("// E", "NTRY\nint") ∧
    skipComment "// a b\nint" = some ("// a b\n", "int") ∧
    skipComment "// a b" = none := by
  decide

/-! ## Injectivity of the name mangling -/

theorem visitFunctionArgument_named (env : Env) (name0 : String) (argument : DeclarationContext)
    (c : Compiler) (f : ScriptFunction) (done : List String) (t : TypeDef)
    (hcur : currentFunction c = some f) (hm : Mangled name0 done f)
    (hsc : c._scopes ≠ []) (hty : getType env c argument.type.text = .ok (some t))
    (hne : argument.type.text.toList ≠ [])
    (hlp : lastChar argument.type.text ≠ some '(') :
    ∃ c1 f1, visitFunctionArgument env argument c = .ok (true, c1) ∧
      currentFunction c1 = some f1 ∧ Mangled name0 (done ++ [argument.type.text]) f1 ∧
      f1.returnType = f.returnType ∧ c1._scopes ≠ [] ∧ c1._privateTypes = c._privateTypes ∧
      c1._ctx.function = c._ctx.function ∧ c1._errors = c._errors ∧
      c1._ctx.returnCalled = c._ctx.returnCalled ∧
      c1._ctx.script.localFunctions.length = c._ctx.script.localFunctions.length := by
  obtain ⟨hname, hargs, hlast⟩ := hm
  -- the state after the comma has been appended when one is due
  obtain ⟨c1, f1, hc1, hcur1, hname1, hargs1, hret1, hsc1, hpt1, hfn1, herr1, hrc1, hlen1⟩ :
      ∃ c1 f1,
        (if lastChar f.name ≠ some '(' then
          modifyCurrent c (fun f => { f with name := f.name ++ "," }) else c) = c1 ∧
        currentFunction c1 = some f1 ∧
        f1.name ++ argument.type.text =
          name0 ++ "(" ++ ",".intercalate (done ++ [argument.type.text]) ∧
        f1.arguments = done ∧ f1.returnType = f.returnType ∧ c1._scopes = c._scopes ∧
        c1._privateTypes = c._privateTypes ∧ c1._ctx.function = c._ctx.function ∧
        c1._errors = c._errors ∧ c1._ctx.returnCalled = c._ctx.returnCalled ∧
        c1._ctx.script.localFunctions.length = c._ctx.script.localFunctions.length := by
    cases hd : done with
    | nil =>
      have hl : lastChar f.name = some '(' := hlast.mpr hd
      refine ⟨c, f, by simp [hl], hcur, ?_, by rw [hargs, hd], rfl, rfl, rfl, rfl, rfl, rfl, rfl⟩
      rw [hname, hd, intercalate_nil_append]
      simp [String.intercalate]
    | cons a l =>
      have hl : lastChar f.name ≠ some '(' := fun h => by
        have := hlast.mp h
        rw [hd] at this
        cases this
      refine ⟨modifyCurrent c (fun f => { f with name := f.name ++ "," }), _, by simp [hl],
        currentFunction_modifyCurrent _ _ _ hcur, ?_, by rw [hargs, hd], rfl,
        modifyCurrent_scopes _ _, modifyCurrent_privateTypes _ _, modifyCurrent_function _ _,
        modifyCurrent_errors _ _, modifyCurrent_returnCalled _ _, modifyCurrent_length _ _⟩
      show f.name ++ "," ++ argument.type.text = _
      rw [hname, hd, intercalate_cons_append]
      simp only [String.append_assoc]
  have hty1 : getType env c1 argument.type.text = .ok (some t) := by
    rw [getType_congr env c c1 hpt1]; exact hty
  have hty2 : getType env (modifyCurrent c1 (fun f => { f with
      name := f.name ++ argument.type.text,
      arguments := f.arguments ++ [argument.type.text] })) argument.type.text = .ok (some t) := by
    rw [getType_congr env c1 _ (modifyCurrent_privateTypes _ _)]; exact hty1
  have hcur2 := currentFunction_modifyCurrent c1 (fun f => { f with
      name := f.name ++ argument.type.text,
      arguments := f.arguments ++ [argument.type.text] }) f1 hcur1
  have hnr := newReg_ctx (modifyCurrent c1 (fun f => { f with
      name := f.name ++ argument.type.text,
      arguments := f.arguments ++ [argument.type.text] }))._ctx (some t) 0
  obtain ⟨i, c4, hreg, hsc4, hctx4, hpt4, herr4⟩ := registerLocalValue_ok env
    ({ modifyCurrent c1 (fun f => { f with
          name := f.name ++ argument.type.text,
          arguments := f.arguments ++ [argument.type.text] }) with
        _ctx := { (newReg (modifyCurrent c1 (fun f => { f with
          name := f.name ++ argument.type.text,
          arguments := f.arguments ++ [argument.type.text] }))._ctx (some t) 0).2 with
          lValues := insertLValue (newReg (modifyCurrent c1 (fun f => { f with
            name := f.name ++ argument.type.text,
            arguments := f.arguments ++ [argument.type.text] }))._ctx (some t) 0).2.lValues
            (modifyCurrent c1 (fun f => { f with
              name := f.name ++ argument.type.text,
              arguments := f.arguments ++ [argument.type.text] }))._lValueIDCount
            (newReg (modifyCurrent c1 (fun f => { f with
              name := f.name ++ argument.type.text,
              arguments := f.arguments ++ [argument.type.text] }))._ctx (some t) 0).1 } })
    argument.id.text argument.type.text false false t
    (by rw [← hty2]; exact getType_congr env _ _ rfl _)
    (by show (modifyCurrent c1 _)._scopes ≠ []; rw [modifyCurrent_scopes, hsc1]; exact hsc)
  refine ⟨c4, { f1 with name := f1.name ++ argument.type.text,
                        arguments := f1.arguments ++ [argument.type.text] },
    ?_, ?_, ⟨hname1, ?_, ?_⟩, hret1, hsc4, ?_, ?_, ?_, ?_, ?_⟩
  · unfold visitFunctionArgument
    simp only [hcur, hc1, hty1, hty2, hreg]
  · have hcur4 : currentFunction c4 = currentFunction (modifyCurrent c1 (fun f => { f with
        name := f.name ++ argument.type.text,
        arguments := f.arguments ++ [argument.type.text] })) :=
      currentFunction_congr _ c4 (by rw [hctx4]; exact hnr.2.1) (by rw [hctx4]; exact hnr.1)
    rw [hcur4]
    exact hcur2
  · show f1.arguments ++ [argument.type.text] = _
    rw [hargs1]
  · show lastChar (f1.name ++ argument.type.text) = some '(' ↔ _
    rw [lastChar_append _ _ hne]
    constructor
    · intro h; exact absurd h hlp
    · intro h; simp at h
  · rw [hpt4]; show (modifyCurrent c1 _)._privateTypes = _
    rw [modifyCurrent_privateTypes, hpt1]
  · rw [hctx4]; show (newReg _ _ _).2.function = _
    rw [hnr.2.1, modifyCurrent_function, hfn1]
  · rw [herr4]; show (modifyCurrent c1 _)._errors = _
    rw [modifyCurrent_errors, herr1]
  · rw [hctx4]; show (newReg _ _ _).2.returnCalled = _
    rw [hnr.2.2, modifyCurrent_returnCalled, hrc1]
  · rw [hctx4]; show (newReg _ _ _).2.script.localFunctions.length = _
    rw [hnr.1, modifyCurrent_length, hlen1]

theorem visitFunctionArguments_named (env : Env) (name0 : String) :
    ∀ (args : List DeclarationContext) (c : Compiler) (f : ScriptFunction) (done : List String),
      currentFunction c = some f → Mangled name0 done f → c._scopes ≠ [] →
      (∀ a ∈ args, ∃ t, getType env c a.type.text = .ok (some t)) →
      (∀ a ∈ args, a.type.text.toList ≠ [] ∧ lastChar a.type.text ≠ some '(') →
      ∃ c1 f1, visitFunctionArguments env args c = .ok (true, c1) ∧
        currentFunction c1 = some f1 ∧
        Mangled name0 (done ++ args.map (fun a => a.type.text)) f1 ∧
        f1.returnType = f.returnType ∧ c1._privateTypes = c._privateTypes ∧
        c1._ctx.function = c._ctx.function ∧ c1._errors = c._errors ∧
        c1._ctx.returnCalled = c._ctx.returnCalled ∧
        c1._ctx.script.localFunctions.length = c._ctx.script.localFunctions.length
  | [], c, f, done, hcur, hm, _, _, _ => by
    refine ⟨c, f, rfl, hcur, ?_, rfl, rfl, rfl, rfl, rfl, rfl⟩
    simpa using hm
  | a :: rest, c, f, done, hcur, hm, hsc, hty, hid => by
    obtain ⟨t, ht⟩ := hty a (List.mem_cons_self _ _)
    obtain ⟨c1, f1, hstep, hcur1, hm1, hret1, hsc1, hpt1, hfn1, herr1, hrc1, hlen1⟩ :=
      visitFunctionArgument_named env name0 a c f done t hcur hm hsc ht
        (hid a (List.mem_cons_self _ _)).1 (hid a (List.mem_cons_self _ _)).2
    obtain ⟨c2, f2, hloop, hcur2, hm2, hret2, hpt2, hfn2, herr2, hrc2, hlen2⟩ :=
      visitFunctionArguments_named env name0 rest c1 f1 (done ++ [a.type.text]) hcur1 hm1 hsc1
        (fun b hb => by
          obtain ⟨tb, htb⟩ := hty b (List.mem_cons_of_mem _ hb)
          exact ⟨tb, by rw [getType_congr env c c1 hpt1]; exact htb⟩)
        (fun b hb => hid b (List.mem_cons_of_mem _ hb))
    refine ⟨c2, f2, ?_, hcur2, ?_, hret2.trans hret1, hpt2.trans hpt1, hfn2.trans hfn1,
      herr2.trans herr1, hrc2.trans hrc1, hlen2.trans hlen1⟩
    · simp only [visitFunctionArguments, hstep]
      exact hloop
    · simpa [List.append_assoc] using hm2

theorem visitFunction_names_function (env : Env) (ctx : FunctionContext) (c : Compiler)
    (rt : Option TypeDef) (hret : getType env c ctx.type.text = .ok rt)
    (hvoid : rt.isNone = true → ctx.type.text = "void")
    (hargs : ∀ a ∈ ctx.arguments, ∃ t, getType env c a.type.text = .ok (some t))
    (hid : ∀ a ∈ ctx.arguments, a.type.text.toList ≠ [] ∧ lastChar a.type.text ≠ some '(') :
    ∃ c3 f3, visitFunctionArguments env ctx.arguments (visitFunctionBegin ctx c) = .ok (true, c3) ∧
      currentFunction c3 = some f3 ∧
      Mangled ctx.id.text (ctx.arguments.map (fun a => a.type.text)) f3 ∧
      c3._ctx.function = some c._ctx.script.localFunctions.length ∧
      visitFunction env ctx c = visitFunctionBody env ctx c._ctx.function
        (modifyCurrent c3 (fun f => { f with name := f.name ++ ")" })) := by
  -- the state at the head of the argument loop
  have hpush : currentFunction (pushFunction c) = some emptyFunction := by
    simp [currentFunction, pushFunction, setFunction]
  have hcur0 := currentFunction_modifyCurrent _
    (fun f => { f with name := ctx.id.text ++ "(" }) _
    (currentFunction_modifyCurrent (pushFunction c)
      (fun f => { f with returnType := ctx.type.text }) _ hpush)
  have hpt0 : (visitFunctionBegin ctx c)._privateTypes = c._privateTypes := by
    show (modifyCurrent (modifyCurrent (pushFunction c) _) _)._privateTypes = _
    rw [modifyCurrent_privateTypes, modifyCurrent_privateTypes]
    rfl
  have hfn0 : (visitFunctionBegin ctx c)._ctx.function =
      some c._ctx.script.localFunctions.length := by
    show (modifyCurrent (modifyCurrent (pushFunction c) _) _)._ctx.function = _
    rw [modifyCurrent_function, modifyCurrent_function]
    rfl
  have hsc0 : (visitFunctionBegin ctx c)._scopes ≠ [] := by
    show (modifyCurrent (modifyCurrent (pushFunction c) _) _)._scopes ++ [_] ≠ []
    simp
  have hm0 : Mangled ctx.id.text [] { { emptyFunction with returnType := ctx.type.text } with
      name := ctx.id.text ++ "(" } := by
    refine ⟨by simp [String.intercalate], rfl, ?_⟩
    simp [lastChar_open]
  obtain ⟨c3, f3, hloop, hcur3, hm3, _, _, hfn3, _, _, _⟩ :=
    visitFunctionArguments_named env ctx.id.text ctx.arguments (visitFunctionBegin ctx c) _ []
      (by exact hcur0) hm0 hsc0
      (fun a ha => by
        obtain ⟨t, ht⟩ := hargs a ha
        exact ⟨t, by rw [getType_congr env c _ hpt0]; exact ht⟩)
      hid
  have hret1 : getType env (modifyCurrent (pushFunction c)
      (fun f => { f with returnType := ctx.type.text })) ctx.type.text = .ok rt := by
    rw [getType_congr env c _ (by rw [modifyCurrent_privateTypes]; rfl)]
    exact hret
  refine ⟨c3, f3, hloop, hcur3, by simpa using hm3, by rw [hfn3, hfn0], ?_⟩
  cases rt with
  | some t =>
    simp only [visitFunction, hret1, hloop, Option.isNone_some, Bool.false_and,
      Bool.false_eq_true, if_false]
  | none =>
    have hcond : decide (ctx.type.text ≠ "void") = false := by simp [hvoid rfl]
    simp only [visitFunction, hret1, hloop, Option.isNone_none, Bool.true_and, hcond,
      Bool.false_eq_true, if_false]

theorem visitFunction_final_name (env : Env) (ctx : FunctionContext) (c c2 : Compiler)
    (rt : Option TypeDef) (hret : getType env c ctx.type.text = .ok rt)
    (hvoid : rt.isNone = true → ctx.type.text = "void")
    (hargs : ∀ a ∈ ctx.arguments, ∃ t, getType env c a.type.text = .ok (some t))
    (hid : ∀ a ∈ ctx.arguments, a.type.text.toList ≠ [] ∧ lastChar a.type.text ≠ some '(')
    (hrun : visitFunction env ctx c = .ok c2) :
    ∃ f2, c2._ctx.script.localFunctions[c._ctx.script.localFunctions.length]? = some f2 ∧
      f2.name = ctx.id.text ++ "(" ++
        ",".intercalate (ctx.arguments.map (fun a => a.type.text)) ++ ")" ∧
      f2.arguments = ctx.arguments.map (fun a => a.type.text) := by
  obtain ⟨c3, f3, _, hcur3, hm3, hfn3, hbody⟩ :=
    visitFunction_names_function env ctx c rt hret hvoid hargs hid
  have hcur4 := currentFunction_modifyCurrent c3 (fun f => { f with name := f.name ++ ")" })
    f3 hcur3
  have hfn4 : (modifyCurrent c3 (fun f => { f with name := f.name ++ ")" }))._ctx.function =
      some c._ctx.script.localFunctions.length := by
    rw [modifyCurrent_function, hfn3]
  rw [hbody] at hrun
  have hsig := visitFunctionBody_signatures env ctx _ _ c2 hrun
  have hget : (modifyCurrent c3
      (fun f => { f with name := f.name ++ ")" }))._ctx.script.localFunctions[
        c._ctx.script.localFunctions.length]? = some { f3 with name := f3.name ++ ")" } := by
    have := hcur4
    unfold currentFunction at this
    rw [hfn4] at this
    exact this
  have hmap : (c2._ctx.script.localFunctions.map signatureOf)[
      c._ctx.script.localFunctions.length]? =
      some (signatureOf { f3 with name := f3.name ++ ")" }) := by
    rw [hsig, List.getElem?_map, hget]
    rfl
  rw [List.getElem?_map] at hmap
  cases hc : c2._ctx.script.localFunctions[c._ctx.script.localFunctions.length]? with
  | none => rw [hc] at hmap; cases hmap
  | some f2 =>
    rw [hc] at hmap
    simp only [Option.map_some', Option.some.injEq, signatureOf, Prod.mk.injEq] at hmap
    refine ⟨f2, rfl, ?_, ?_⟩
    · rw [hmap.1]
      show f3.name ++ ")" = _
      rw [hm3.1]
    · rw [hmap.2.2]
      show f3.arguments = _
      rw [hm3.2.1]

theorem buildSignature_args (env : Env) (start : Token) :
    ∀ (args : List AotNode) (fn built : String) (c c1 : Compiler),
      buildSignature env start args fn c = (some built, c1) →
      ∀ a ∈ args, a.isNull = false ∧ ∃ t, a.resType env = some t
  | [], _, _, _, _, _ => by simp
  | a :: rest, fn, built, c, c1, h => by
    simp only [buildSignature] at h
    split at h
    · cases h
    · rename_i hnull
      split at h
      · cases h
      · rename_i t ht
        have ha : a.isNull = false ∧ ∃ t, a.resType env = some t :=
          ⟨by simpa using hnull, t, ht⟩
        intro b hb
        rcases List.mem_cons.mp hb with rfl | hb
        · exact ha
        · split at h
          · exact buildSignature_args env start rest _ built c c1 h b hb
          · exact buildSignature_args env start rest _ built c c1 h b hb

theorem buildSignature_named (env : Env) (start : Token) (name0 : String) (c : Compiler) :
    ∀ (args : List AotNode) (fn : String) (done : List String),
      fn = name0 ++ "(" ++ ",".intercalate done → (lastChar fn = some '(' ↔ done = []) →
      (∀ a ∈ args, a.isNull = false ∧
        ∃ t, a.resType env = some t ∧ t.name.toList ≠ [] ∧ lastChar t.name ≠ some '(') →
      buildSignature env start args fn c =
        (some (name0 ++ "(" ++ ",".intercalate (done ++ args.map (argTypeName env))), c)
  | [], fn, done, hfn, _, _ => by
    simp [buildSignature, hfn]
  | a :: rest, fn, done, hfn, hlast, hargs => by
    obtain ⟨hnull, t, ht, hne, hlp⟩ := hargs a (List.mem_cons_self _ _)
    have hname : argTypeName env a = t.name := by simp [argTypeName, ht]
    have hrest : ∀ b ∈ rest, b.isNull = false ∧
        ∃ t, b.resType env = some t ∧ t.name.toList ≠ [] ∧ lastChar t.name ≠ some '(' :=
      fun b hb => hargs b (List.mem_cons_of_mem _ hb)
    have hlast1 : ∀ (x : String), lastChar (x ++ t.name) = some '(' ↔ done ++ [t.name] = [] := by
      intro x
      rw [lastChar_append _ _ hne]
      constructor
      · intro h; exact absurd h hlp
      · intro h; simp at h
    simp only [buildSignature, hnull, ht, Bool.false_eq_true, if_false]
    cases hd : done with
    | nil =>
      have hl : lastChar fn = some '(' := hlast.mpr hd
      simp only [hl, ne_eq, not_true_eq_false, if_false]
      rw [buildSignature_named env start name0 c rest (fn ++ t.name) (done ++ [t.name])
        (by rw [hfn, hd, intercalate_nil_append]; simp [String.intercalate]) (hlast1 _) hrest]
      simp [hd, hname]
    | cons d ds =>
      have hl : lastChar fn ≠ some '(' := fun h => by
        have := hlast.mp h
        rw [hd] at this
        cases this
      simp only [hl, ne_eq, not_false_eq_true, if_true]
      rw [buildSignature_named env start name0 c rest (fn ++ "," ++ t.name) (done ++ [t.name])
        (by rw [hfn, hd, intercalate_cons_append]; simp only [String.append_assoc])
        (hlast1 _) hrest]
      simp [hd, hname]


theorem wellFormedName_chars (s : String) (h : wellFormedName s = true) :
    s.toList ≠ [] ∧ '(' ∉ s.toList ∧ ',' ∉ s.toList ∧ ')' ∉ s.toList := by
  unfold wellFormedName at h
  simp only [Bool.and_eq_true, Bool.not_eq_true', List.all_eq_true, bne_iff_ne, ne_eq] at h
  obtain ⟨hne, hall⟩ := h
  refine ⟨?_, ?_, ?_, ?_⟩
  · intro hn
    rw [hn] at hne
    cases hne
  · intro hm
    exact (hall _ hm).1.1 rfl
  · intro hm
    exact (hall _ hm).1.2 rfl
  · intro hm
    exact (hall _ hm).2 rfl

theorem wellFormedName_lastChar (s : String) (h : wellFormedName s = true) :
    lastChar s ≠ some '(' := by
  intro hl
  exact (wellFormedName_chars s h).2.1 (List.mem_of_getLast?_eq_some hl)

theorem append_cons_split (ch : Char) : ∀ (a b x y : List Char), ch ∉ a → ch ∉ b →
    a ++ ch :: x = b ++ ch :: y → a = b ∧ x = y
  | [], [], x, y, _, _, h => by simpa using h
  | [], d :: b, x, y, _, hb, h => by
    simp only [List.nil_append, List.cons_append, List.cons.injEq] at h
    exact absurd (h.1 ▸ List.mem_cons_self d b) hb
  | d :: a, [], x, y, ha, _, h => by
    simp only [List.nil_append, List.cons_append, List.cons.injEq] at h
    exact absurd (h.1 ▸ List.mem_cons_self d a) ha
  | d :: a, e :: b, x, y, ha, hb, h => by
    simp only [List.cons_append, List.cons.injEq] at h
    obtain ⟨h1, h2⟩ := append_cons_split ch a b x y
      (fun m => ha (List.mem_cons_of_mem _ m)) (fun m => hb (List.mem_cons_of_mem _ m)) h.2
    exact ⟨by rw [h.1, h1], h2⟩

theorem intercalate_go_acc (sep : String) : ∀ (l : List String) (acc : String),
    String.intercalate.go acc sep l = acc ++ String.intercalate.go "" sep l
  | [], acc => by simp [String.intercalate.go]
  | a :: rest, acc => by
    simp only [String.intercalate.go]
    rw [intercalate_go_acc sep rest (acc ++ sep ++ a),
      intercalate_go_acc sep rest ("" ++ sep ++ a)]
    simp [String.append_assoc]

theorem intercalate_cons_cons (sep a b : String) (rest : List String) :
    sep.intercalate (a :: b :: rest) = a ++ sep ++ sep.intercalate (b :: rest) := by
  simp only [String.intercalate, String.intercalate.go]
  rw [intercalate_go_acc sep rest (a ++ sep ++ b), intercalate_go_acc sep rest b]
  simp [String.append_assoc]

theorem intercalate_injective : ∀ (l1 l2 : List String),
    (∀ t ∈ l1, wellFormedName t = true) → (∀ t ∈ l2, wellFormedName t = true) →
    ",".intercalate l1 = ",".intercalate l2 → l1 = l2
  | [], [], _, _, _ => rfl
  | [], b :: r2, _, h2, h => by
    have hne := intercalate_ne_nil "," (b :: r2) (by simp)
      (fun t ht => (wellFormedName_chars t (h2 t ht)).1)
    rw [← h] at hne
    exact absurd rfl hne
  | a :: r1, [], h1, _, h => by
    have hne := intercalate_ne_nil "," (a :: r1) (by simp)
      (fun t ht => (wellFormedName_chars t (h1 t ht)).1)
    rw [h] at hne
    exact absurd rfl hne
  | [a], [b], _, _, h => by
    have : a = b := by simpa [String.intercalate, String.intercalate.go] using h
    rw [this]
  | [a], b :: b2 :: r2, h1, _, h => by
    rw [intercalate_cons_cons] at h
    have ha : ",".intercalate [a] = a := by simp [String.intercalate, String.intercalate.go]
    rw [ha] at h
    have hd := congrArg String.data h
    simp only [String.data_append] at hd
    have hmem : ',' ∈ a.toList := by
      show ',' ∈ a.data
      rw [hd]
      simp
    exact absurd hmem (wellFormedName_chars a (h1 a (List.mem_cons_self _ _))).2.2.1
  | a :: a2 :: r1, [b], _, h2, h => by
    rw [intercalate_cons_cons] at h
    have hb : ",".intercalate [b] = b := by simp [String.intercalate, String.intercalate.go]
    rw [hb] at h
    have hd := congrArg String.data h
    simp only [String.data_append] at hd
    have hmem : ',' ∈ b.toList := by
      show ',' ∈ b.data
      rw [← hd]
      simp
    exact absurd hmem (wellFormedName_chars b (h2 b (List.mem_cons_self _ _))).2.2.1
  | a :: a2 :: r1, b :: b2 :: r2, h1, h2, h => by
    rw [intercalate_cons_cons, intercalate_cons_cons] at h
    have hd := congrArg String.data h
    simp only [String.data_append] at hd
    have hd2 : a.data ++ ',' :: (",".intercalate (a2 :: r1)).data =
        b.data ++ ',' :: (",".intercalate (b2 :: r2)).data := by
      simpa using hd
    obtain ⟨hab, hrest⟩ := append_cons_split ',' _ _ _ _
      (wellFormedName_chars a (h1 a (List.mem_cons_self _ _))).2.2.1
      (wellFormedName_chars b (h2 b (List.mem_cons_self _ _))).2.2.1 hd2
    have hab2 : a = b := String.ext hab
    have hrest2 : ",".intercalate (a2 :: r1) = ",".intercalate (b2 :: r2) := String.ext hrest
    have ih := intercalate_injective (a2 :: r1) (b2 :: r2)
      (fun t ht => h1 t (List.mem_cons_of_mem _ ht))
      (fun t ht => h2 t (List.mem_cons_of_mem _ ht)) hrest2
    rw [hab2, ih]

theorem mangle_injective (n1 n2 : String) (ts1 ts2 : List String)
    (hn1 : wellFormedName n1 = true) (hn2 : wellFormedName n2 = true)
    (ht1 : ∀ t ∈ ts1, wellFormedName t = true) (ht2 : ∀ t ∈ ts2, wellFormedName t = true)
    (h : n1 ++ "(" ++ ",".intercalate ts1 ++ ")" = n2 ++ "(" ++ ",".intercalate ts2 ++ ")") :
    n1 = n2 ∧ ts1 = ts2 := by
  have hd := congrArg String.data h
  simp only [String.data_append] at hd
  have hd2 : n1.data ++ '(' :: ((",".intercalate ts1).data ++ [')']) =
      n2.data ++ '(' :: ((",".intercalate ts2).data ++ [')']) := by
    simpa using hd
  obtain ⟨hn, hrest⟩ := append_cons_split '(' _ _ _ _
    (wellFormedName_chars n1 hn1).2.1 (wellFormedName_chars n2 hn2).2.1 hd2
  have hj : (",".intercalate ts1).data = (",".intercalate ts2).data :=
    List.append_cancel_right hrest
  exact ⟨String.ext hn, intercalate_injective ts1 ts2 ht1 ht2 (String.ext hj)⟩

/-- C31: for function definitions that `visitFunction` names in full (types
resolve; the names and the argument type names are non-empty and have none of
`(`, `,` and `)`), two functions get the same mangled name only if they have the
same name and the same list of argument type names; and the signature
`visitFunctionCall` builds for a call (well-formed call name and argument type
names) equals the mangled name of a declared function only if the call name and
the list of the argument type names are the declared ones. -/
theorem mangled_name_injective (env : Env) (ctx1 ctx2 : FunctionContext)
    (c1 c2 d1 d2 : Compiler) (f1 f2 : ScriptFunction)
    (h1 : Declarable env ctx1 c1) (h2 : Declarable env ctx2 c2)
    (hr1 : visitFunction env ctx1 c1 = .ok d1) (hr2 : visitFunction env ctx2 c2 = .ok d2)
    (hf1 : d1._ctx.script.localFunctions[c1._ctx.script.localFunctions.length]? = some f1)
    (hf2 : d2._ctx.script.localFunctions[c2._ctx.script.localFunctions.length]? = some f2) :
    (f1.name = f2.name →
      ctx1.id.text = ctx2.id.text ∧
      ctx1.arguments.map (fun a => a.type.text) = ctx2.arguments.map (fun a => a.type.text)) ∧
    (∀ (start name : Token) (arguments : List AotNode) (c c3 : Compiler) (built : String),
      wellFormedName name.text = true →
      (∀ a ∈ arguments, wellFormedName (argTypeName env a) = true) →
      buildSignature env start arguments (name.text ++ "(") c = (some built, c3) →
      built ++ ")" = f1.name →
      name.text = ctx1.id.text ∧
      arguments.map (argTypeName env) = ctx1.arguments.map (fun a => a.type.text)) := by
  obtain ⟨⟨r1, hret1, hvoid1⟩, hargs1, hwn1, hwt1⟩ := h1
  obtain ⟨⟨r2, hret2, hvoid2⟩, hargs2, hwn2, hwt2⟩ := h2
  have hid1 : ∀ a ∈ ctx1.arguments, a.type.text.toList ≠ [] ∧
      lastChar a.type.text ≠ some '(' :=
    fun a ha => ⟨(wellFormedName_chars _ (hwt1 a ha)).1, wellFormedName_lastChar _ (hwt1 a ha)⟩
  have hid2 : ∀ a ∈ ctx2.arguments, a.type.text.toList ≠ [] ∧
      lastChar a.type.text ≠ some '(' :=
    fun a ha => ⟨(wellFormedName_chars _ (hwt2 a ha)).1, wellFormedName_lastChar _ (hwt2 a ha)⟩
  obtain ⟨g1, hg1, hname1, _⟩ :=
    visitFunction_final_name env ctx1 c1 d1 r1 hret1 hvoid1 hargs1 hid1 hr1
  obtain ⟨g2, hg2, hname2, _⟩ :=
    visitFunction_final_name env ctx2 c2 d2 r2 hret2 hvoid2 hargs2 hid2 hr2
  rw [hf1] at hg1
  rw [hf2] at hg2
  cases hg1
  cases hg2
  have hw1 : ∀ t ∈ ctx1.arguments.map (fun a => a.type.text), wellFormedName t = true := by
    intro t ht
    obtain ⟨a, ha, rfl⟩ := List.mem_map.mp ht
    exact hwt1 a ha
  have hw2 : ∀ t ∈ ctx2.arguments.map (fun a => a.type.text), wellFormedName t = true := by
    intro t ht
    obtain ⟨a, ha, rfl⟩ := List.mem_map.mp ht
    exact hwt2 a ha
  refine ⟨?_, ?_⟩
  · intro heq
    rw [hname1, hname2] at heq
    exact mangle_injective _ _ _ _ hwn1 hwn2 hw1 hw2 heq
  · intro start name arguments c c3 built hwn hwa hb heq
    have hnn := buildSignature_args env start arguments _ built c c3 hb
    have hsig := buildSignature_named env start name.text c arguments (name.text ++ "(") []
      (by simp [String.intercalate]) (by simp [lastChar_open])
      (fun a ha => by
        obtain ⟨hnull, t, ht⟩ := hnn a ha
        have hn : argTypeName env a = t.name := by simp [argTypeName, ht]
        have hw := hwa a ha
        rw [hn] at hw
        exact ⟨hnull, t, ht, (wellFormedName_chars _ hw).1, wellFormedName_lastChar _ hw⟩)
    simp only [List.nil_append] at hsig
    rw [hsig] at hb
    simp only [Prod.mk.injEq, Option.some.injEq] at hb
    rw [← hb.1, hname1] at heq
    have hwargs : ∀ t ∈ arguments.map (argTypeName env), wellFormedName t = true := by
      intro t ht
      obtain ⟨a, ha, rfl⟩ := List.mem_map.mp ht
      exact hwa a ha
    exact mangle_injective _ _ _ _ hwn hwn1 hwargs hw1 heq

/-- Witness of C31: `int f(int a, float b) { return a; }` and
`int f(int a, float a) { return a; }` both get the name `f(int,float)`, and
they have the same name and the same argument type names. -/
theorem mangled_name_injective_witness :
    sampleTwoArgs.id.text = sampleDuplicateArguments.id.text ∧
    sampleTwoArgs.arguments.map (fun a => a.type.text) =
      sampleDuplicateArguments.arguments.map (fun a => a.type.text) :=
  (mangled_name_injective nativeEnv sampleTwoArgs sampleDuplicateArguments (compilerWith [] 0)
    (compilerWith [] 0) _ _ _ _
    ⟨⟨some intType, rfl, fun h => Bool.noConfusion h⟩,
      (by
        intro a ha
        simp only [sampleTwoArgs, List.mem_cons, List.mem_singleton, List.not_mem_nil,
          or_false] at ha
        rcases ha with rfl | rfl
        · exact ⟨intType, rfl⟩
        · exact ⟨floatType, rfl⟩),
      by decide,
      (by
        intro a ha
        simp only [sampleTwoArgs, List.mem_cons, List.mem_singleton, List.not_mem_nil,
          or_false] at ha
        rcases ha with rfl | rfl <;> decide)⟩
    ⟨⟨some intType, rfl, fun h => Bool.noConfusion h⟩,
      (by
        intro a ha
        simp only [sampleDuplicateArguments, List.mem_cons, List.mem_singleton,
          List.not_mem_nil, or_false] at ha
        rcases ha with rfl | rfl
        · exact ⟨intType, rfl⟩
        · exact ⟨floatType, rfl⟩),
      by decide,
      (by
        intro a ha
        simp only [sampleDuplicateArguments, List.mem_cons, List.mem_singleton,
          List.not_mem_nil, or_false] at ha
        rcases ha with rfl | rfl <;> decide)⟩
    rfl rfl rfl rfl).1 (by decide)

end BraneScript
